import Mathlib

/-!
# Alvium file access: register link and file store

A shallow embedding of `src/src/gencp.cpp` (the GenCP register link over the
`fw_transfer` channel) and `src/src/file_access.cpp` (the file store on top of
the register link), followed by theorems about them.

Conventions of the embedding
* Memory is a `List Nat` of bytes; a pointer is a block together with an offset.
* Multi-byte struct members are stored in host byte order.  The supported hosts
  (the V4L2 sub-device drivers of the Alvium CSI-2 cameras on x86-64 and ARM
  Linux) are little-endian, so a member is the little-endian image of its value.
* Machine integers are `Nat`/`Int` with explicit reduction modulo `2^w` where the
  source truncates or wraps.
* A function that contains a loop takes a `fuel` bound on the number of
  iterations and returns `none` when the bound is hit; `none` therefore stands for
  "has not returned within the bound".
* Text written to `std::cout`/`std::cerr` is not modelled.
-/

namespace Alvium

/-! ## Machine integers and memory -/

/-- Host-order (little-endian) memory image of an unsigned integer stored in `k`
bytes; the value is truncated to `8*k` bits as a C++ narrowing store does. -/
def leBytes : Nat → Nat → List Nat
  | 0, _ => []
  | k + 1, n => n % 256 :: leBytes k (n / 256)

/-- Value of a host-order (little-endian) unsigned integer held in the bytes. -/
def leVal : List Nat → Nat
  | [] => 0
  | b :: bs => b % 256 + 256 * leVal bs

/-- Member of `k` bytes at byte offset `off` of a packed struct image. -/
def field (mem : List Nat) (off k : Nat) : Nat :=
  leVal ((mem.drop off).take k)

/-- Memory image produced by `htobe16(v)` for a value narrowed to 16 bits. -/
def htobe16 (v : Nat) : List Nat :=
  [(v % 65536) / 256, v % 256]

/-- Result of `be16toh(tmp)` where `tmp` is the 16-bit object with the given
memory image. -/
def be16toh (mem : List Nat) : Nat :=
  (mem.getD 0 0 % 256) * 256 + mem.getD 1 0 % 256

/-- Copy `bytes` into the block `mem` starting at offset `ptr` (`memcpy`, or the
kernel filling a user buffer). -/
def writeAt (mem : List Nat) (ptr : Nat) (bytes : List Nat) : List Nat :=
  mem.take ptr ++ bytes ++ mem.drop (ptr + bytes.length)

/-- Conversion of a signed 64-bit value (`ssize_t`) to `size_t`. -/
def toU64 (i : Int) : Nat :=
  (i % (2 : Int) ^ 64).toNat

/-- Conversion of an unsigned value to `int` (two's complement, 32 bits). -/
def toInt32 (n : Nat) : Int :=
  if n % 2 ^ 32 < 2 ^ 31 then ((n % 2 ^ 32 : Nat) : Int) else ((n % 2 ^ 32 : Nat) : Int) - 2 ^ 32

/-- Unsigned 64-bit subtraction (`size_t`). -/
def subU64 (a b : Nat) : Nat :=
  (a % 2 ^ 64 + 2 ^ 64 - b % 2 ^ 64) % 2 ^ 64

/-! ## Transfer channel (external collaborator)

The `fw_transfer` sysfs attribute opened in `AlviumGenCP::open`.  Its behaviour
is that of the kernel driver and the camera, so it is a parameter: a state type
`σ` with the system calls the link issues on the descriptor. -/

/-- System calls on the transfer file descriptor.  `pwrite` yields `some errno`
when the call returns a negative value, `pread` yields `Except.error errno` in
that case and otherwise the bytes the kernel delivers. -/
structure Channel (σ : Type) where
  /-- Call `::pwrite(fd, data, size, 0)`. -/
  pwrite : σ → List Nat → Option Nat × σ
  /-- Call `::pread(fd, buffer, length, 0)`. -/
  pread : σ → Nat → Except Nat (List Nat) × σ
  /-- Call `std::this_thread::sleep_for` with the given milliseconds. -/
  sleep : σ → Nat → σ
  /-- Field `st_size` left in the zero-initialised `struct stat` by `fstat`. -/
  st_size : σ → Nat

/-- Memory image of `struct avt3_fw_transfer` (packed, 8 bytes). -/
def avt3_fw_transfer (addr len rd : Nat) : List Nat :=
  leBytes 2 addr ++ leBytes 2 len ++ [rd % 256, 0, 0, 0]

/-- Size of `struct avt3_fw_transfer`. -/
def sizeof_avt3_fw_transfer : Nat := 8

/-- Function `readRawInternal` of gencp.cpp: returns the result code and the new
contents of `buffer`. -/
def readRawInternal {σ : Type} (ch : Channel σ) (s : σ) (addr : Nat) (buffer : List Nat)
    (length : Nat) : Int × List Nat × σ :=
  match ch.pwrite s (avt3_fw_transfer addr length 1) with
  | (some errno, s1) => ((errno : Int), buffer, s1)
  | (none, s1) =>
    match ch.pread s1 length with
    | (Except.error errno, s2) => ((errno : Int), buffer, s2)
    | (Except.ok bytes, s2) => (0, writeAt buffer 0 (bytes.take length), s2)

/-- Constant members of `class AlviumGenCP`: the three device-local base
addresses read in `AlviumGenCP::open` (16 bits each). -/
structure AlviumGenCP where
  m_addr0 : Nat
  m_addr1 : Nat
  m_addr2 : Nat

namespace AlviumGenCP

/-- Method `AlviumGenCP::writeRaw`. -/
def writeRaw {σ : Type} (ch : Channel σ) (s : σ) (addr : Nat) (buffer : List Nat) : Int × σ :=
  match ch.pwrite s (avt3_fw_transfer addr buffer.length 0 ++ buffer) with
  | (some errno, s1) => ((errno : Int), s1)
  | (none, s1) => (0, s1)

/-- Method `AlviumGenCP::readRaw`. -/
def readRaw {σ : Type} (ch : Channel σ) (s : σ) (addr : Nat) (buffer : List Nat)
    (length : Nat) : Int × List Nat × σ :=
  readRawInternal ch s addr buffer length

/-- The two `do ... while (tmp8 != target)` loops of `writePaket`: read the flag at
`m_addr[0] + 0x18` until it holds `target`. -/
def writePaket.poll {σ : Type} (g : AlviumGenCP) (ch : Channel σ) (target : Nat) :
    Nat → Nat → σ → Option (Int × Nat × σ)
  | 0, _, _ => none
  | fuel + 1, tmp8, s =>
    match readRaw ch s ((g.m_addr0 + 0x18) % 65536) [tmp8] 1 with
    | (res, buf, s1) =>
      if res < 0 then some (res, field buf 0 1, s1)
      else if field buf 0 1 ≠ target then writePaket.poll g ch target fuel (field buf 0 1) s1
      else some (res, field buf 0 1, s1)

/-- Method `AlviumGenCP::writePaket` (the send handshake); `paket` holds the
`length` bytes handed over. -/
def writePaket {σ : Type} (g : AlviumGenCP) (ch : Channel σ) (fuel : Nat) (s : σ)
    (paket : List Nat) : Option (Int × σ) :=
  match writePaket.poll g ch 0 fuel 255 s with
  | none => none
  | some (res, _, s1) =>
    if res < 0 then some (res, s1) else
    match writeRaw ch s1 (g.m_addr2 % 65536) paket with
    | (res, s2) =>
      if res < 0 then some (res, s2) else
      match writeRaw ch s2 ((g.m_addr0 + 0x20) % 65536) (htobe16 paket.length) with
      | (res, s3) =>
        if res < 0 then some (res, s3) else
        match writeRaw ch s3 ((g.m_addr0 + 0x18) % 65536) [1] with
        | (res, s4) =>
          if res < 0 then some (res, s4) else
          match writePaket.poll g ch 2 fuel 1 s4 with
          | none => none
          | some (res, _, s5) =>
            if res < 0 then some (res, s5) else
            match writeRaw ch s5 ((g.m_addr0 + 0x18) % 65536) [0] with
            | (res, s6) =>
              if res < 0 then some (res, s6) else some (0, s6)

/-- First `while (1)` loop of `readPaket`: wait for the response flag at
`m_addr[0] + 0x1C` to read 1, sleeping 50 ms between polls. -/
def readPaket.waitReady {σ : Type} (g : AlviumGenCP) (ch : Channel σ) :
    Nat → Nat → σ → Option (Int × Nat × σ)
  | 0, _, _ => none
  | fuel + 1, tmp8, s =>
    match readRaw ch s ((g.m_addr0 + 0x1C) % 65536) [tmp8] 1 with
    | (res, buf, s1) =>
      if res < 0 then some (res, field buf 0 1, s1)
      else if field buf 0 1 ≠ 1 then
        readPaket.waitReady g ch fuel (field buf 0 1) (ch.sleep s1 50)
      else some (res, field buf 0 1, s1)

/-- Second `while (1)` loop of `readPaket`: read the response flag until it reads
2, sleeping 50 ms between polls; the result code of `readRaw` is not examined. -/
def readPaket.waitConsumed {σ : Type} (g : AlviumGenCP) (ch : Channel σ) :
    Nat → Nat → σ → Option (Int × Nat × σ)
  | 0, _, _ => none
  | fuel + 1, tmp8, s =>
    match readRaw ch s ((g.m_addr0 + 0x1C) % 65536) [tmp8] 1 with
    | (res, buf, s1) =>
      if field buf 0 1 ≠ 2 then
        readPaket.waitConsumed g ch fuel (field buf 0 1) (ch.sleep s1 50)
      else some (res, field buf 0 1, s1)

/-- Method `AlviumGenCP::readPaket` (the receive handshake): `paket` is the
caller's buffer, `length` its size; returns the result code and the new buffer
contents. -/
def readPaket {σ : Type} (g : AlviumGenCP) (ch : Channel σ) (fuel : Nat) (s : σ)
    (paket : List Nat) (length : Nat) : Option (Int × List Nat × σ) :=
  match readPaket.waitReady g ch fuel 255 s with
  | none => none
  | some (res, _, s1) =>
    if res < 0 then some (res, paket, s1) else
    match readRaw ch s1 ((g.m_addr0 + 0x24) % 65536) [0, 0] 2 with
    | (res, buf16, s2) =>
      if res < 0 then some (res, paket, s2) else
      if be16toh buf16 > length then some (-1, paket, s2) else
      match readRaw ch s2 (g.m_addr1 % 65536) paket (be16toh buf16) with
      | (res, paket1, s3) =>
        if res < 0 then some (res, paket1, s3) else
        match writeRaw ch s3 ((g.m_addr0 + 0x1C) % 65536) [2] with
        | (res, s4) =>
          if res < 0 then some (res, paket1, s4) else
          match readPaket.waitConsumed g ch fuel 2 s4 with
          | none => none
          | some (_, _, s5) =>
            match writeRaw ch s5 ((g.m_addr0 + 0x1C) % 65536) [0] with
            | (res, s6) =>
              if res < 0 then some (res, paket1, s6) else some (0, paket1, s6)

/-- Method `AlviumGenCP::maxPacketSize`: `st_size - sizeof(avt3_fw_transfer)` is
computed in `size_t`. -/
def maxPacketSize {σ : Type} (ch : Channel σ) (s : σ) : Nat :=
  min (subU64 (ch.st_size s) sizeof_avt3_fw_transfer) 1024

end AlviumGenCP

/-! ## Packets -/

/-- Step of the reflected CRC-32 (polynomial `0xEDB88320`) for one bit. -/
def crcBit (c : Nat) : Nat :=
  if c % 2 = 1 then (c / 2) ^^^ 0xEDB88320 else c / 2

/-- Step of the reflected CRC-32 for one input byte. -/
def crcByte (c b : Nat) : Nat :=
  crcBit^[8] (c ^^^ (b % 256))

/-- Modelled from the spec: `CRC32::JAMCRC::calc` of the external header
`cppcrc.h`, which is not part of the sources: the "JAM-variant CRC32", that is
the reflected CRC-32 with initial value `0xFFFFFFFF` and no final inversion. -/
def JAMCRC (bytes : List Nat) : Nat :=
  bytes.foldl crcByte 0xFFFFFFFF

/-- Memory image of `GenCPPaket<SCD>` (packed): `GenCPPrefix` (preamble `0x0100`,
crc, channel id 0), `GenCPCCD` (flags/status code, command id, length, request
id), then the bytes of the `SCD`. -/
def GenCPPaket (crc flags command_id length request_id : Nat) (scd : List Nat) : List Nat :=
  leBytes 2 0x0100 ++ leBytes 4 crc ++ leBytes 2 0x0 ++
    (leBytes 2 flags ++ leBytes 2 command_id ++ leBytes 2 length ++ leBytes 2 request_id) ++ scd

/-- Member `ccd.status_code` (also `ccd.flags`) of a packet image. -/
def GenCPPaket.status_code (paket : List Nat) : Nat := field paket 8 2

/-- Member `ccd.command_id` of a packet image. -/
def GenCPPaket.command_id (paket : List Nat) : Nat := field paket 10 2

/-- Member `ccd.length` of a packet image. -/
def GenCPPaket.length (paket : List Nat) : Nat := field paket 12 2

/-- Member `ccd.request_id` of a packet image. -/
def GenCPPaket.request_id (paket : List Nat) : Nat := field paket 14 2

/-- Member `prefix.crc` of a packet image. -/
def GenCPPaket.crc (paket : List Nat) : Nat := field paket 2 4

/-- Member `scd.register_address` of a ReadMem or WriteMem command image. -/
def GenCPPaket.register_address (paket : List Nat) : Nat := field paket 16 8

/-- Member `timeout` of the `GenCPPendingAck` overlaid on `ack.scd`. -/
def GenCPPendingAck.timeout (paket : List Nat) : Nat := field paket 18 2

/-- Method `GenCPPaket::calcCRC`: the checksum of `sizeof(channel_id) +
sizeof(ccd) + ccd.length` bytes starting at `prefix.channel_id` is stored in
`prefix.crc`. -/
def GenCPPaket.calcCRC (paket : List Nat) : List Nat :=
  writeAt paket 2
    (leBytes 4 (JAMCRC ((paket.drop 6).take (2 + 8 + GenCPPaket.length paket))))

/-- Size of `GenCPPaket<GenCPWriteMemCmd>`. -/
def sizeof_WriteMemCmdPaket : Nat := 24

/-- Size of `GenCPPaket<GenCPWriteMemAck>`. -/
def sizeof_WriteMemAckPaket : Nat := 20

/-- Size of `GenCPPaket<GenCPReadMemCmd>`. -/
def sizeof_ReadMemCmdPaket : Nat := 28

/-- Size of `GenCPPaket<GenCPReadMemAck>` (the `SCD` is an empty array). -/
def sizeof_ReadMemAckPaket : Nat := 16

/-- The WriteMem command that `writeRegister` builds for one chunk. -/
def writeMemCmd (register_address : Nat) (data : List Nat) (m_requestId : Nat) : List Nat :=
  GenCPPaket.calcCRC
    (GenCPPaket 0 (1 <<< 14) 0x0802 (8 + data.length) m_requestId
      (leBytes 8 register_address ++ data))

/-- The ReadMem command that `readRegister` builds for one chunk. -/
def readMemCmd (register_address : Nat) (read_length : Nat) : List Nat :=
  GenCPPaket.calcCRC
    (GenCPPaket 0 (1 <<< 14) 0x0800 12 0
      (leBytes 8 register_address ++ leBytes 2 0 ++ leBytes 2 read_length))

/-! ## Register link -/

/-- What `writeRegister` and `readRegister` use of the link object: the two
handshakes, the sleep of the pending loop, `maxPacketSize`, and the contents
found in freshly `malloc`ed memory. -/
structure PaketLink (σ : Type) where
  /-- Method `writePaket(paket, length)` with `paket` the `length` bytes. -/
  writePaket : σ → List Nat → Option (Int × σ)
  /-- Method `readPaket(paket, length)`: result code and new buffer contents. -/
  readPaket : σ → List Nat → Nat → Option (Int × List Nat × σ)
  /-- Call `std::this_thread::sleep_for` with the given milliseconds. -/
  sleep : σ → Nat → σ
  /-- Method `maxPacketSize()`. -/
  maxPacketSize : σ → Nat
  /-- Indeterminate contents of a fresh allocation of the given size. -/
  heap : Nat → List Nat

/-- The packet link that the class implements over a transfer channel. -/
def AlviumGenCP.paketLink {σ : Type} (g : AlviumGenCP) (ch : Channel σ) (fuel : Nat)
    (heap : Nat → List Nat) : PaketLink σ where
  writePaket := AlviumGenCP.writePaket g ch fuel
  readPaket := AlviumGenCP.readPaket g ch fuel
  sleep := ch.sleep
  maxPacketSize := AlviumGenCP.maxPacketSize ch
  heap := heap

namespace AlviumGenCP

/-- Method `AlviumGenCP::maxReadPacketPayloadSize` (`size_t` subtraction). -/
def maxReadPacketPayloadSize {σ : Type} (pk : PaketLink σ) (s : σ) : Nat :=
  subU64 (pk.maxPacketSize s) sizeof_ReadMemAckPaket

/-- Method `AlviumGenCP::maxWritePacketPayloadSize` (`size_t` subtraction). -/
def maxWritePacketPayloadSize {σ : Type} (pk : PaketLink σ) (s : σ) : Nat :=
  subU64 (pk.maxPacketSize s) sizeof_WriteMemCmdPaket

/-- The statements `m_requestId++; if (m_requestId == 0) m_requestId = 1;` on the
16-bit member. -/
def nextRequestId (m_requestId : Nat) : Nat :=
  if (m_requestId + 1) % 65536 = 0 then 1 else (m_requestId + 1) % 65536

/-- The `do ... while (ack.ccd.command_id == 0x805)` loop of `writeRegister`:
clear the acknowledgment, receive, and sleep when it is a pending
acknowledgment. -/
def writeRegister.recvAck {σ : Type} (pk : PaketLink σ) :
    Nat → σ → Option (Int × List Nat × σ)
  | 0, _ => none
  | fuel + 1, s =>
    match pk.readPaket s (List.replicate sizeof_WriteMemAckPaket 0) sizeof_WriteMemAckPaket with
    | none => none
    | some (res, ack, s1) =>
      if res < 0 then some (res, ack, s1)
      else if GenCPPaket.command_id ack = 0x0805 then
        writeRegister.recvAck pk fuel (pk.sleep s1 (GenCPPendingAck.timeout ack))
      else some (res, ack, s1)

/-- The `while (remaining > 0)` loop of `writeRegister`.  The state of the loop is
`remaining`, `currentChunk`, the member `m_requestId` and the device; it returns
the result code with the final `currentChunk`, `m_requestId` and device. -/
def writeRegister.loop {σ : Type} (pk : PaketLink σ) (maxWriteDataSize : Nat) (addr : Nat)
    (buffer : List Nat) : Nat → Nat → Nat → Nat → σ → Option (Int × Nat × Nat × σ)
  | 0, remaining, currentChunk, m_requestId, s =>
    if remaining > 0 then none else some (0, currentChunk, m_requestId, s)
  | fuel + 1, remaining, currentChunk, m_requestId, s =>
    if remaining > 0 then
      let bytesToRead := if remaining > maxWriteDataSize then maxWriteDataSize else remaining
      let offset := (currentChunk * maxWriteDataSize) % 2 ^ 64
      let cmd := writeMemCmd ((addr + offset) % 2 ^ 64) ((buffer.drop offset).take bytesToRead)
        m_requestId
      match pk.writePaket s cmd with
      | none => none
      | some (res, s1) =>
        if res < 0 then some (res, currentChunk, m_requestId, s1) else
        match writeRegister.recvAck pk (fuel + 1) s1 with
        | none => none
        | some (res, ack, s2) =>
          if res < 0 then some (res, currentChunk, m_requestId, s2)
          else if GenCPPaket.command_id ack ≠ 0x0803 then
            some (-1, currentChunk, m_requestId, s2)
          else if GenCPPaket.status_code ack ≠ 0x0 then
            some (-1, currentChunk, m_requestId, s2)
          else if GenCPPaket.request_id ack ≠ m_requestId then
            some (-1, currentChunk, m_requestId, s2)
          else
            writeRegister.loop pk maxWriteDataSize addr buffer fuel (remaining - bytesToRead)
              (currentChunk + 1) (nextRequestId m_requestId) s2
    else some (0, currentChunk, m_requestId, s)

/-- Method `AlviumGenCP::writeRegister(addr, buffer, length)` with `buffer` the
`length` bytes; the state is the member `m_requestId` and the device. -/
def writeRegister {σ : Type} (pk : PaketLink σ) (fuel : Nat) (st : Nat × σ) (addr : Nat)
    (buffer : List Nat) : Option (Int × Nat × σ) :=
  match writeRegister.loop pk (maxWritePacketPayloadSize pk st.2) addr buffer fuel
      buffer.length 0 st.1 st.2 with
  | none => none
  | some (res, _, m_requestId, s) => some (res, m_requestId, s)

/-- Contents of the buffer `makeDynamicStructUniquePtr<GenCPPaket<GenCPReadMemAck>>`
returns: the value-initialised header followed by `arrayLength` bytes as found on
the heap. -/
def readMemAckBuffer {σ : Type} (pk : PaketLink σ) (arrayLength : Nat) : List Nat :=
  GenCPPaket 0 0 0 0 0 [] ++ (pk.heap arrayLength ++ List.replicate arrayLength 0).take arrayLength

/-- The `while (remaining > 0)` loop of `readRegister`; `mem` with offset `ptr` is
the caller's `buffer`.  Returns the result code with the final `currentChunk`,
the new contents of `mem` and the device. -/
def readRegister.loop {σ : Type} (pk : PaketLink σ) (maxReadDataSize : Nat) (addr : Nat)
    (ptr : Nat) : Nat → Nat → Nat → List Nat → σ → Option (Int × Nat × List Nat × σ)
  | 0, remaining, currentChunk, mem, s =>
    if remaining > 0 then none else some (0, currentChunk, mem, s)
  | fuel + 1, remaining, currentChunk, mem, s =>
    if remaining > 0 then
      let bytesToRead := if remaining > maxReadDataSize then maxReadDataSize else remaining
      let offset := (currentChunk * maxReadDataSize) % 2 ^ 64
      let cmd := readMemCmd ((addr + offset) % 2 ^ 64) bytesToRead
      match pk.writePaket s cmd with
      | none => none
      | some (res, s1) =>
        if res < 0 then some (res, currentChunk, mem, s1) else
        match pk.readPaket s1 (readMemAckBuffer pk bytesToRead)
            (sizeof_ReadMemAckPaket + bytesToRead) with
        | none => none
        | some (res, ack, s2) =>
          if res < 0 then some (res, currentChunk, mem, s2)
          else if GenCPPaket.command_id ack ≠ 0x0801 then some (-1, currentChunk, mem, s2)
          else if GenCPPaket.status_code ack ≠ 0x0 then some (-1, currentChunk, mem, s2)
          else
            readRegister.loop pk maxReadDataSize addr ptr fuel (remaining - bytesToRead)
              (currentChunk + 1)
              (writeAt mem (ptr + offset) ((ack.drop sizeof_ReadMemAckPaket).take bytesToRead)) s2
    else some (0, currentChunk, mem, s)

/-- Method `AlviumGenCP::readRegister(addr, buffer, length)` where `buffer` points
at offset `ptr` of the block `mem`; returns the result code, the new contents of
the block, and the state. -/
def readRegister {σ : Type} (pk : PaketLink σ) (fuel : Nat) (st : Nat × σ) (addr : Nat)
    (mem : List Nat) (ptr : Nat) (length : Nat) : Option (Int × List Nat × Nat × σ) :=
  match readRegister.loop pk (maxReadPacketPayloadSize pk st.2) addr ptr fuel length 0 mem
      st.2 with
  | none => none
  | some (res, _, mem1, s) => some (res, mem1, st.1, s)

end AlviumGenCP

/-- Value of the member `m_requestId` in a freshly constructed link
(`uint16_t m_requestId{1}`). -/
def AlviumGenCP.initialRequestId : Nat := 1

/-- What the packet link was asked to do, in order. -/
inductive PaketEvent
  | sent (paket : List Nat) (res : Int)
  | received (length : Nat) (res : Int) (paket : List Nat)
  | slept (ms : Nat)
  deriving DecidableEq, Repr

/-- The same packet link, recording every call in a log carried in the state. -/
def PaketLink.logged {σ : Type} (pk : PaketLink σ) : PaketLink (σ × List PaketEvent) where
  writePaket := fun s paket =>
    match pk.writePaket s.1 paket with
    | none => none
    | some (res, s1) => some (res, s1, s.2 ++ [PaketEvent.sent paket res])
  readPaket := fun s paket length =>
    match pk.readPaket s.1 paket length with
    | none => none
    | some (res, paket1, s1) => some (res, paket1, s1, s.2 ++ [PaketEvent.received length res paket1])
  sleep := fun s ms => (pk.sleep s.1 ms, s.2 ++ [PaketEvent.slept ms])
  maxPacketSize := fun s => pk.maxPacketSize s.1
  heap := pk.heap

/-- The packets handed to `writePaket`, in order. -/
def sentPakets : List PaketEvent → List (List Nat)
  | [] => []
  | PaketEvent.sent paket _ :: rest => paket :: sentPakets rest
  | _ :: rest => sentPakets rest

/-! ## File store -/

/-- What the file store uses of the `AlviumGenCP &` it holds. -/
structure RegisterLink (σ : Type) where
  /-- Method `writeRegister(addr, buffer, length)` with `buffer` the `length` bytes. -/
  writeRegister : σ → Nat → List Nat → Option (Int × σ)
  /-- Method `readRegister(addr, buffer, length)` where `buffer` points at offset
  `ptr` of the block `mem`: result code and new contents of the block. -/
  readRegister : σ → Nat → List Nat → Nat → Nat → Option (Int × List Nat × σ)
  /-- Method `maxReadPacketPayloadSize()`. -/
  maxReadPacketPayloadSize : σ → Nat
  /-- Method `maxWritePacketPayloadSize()`. -/
  maxWritePacketPayloadSize : σ → Nat

/-- The register link that the class implements over a packet link; the state is
the member `m_requestId` and the device. -/
def AlviumGenCP.registerLink {σ : Type} (pk : PaketLink σ) (fuel : Nat) :
    RegisterLink (Nat × σ) where
  writeRegister := fun st addr buffer => AlviumGenCP.writeRegister pk fuel st addr buffer
  readRegister := fun st addr mem ptr length =>
    match AlviumGenCP.readRegister pk fuel st addr mem ptr length with
    | none => none
    | some (res, mem1, m_requestId, s) => some (res, mem1, m_requestId, s)
  maxReadPacketPayloadSize := fun st => AlviumGenCP.maxReadPacketPayloadSize pk st.2
  maxWritePacketPayloadSize := fun st => AlviumGenCP.maxWritePacketPayloadSize pk st.2

/-- Enumeration `FileOperation` (`uint8_t`). -/
inductive FileOperation
  | Open
  | Close
  | Read
  | Write
  | Delete
  deriving DecidableEq, Repr

/-- Enumerator values of `FileOperation`. -/
def FileOperation.toNat : FileOperation → Nat
  | FileOperation.Open => 0
  | FileOperation.Close => 1
  | FileOperation.Read => 2
  | FileOperation.Write => 3
  | FileOperation.Delete => 4

/-- Enumeration `FileOpenMode` (`uint8_t`). -/
inductive FileOpenMode
  | Read
  | Write
  deriving DecidableEq, Repr

/-- Enumerator values of `FileOpenMode`. -/
def FileOpenMode.toNat : FileOpenMode → Nat
  | FileOpenMode.Read => 1
  | FileOpenMode.Write => 2

/-- Enumeration `FileSelector` with underlying type `uint32_t`: a value is used
modulo `2^32`. -/
abbrev FileSelector := Nat

/-- Enumerator `FileSelector::UserData`. -/
def FileSelector.UserData : FileSelector := 0x11

def FileAccessBufferAddr : Nat := 0xD0004000
def FileAccessBufferLength : Nat := 0x0400
def StructFileStatusAddr : Nat := 0xD0000100
def StructFileStatusLength : Nat := 0x08
def RegFileOperationExecuteAddr : Nat := 0xD0003000
def RegFileOperationExecuteLength : Nat := 0x08
def RegFileAccessOffsetAddr : Nat := 0xD0005000
def RegFileSizeBaseAddr : Nat := 0xD0005300
def RegFileSizeLength : Nat := 0x4
def RegFileAccessLengthAddr : Nat := 0xD0005100
def RegFileAccessLengthLength : Nat := 0x04
def RegFileSizeMaxAddr : Nat := 0xD0005210
def RegFileSizeMaxLength : Nat := 0x4

/-- Bit-field `open` of `struct FileStatus`: bit 0 of the first 16-bit unit. -/
def FileStatus.open (status : List Nat) : Bool :=
  field status 0 2 % 2 = 1

/-- Member `selector_open` of `struct FileStatus` (bytes 4 to 7). -/
def FileStatus.selector_open (status : List Nat) : Nat :=
  field status 4 4

/-- Function `readFileStatus`: `status` is the image of the caller's
`FileStatus` object. -/
def readFileStatus {σ : Type} (gencp : RegisterLink σ) (s : σ) (status : List Nat) :
    Option (Int × List Nat × σ) :=
  match gencp.readRegister s StructFileStatusAddr status 0 StructFileStatusLength with
  | none => none
  | some (res, status1, s1) => if res < 0 then some (res, status1, s1) else some (0, status1, s1)

/-- The 64-bit value `executeFileOperation` composes. -/
def fileOperationValue (operation : FileOperation) (selector : FileSelector)
    (open_mode : Option FileOpenMode) : Nat :=
  let val := operation.toNat ||| ((selector % 2 ^ 32) <<< 32)
  match operation, open_mode with
  | FileOperation.Open, some mode => val ||| (mode.toNat <<< 16)
  | _, _ => val

/-- Function `executeFileOperation`. -/
def executeFileOperation {σ : Type} (gencp : RegisterLink σ) (s : σ) (operation : FileOperation)
    (selector : FileSelector) (open_mode : Option FileOpenMode) : Option (Int × σ) :=
  if operation = FileOperation.Open ∧ open_mode = none then some (-1, s)
  else
    gencp.writeRegister s RegFileOperationExecuteAddr
      (leBytes RegFileOperationExecuteLength (fileOperationValue operation selector open_mode))

/-- The members `m_selector` and `m_openMode` of `class File`; `m_gencp` is the
register link passed to each method, `*m_refCount` is the counter below. -/
structure File where
  m_selector : FileSelector
  m_openMode : FileOpenMode
  deriving DecidableEq, Repr

namespace File

/-- Static method `File::open`; `none` inside is `std::nullopt`. -/
def «open» {σ : Type} (gencp : RegisterLink σ) (s : σ) (selector : FileSelector)
    (openMode : FileOpenMode) : Option (Option File × σ) :=
  match readFileStatus gencp s (List.replicate 8 0) with
  | none => none
  | some (res, status, s1) =>
    if res < 0 then some (none, s1) else
    match (if FileStatus.open status then
        executeFileOperation gencp s1 FileOperation.Close (FileStatus.selector_open status) none
      else some (0, s1)) with
    | none => none
    | some (res, s2) =>
      if res < 0 then some (none, s2) else
      match executeFileOperation gencp s2 FileOperation.Open selector (some openMode) with
      | none => none
      | some (res, s3) =>
        if res < 0 then some (none, s3) else
        match readFileStatus gencp s3 status with
        | none => none
        | some (res, status1, s4) =>
          if res < 0 then some (none, s4)
          else if ¬ FileStatus.open status1 then some (none, s4)
          else some (some { m_selector := selector % 2 ^ 32, m_openMode := openMode }, s4)

/-- Static method `File::remove`. -/
def remove {σ : Type} (gencp : RegisterLink σ) (s : σ) (selector : FileSelector) :
    Option (Int × σ) :=
  executeFileOperation gencp s FileOperation.Delete selector none

/-- Constructor `File::File(gencp, selector, openMode)`: the new counter holds 1. -/
def newRefCount : Nat := 1

/-- Copy constructor `File::File(const File &)`: `(*m_refCount)++` on the shared
`size_t` counter. -/
def copy (refCount : Nat) : Nat :=
  (refCount + 1) % 2 ^ 64

/-- Destructor `File::~File`: decrement the shared `size_t` counter (0 wraps to
`2^64 - 1`) and, when it reaches zero, execute Close for the selector; the result
of the call is discarded. -/
def destroy {σ : Type} (gencp : RegisterLink σ) (f : File) (refCount : Nat) (s : σ) :
    Option (Nat × σ) :=
  let refCount1 := if refCount = 0 then 2 ^ 64 - 1 else refCount - 1
  if refCount1 = 0 then
    match executeFileOperation gencp s FileOperation.Close f.m_selector none with
    | none => none
    | some (_, s1) => some (refCount1, s1)
  else some (refCount1, s)

/-- Method `File::length`. -/
def length {σ : Type} (gencp : RegisterLink σ) (f : File) (s : σ) : Option (Int × σ) :=
  match gencp.readRegister s (RegFileSizeBaseAddr + RegFileSizeLength * (f.m_selector % 2 ^ 32))
      (List.replicate 4 0) 0 RegFileSizeLength with
  | none => none
  | some (res, fileLength, s1) =>
    if res < 0 then some (res, s1) else some ((field fileLength 0 4 : Nat), s1)

/-- The `while (remaining > 0)` loop of `File::write`; `remaining` and `chunkIdx`
are `uint32_t`. -/
def write.loop {σ : Type} (gencp : RegisterLink σ) (f : File) (data : List Nat)
    (chunkSize : Nat) : Nat → Nat → Nat → σ → Option (Int × σ)
  | 0, remaining, _, s =>
    if remaining > 0 then none else some (toInt32 data.length, s)
  | fuel + 1, remaining, chunkIdx, s =>
    if remaining > 0 then
      let bytesToRead := if remaining > chunkSize then chunkSize else remaining
      let offset := (chunkIdx * chunkSize) % 2 ^ 32
      match gencp.writeRegister s RegFileAccessLengthAddr (leBytes 4 bytesToRead) with
      | none => none
      | some (res, s1) =>
        if res < 0 then some (res, s1) else
        match gencp.writeRegister s1 FileAccessBufferAddr
            ((data.drop offset).take bytesToRead) with
        | none => none
        | some (res, s2) =>
          if res < 0 then some (res, s2) else
          match executeFileOperation gencp s2 FileOperation.Write f.m_selector none with
          | none => none
          | some (res, s3) =>
            if res < 0 then some (res, s3) else
            write.loop gencp f data chunkSize fuel (remaining - bytesToRead)
              ((chunkIdx + 1) % 2 ^ 32) s3
    else some (toInt32 data.length, s)

/-- Method `File::write(data, length)` with `data` the `length` bytes.  The test
`optlen < 0` on the `size_t` value never holds and is omitted. -/
def write {σ : Type} (gencp : RegisterLink σ) (fuel : Nat) (f : File) (s : σ)
    (data : List Nat) : Option (Int × σ) :=
  if f.m_openMode = FileOpenMode.Read then some (-1, s) else
  match File.length gencp f s with
  | none => none
  | some (len, s1) =>
    if len ≠ 0 then some (-1, s1) else
    match gencp.readRegister s1 RegFileSizeMaxAddr (List.replicate 4 0) 0 RegFileSizeMaxLength with
    | none => none
    | some (res, maxFileLength, s2) =>
      if res < 0 then some (res, s2)
      else if data.length > field maxFileLength 0 4 then some (-1, s2)
      else
        write.loop gencp f data
          ((min FileAccessBufferLength (gencp.maxWritePacketPayloadSize s1)) % 2 ^ 32)
          fuel (data.length % 2 ^ 32) 0 s2

/-- The `while (remaining > 0)` loop of `File::read`; the caller's buffer is the
block `data`.  Returns `length` when the loop ends. -/
def read.loop {σ : Type} (gencp : RegisterLink σ) (f : File) (length : Int)
    (chunkSize : Nat) : Nat → Nat → Nat → List Nat → σ → Option (Int × List Nat × σ)
  | 0, remaining, _, data, s =>
    if remaining > 0 then none else some (length, data, s)
  | fuel + 1, remaining, chunkIdx, data, s =>
    if remaining > 0 then
      let bytesToRead := if remaining > chunkSize then chunkSize else remaining
      let offset := (chunkIdx * chunkSize) % 2 ^ 32
      match gencp.writeRegister s RegFileAccessLengthAddr (leBytes 4 bytesToRead) with
      | none => none
      | some (res, s1) =>
        if res < 0 then some (res, data, s1) else
        match executeFileOperation gencp s1 FileOperation.Read f.m_selector none with
        | none => none
        | some (res, s2) =>
          if res < 0 then some (res, data, s2) else
          match gencp.readRegister s2 FileAccessBufferAddr data offset bytesToRead with
          | none => none
          | some (res, data1, s3) =>
            if res < 0 then some (res, data1, s3) else
            read.loop gencp f length chunkSize fuel (remaining - bytesToRead)
              ((chunkIdx + 1) % 2 ^ 32) data1 s3
    else some (length, data, s)

/-- Method `File::read(data, maxLength)`.  `length` is an `ssize_t`; the comparison
`length > maxLength` converts it to `size_t`. -/
def read {σ : Type} (gencp : RegisterLink σ) (fuel : Nat) (f : File) (s : σ)
    (data : List Nat) (maxLength : Nat) : Option (Int × List Nat × σ) :=
  if f.m_openMode = FileOpenMode.Write then some (-1, data, s) else
  match File.length gencp f s with
  | none => none
  | some (length, s1) =>
    if length = 0 ∨ toU64 length > maxLength then some (-1, data, s1)
    else
      read.loop gencp f length
        ((min FileAccessBufferLength (gencp.maxReadPacketPayloadSize s1)) % 2 ^ 32)
        fuel (toU64 length % 2 ^ 32) 0 data s1

end File

/-- What the register link was asked to do, in order. -/
inductive RegisterEvent
  | wrote (addr : Nat) (bytes : List Nat) (res : Int)
  | read (addr : Nat) (ptr : Nat) (length : Nat) (res : Int) (mem : List Nat)
  deriving DecidableEq, Repr

/-- The same register link, recording every call in a log carried in the state. -/
def RegisterLink.logged {σ : Type} (gencp : RegisterLink σ) :
    RegisterLink (σ × List RegisterEvent) where
  writeRegister := fun s addr bytes =>
    match gencp.writeRegister s.1 addr bytes with
    | none => none
    | some (res, s1) => some (res, s1, s.2 ++ [RegisterEvent.wrote addr bytes res])
  readRegister := fun s addr mem ptr length =>
    match gencp.readRegister s.1 addr mem ptr length with
    | none => none
    | some (res, mem1, s1) =>
      some (res, mem1, s1, s.2 ++ [RegisterEvent.read addr ptr length res mem1])
  maxReadPacketPayloadSize := fun s => gencp.maxReadPacketPayloadSize s.1
  maxWritePacketPayloadSize := fun s => gencp.maxWritePacketPayloadSize s.1

/-- Whether the event is a register write. -/
def RegisterEvent.isWrite : RegisterEvent → Bool
  | RegisterEvent.wrote _ _ _ => true
  | RegisterEvent.read _ _ _ _ _ => false

/-! ## Devices

Concrete collaborators on which the code above can be evaluated. -/

/-- Reply of a scripted transfer channel to one system call. -/
inductive Reply
  | ok (bytes : List Nat)
  | fail (errno : Nat)
  deriving DecidableEq, Repr

/-- System call seen by a scripted transfer channel. -/
inductive Syscall
  | pwrite (data : List Nat)
  | pread (length : Nat)
  | sleep (ms : Nat)
  deriving DecidableEq, Repr

/-- State of a scripted transfer channel: the replies still to give and the calls
seen so far. -/
structure Scripted where
  script : List Reply
  calls : List Syscall
  deriving DecidableEq, Repr

/-- A transfer channel that answers the system calls from a script, in order, and
succeeds with no data once the script is used up. -/
def scriptedChannel (st_size : Nat) : Channel Scripted where
  pwrite := fun s data =>
    match s.script with
    | Reply.fail errno :: rest => (some errno, { script := rest, calls := s.calls ++ [Syscall.pwrite data] })
    | _ :: rest => (none, { script := rest, calls := s.calls ++ [Syscall.pwrite data] })
    | [] => (none, { script := [], calls := s.calls ++ [Syscall.pwrite data] })
  pread := fun s length =>
    match s.script with
    | Reply.fail errno :: rest =>
      (Except.error errno, { script := rest, calls := s.calls ++ [Syscall.pread length] })
    | Reply.ok bytes :: rest =>
      (Except.ok bytes, { script := rest, calls := s.calls ++ [Syscall.pread length] })
    | [] => (Except.ok [], { script := [], calls := s.calls ++ [Syscall.pread length] })
  sleep := fun s ms => { s with calls := s.calls ++ [Syscall.sleep ms] }
  st_size := fun _ => st_size

/-- A packet link whose device acknowledges every command: the state is the last
command handed over; a WriteMem command is answered by a WriteMem acknowledgment
echoing its request id, any other command by a ReadMem acknowledgment carrying
zero bytes. -/
def ackingLink (maxPacketSize : Nat) : PaketLink (List Nat) where
  writePaket := fun _ paket => some (0, paket)
  readPaket := fun s paket length =>
    if GenCPPaket.command_id s = 0x0802 then
      some (0, writeAt paket 0
        ((GenCPPaket 0 0 0x0803 4 (GenCPPaket.request_id s) [0, 0, 0, 0]).take length), s)
    else
      some (0, writeAt paket 0
        ((GenCPPaket 0 0 0x0801 (field s 26 2) 0 (List.replicate (field s 26 2) 0)).take length), s)
  sleep := fun s _ => s
  maxPacketSize := fun _ => maxPacketSize
  heap := fun n => List.replicate n 0

/-- A packet link whose device answers every command with the given
acknowledgment image. -/
def fixedAckLink (ack : List Nat) : PaketLink Unit where
  writePaket := fun _ _ => some (0, ())
  readPaket := fun _ paket length => some (0, writeAt paket 0 (ack.take length), ())
  sleep := fun _ _ => ()
  maxPacketSize := fun _ => 1024
  heap := fun n => List.replicate n 0

/-- A register link on which every register access fails with -1. -/
def failingLink : RegisterLink Unit where
  writeRegister := fun _ _ _ => some (-1, ())
  readRegister := fun _ _ mem _ _ => some (-1, mem, ())
  maxReadPacketPayloadSize := fun _ => 1008
  maxWritePacketPayloadSize := fun _ => 1000

/-- State of the device model behind the register map of the file store: the
stored content of each selector, the access buffer and access-length register,
the read position in the open file, the status, and the constants the device
reports. -/
structure ModelDevice where
  files : Nat → List Nat
  accessBuffer : List Nat
  accessLength : Nat
  readPos : Nat
  status_open : Bool
  selector_open : Nat
  maxFileLength : Nat
  maxReadPayload : Nat
  maxWritePayload : Nat

namespace ModelDevice

/-- Effect of writing `val` to the operation-execute register: Open (0) marks the
selector open and rewinds the read position, Close (1) clears the open flag,
Read (2) loads the next access-length bytes of the file into the access buffer,
Write (3) appends the first access-length bytes of the access buffer to the file,
Delete (4) empties the file. -/
def execute (d : ModelDevice) (val : Nat) : ModelDevice :=
  let operation := val % 2 ^ 16
  let selector := val / 2 ^ 32
  if operation = 0 then { d with status_open := true, selector_open := selector, readPos := 0 }
  else if operation = 1 then { d with status_open := false }
  else if operation = 2 then
    { d with
      accessBuffer :=
        writeAt d.accessBuffer 0 (((d.files selector).drop d.readPos).take d.accessLength)
      readPos := d.readPos + d.accessLength }
  else if operation = 3 then
    { d with
      files := Function.update d.files selector
        (d.files selector ++ d.accessBuffer.take d.accessLength) }
  else if operation = 4 then { d with files := Function.update d.files selector [] }
  else d

/-- Effect of a register write. -/
def store (d : ModelDevice) (addr : Nat) (bytes : List Nat) : ModelDevice :=
  if addr = RegFileAccessLengthAddr then { d with accessLength := leVal (bytes.take 4) }
  else if addr = FileAccessBufferAddr then { d with accessBuffer := writeAt d.accessBuffer 0 bytes }
  else if addr = RegFileOperationExecuteAddr then d.execute (leVal (bytes.take 8))
  else d

/-- Contents the device reports at a register address: the status structure, the
access buffer, the maximum file size, and from `RegFileSizeBaseAddr` on the
stored length of each selector (4 bytes per selector). -/
def load (d : ModelDevice) (addr : Nat) : List Nat :=
  if addr = StructFileStatusAddr then
    [if d.status_open then 1 else 0, 0, 0, 0] ++ leBytes 4 d.selector_open
  else if addr = FileAccessBufferAddr then d.accessBuffer
  else if addr = RegFileSizeMaxAddr then leBytes 4 d.maxFileLength
  else if RegFileSizeBaseAddr ≤ addr then
    leBytes 4 (d.files ((addr - RegFileSizeBaseAddr) / 4)).length
  else []

/-- The register link of the device model: every access succeeds. -/
def link : RegisterLink ModelDevice where
  writeRegister := fun d addr bytes => some (0, d.store addr bytes)
  readRegister := fun d addr mem ptr length => some (0, writeAt mem ptr ((d.load addr).take length), d)
  maxReadPacketPayloadSize := fun d => d.maxReadPayload
  maxWritePacketPayloadSize := fun d => d.maxWritePayload

/-- A device with every file empty, closed, with maximum file size 65536 and the
payload limits of a 1024-byte packet. -/
def fresh : ModelDevice where
  files := fun _ => []
  accessBuffer := []
  accessLength := 0
  readPos := 0
  status_open := false
  selector_open := 0
  maxFileLength := 65536
  maxReadPayload := 1008
  maxWritePayload := 1000

end ModelDevice

/-! ## Handles -/

/-- What happens to the handles derived from one `File::open`: a live handle is
copied, or a live handle is destroyed. -/
inductive HandleAction
  | copy
  | destroy
  deriving DecidableEq, Repr

/-- Number of live handles after the actions, starting from `live` handles. -/
def liveAfter : List HandleAction → Nat → Nat
  | [], live => live
  | HandleAction.copy :: rest, live => liveAfter rest (live + 1)
  | HandleAction.destroy :: rest, live => liveAfter rest (live - 1)

/-- The actions are possible: each one is applied to a live handle, so none
happens once no handle is left. -/
def possible : List HandleAction → Nat → Bool
  | [], _ => true
  | HandleAction.copy :: rest, live => decide (0 < live) && possible rest (live + 1)
  | HandleAction.destroy :: rest, live => decide (0 < live) && possible rest (live - 1)

/-- Run the copy constructor and the destructor of `File` for each action on the
shared counter `*m_refCount` and the device. -/
def runHandles {σ : Type} (gencp : RegisterLink σ) (f : File) :
    List HandleAction → Nat → σ → Option (Nat × σ)
  | [], refCount, s => some (refCount, s)
  | HandleAction.copy :: rest, refCount, s => runHandles gencp f rest (File.copy refCount) s
  | HandleAction.destroy :: rest, refCount, s =>
    match File.destroy gencp f refCount s with
    | none => none
    | some (refCount1, s1) => runHandles gencp f rest refCount1 s1


/-! ## Assumptions on the device used in the statements -/

/-- The packets obtained from `readPaket`, in order. -/
def receivedPakets : List PaketEvent → List (List Nat)
  | [] => []
  | PaketEvent.received _ _ paket :: rest => paket :: receivedPakets rest
  | _ :: rest => receivedPakets rest

/-- The device acknowledges every WriteMem chunk: in every state the send
handshake of a WriteMem command succeeds, and the receive handshake that follows
succeeds with a WriteMem acknowledgment of status 0 that echoes the request id of
the command. -/
def AcksEveryWrite {σ : Type} (pk : PaketLink σ) : Prop :=
  ∀ (s : σ) (cmd : List Nat), GenCPPaket.command_id cmd = 0x0802 → ∃ (res : Int) (s1 : σ),
    pk.writePaket s cmd = some (res, s1) ∧ ¬ res < 0 ∧
    ∃ (res2 : Int) (ack : List Nat) (s2 : σ),
      pk.readPaket s1 (List.replicate sizeof_WriteMemAckPaket 0) sizeof_WriteMemAckPaket
        = some (res2, ack, s2) ∧ ¬ res2 < 0 ∧
      GenCPPaket.command_id ack = 0x0803 ∧ GenCPPaket.status_code ack = 0 ∧
      GenCPPaket.request_id ack = GenCPPaket.request_id cmd

/-- The device acknowledges every ReadMem chunk: in every state the send
handshake of a ReadMem command succeeds, and the receive handshake that follows,
into a buffer that has room for the packet header, succeeds with a ReadMem
acknowledgment of status 0. -/
def AcksEveryRead {σ : Type} (pk : PaketLink σ) : Prop :=
  ∀ (s : σ) (cmd : List Nat), GenCPPaket.command_id cmd = 0x0800 → ∃ (res : Int) (s1 : σ),
    pk.writePaket s cmd = some (res, s1) ∧ ¬ res < 0 ∧
    ∀ (paket : List Nat) (length : Nat), sizeof_ReadMemAckPaket ≤ length →
      ∃ (res2 : Int) (ack : List Nat) (s2 : σ),
      pk.readPaket s1 paket length = some (res2, ack, s2) ∧ ¬ res2 < 0 ∧
      GenCPPaket.command_id ack = 0x0801 ∧ GenCPPaket.status_code ack = 0

/-- Number of chunks of at most `L` bytes that cover `n` bytes: `ceil(n / L)`. -/
def chunkCount (n L : Nat) : Nat :=
  (n + L - 1) / L


/-- Base addresses used when the link is evaluated on a scripted channel. -/
def sampleGenCP : AlviumGenCP where
  m_addr0 := 0x100
  m_addr1 := 0x200
  m_addr2 := 0x300

/-- Replies of a transfer channel during one `writeRegister` of a single chunk
with request id 1: every system call succeeds and the flags read as the
handshakes expect, except that the `pwrite` staging the command packet (the
third system call) fails with `EIO` (errno 5); the acknowledgment delivered is a
WriteMem acknowledgment with status 0 and request id 1. -/
def stagingFailureScript : List Reply :=
  [Reply.ok [], Reply.ok [0],
   Reply.fail 5,
   Reply.ok [],
   Reply.ok [],
   Reply.ok [], Reply.ok [2],
   Reply.ok [],
   Reply.ok [], Reply.ok [1],
   Reply.ok [], Reply.ok [0, 20],
   Reply.ok [], Reply.ok (GenCPPaket 0 0 0x0803 4 1 [0, 0, 0, 0]),
   Reply.ok [],
   Reply.ok [], Reply.ok [2],
   Reply.ok []]


/-- The fresh device model with the given content stored for selector
`UserData`. -/
def ModelDevice.holding (content : List Nat) : ModelDevice :=
  { ModelDevice.fresh with
    files := fun selector => if selector = FileSelector.UserData then content else [] }

/-- The register accesses `File::open` makes when every access succeeds, given
what the accesses return: the status read, a Close for the selector the status
reports open exactly when the open bit of the status is set, the Open for the
requested selector and mode, and the second status read. -/
def openSequence (selector : FileSelector) (openMode : FileOpenMode) (res0 : Int)
    (status0 : List Nat) (res1 res2 res3 : Int) (status1 : List Nat) : List RegisterEvent :=
  [RegisterEvent.read StructFileStatusAddr 0 StructFileStatusLength res0 status0] ++
  (if FileStatus.open status0 then
    [RegisterEvent.wrote RegFileOperationExecuteAddr
      (leBytes 8 (fileOperationValue FileOperation.Close (FileStatus.selector_open status0) none))
      res1]
   else []) ++
  [RegisterEvent.wrote RegFileOperationExecuteAddr
      (leBytes 8 (fileOperationValue FileOperation.Open selector (some openMode))) res2,
   RegisterEvent.read StructFileStatusAddr 0 StructFileStatusLength res3 status1]


/-! ## Pending acknowledgments -/

/-- The device answers the receive handshakes that start in state `s` with the
pending acknowledgments `pend` (result code and packet of each, in order): each
receive returns without error a packet whose command id is `0x0805`; `s1` is the
state after the sleep that follows the last of them. -/
def AnswersPending {σ : Type} (pk : PaketLink σ) : List (Int × List Nat) → σ → σ → Prop
  | [], s, s1 => s1 = s
  | (res, p) :: rest, s, s1 =>
    ∃ (s0 : σ),
      pk.readPaket s (List.replicate sizeof_WriteMemAckPaket 0) sizeof_WriteMemAckPaket
        = some (res, p, s0) ∧
      ¬ res < 0 ∧ GenCPPaket.command_id p = 0x0805 ∧
      AnswersPending pk rest (pk.sleep s0 (GenCPPendingAck.timeout p)) s1

/-- Calls the link makes while it receives the pending acknowledgments `pend`:
a receive handshake and a sleep for each. -/
def pendingEvents : List (Int × List Nat) → List PaketEvent
  | [] => []
  | (res, p) :: rest =>
    PaketEvent.received sizeof_WriteMemAckPaket res p ::
      PaketEvent.slept (GenCPPendingAck.timeout p) :: pendingEvents rest

/-- The milliseconds of the sleeps the link asked for, in order. -/
def sleptMs : List PaketEvent → List Nat
  | [] => []
  | PaketEvent.slept ms :: rest => ms :: sleptMs rest
  | _ :: rest => sleptMs rest

/-- A packet link whose device accepts every command and answers the receive
handshakes with the packets of a queue, in order; with the queue empty the
receive handshake fails. -/
def queuedLink (maxPacketSize : Nat) : PaketLink (List (List Nat)) where
  writePaket := fun s _ => some (0, s)
  readPaket := fun s paket length =>
    match s with
    | [] => some (-1, paket, [])
    | p :: rest => some (0, writeAt paket 0 (p.take length), rest)
  sleep := fun s _ => s
  maxPacketSize := fun _ => maxPacketSize
  heap := fun n => List.replicate n 0

/-- Image of a pending acknowledgment with the given request id and timeout. -/
def pendingAck (request_id timeout : Nat) : List Nat :=
  GenCPPaket 0 0 0x0805 4 request_id (leBytes 2 0 ++ leBytes 2 timeout)


/-! ## Response flag polls -/

/-- A poll of the response flag at `m_addr[0] + 0x1C` in state `s` succeeds and
reads the byte `v`, leaving the channel in state `s0`, whatever `tmp8` held. -/
def ReadsFlag {σ : Type} (g : AlviumGenCP) (ch : Channel σ) (s : σ) (v : Nat) (s0 : σ) : Prop :=
  v < 256 ∧
  ∀ (tmp8 : Nat), AlviumGenCP.readRaw ch s ((g.m_addr0 + 0x1C) % 65536) [tmp8] 1 = (0, [v], s0)

/-- Successive polls of the response flag, each followed by a sleep of 50 ms,
read the bytes `vs` in order; `s1` is the state after the last sleep. -/
def FlagSequence {σ : Type} (g : AlviumGenCP) (ch : Channel σ) : List Nat → σ → σ → Prop
  | [], s, s1 => s1 = s
  | v :: rest, s, s1 =>
    ∃ (s0 : σ), ReadsFlag g ch s v s0 ∧ FlagSequence g ch rest (ch.sleep s0 50) s1

/-- Replies of a transfer channel during one `readPaket` into a buffer of four
bytes: the response flag reads 1, the response length register holds 4
(big-endian), the response is `[9, 9, 9, 9]`, and each poll of the flag that
follows the write of 2 reads one byte of `polls`. -/
def receiveScript (polls : List Nat) : List Reply :=
  [Reply.ok [], Reply.ok [1],
   Reply.ok [], Reply.ok [0, 4],
   Reply.ok [], Reply.ok [9, 9, 9, 9],
   Reply.ok []] ++
  polls.flatMap (fun v => [Reply.ok [], Reply.ok [v]]) ++
  [Reply.ok []]


/-! ## Memory and packet lemmas -/

theorem leBytes_length (k n : Nat) : (leBytes k n).length = k := by
  induction k generalizing n with
  | zero => rfl
  | succ k ih => simp [leBytes, ih]

theorem leVal_leBytes (k n : Nat) : leVal (leBytes k n) = n % 256 ^ k := by
  induction k generalizing n with
  | zero => simp [leBytes, leVal, Nat.mod_one]
  | succ k ih =>
    simp only [leBytes, leVal, ih, Nat.mod_mod]
    rw [pow_succ, Nat.mul_comm (256 ^ k) 256, Nat.mod_mul]

theorem GenCPPaket_length (crc flags c l r : Nat) (scd : List Nat) :
    (GenCPPaket crc flags c l r scd).length = 16 + scd.length := by
  simp [GenCPPaket, leBytes_length]
  omega

theorem calcCRC_length (p : List Nat) (h : 6 ≤ p.length) :
    (GenCPPaket.calcCRC p).length = p.length := by
  simp [GenCPPaket.calcCRC, writeAt, leBytes_length]
  omega

theorem calcCRC_drop (p : List Nat) (h : 6 ≤ p.length) (n : Nat) (hn : 6 ≤ n) :
    (GenCPPaket.calcCRC p).drop n = p.drop n := by
  obtain ⟨m, rfl⟩ : ∃ m, n = 6 + m := ⟨n - 6, by omega⟩
  unfold GenCPPaket.calcCRC writeAt
  rw [← List.drop_drop, List.drop_left' (by simp [leBytes_length]; omega)]
  simp [leBytes_length, List.drop_drop]

theorem field_calcCRC (p : List Nat) (h : 6 ≤ p.length) (off k : Nat) (hoff : 6 ≤ off) :
    field (GenCPPaket.calcCRC p) off k = field p off k := by
  unfold field
  rw [calcCRC_drop p h off hoff]

theorem writeMemCmd_length (a : Nat) (d : List Nat) (r : Nat) :
    (writeMemCmd a d r).length = 24 + d.length := by
  unfold writeMemCmd
  rw [calcCRC_length _ (by rw [GenCPPaket_length]; omega), GenCPPaket_length]
  simp [leBytes_length]
  omega

theorem request_id_writeMemCmd (a : Nat) (d : List Nat) (r : Nat) :
    GenCPPaket.request_id (writeMemCmd a d r) = r % 65536 := by
  unfold writeMemCmd GenCPPaket.request_id
  rw [field_calcCRC _ (by rw [GenCPPaket_length]; omega) _ _ (by omega)]
  simp [GenCPPaket, field, leBytes, leVal]
  omega

theorem register_address_writeMemCmd (a : Nat) (d : List Nat) (r : Nat) :
    GenCPPaket.register_address (writeMemCmd a d r) = a % 2 ^ 64 := by
  unfold writeMemCmd GenCPPaket.register_address
  rw [field_calcCRC _ (by rw [GenCPPaket_length]; omega) _ _ (by omega)]
  have h : field (GenCPPaket 0 (1 <<< 14) 0x0802 (8 + d.length) r (leBytes 8 a ++ d)) 16 8
      = leVal (leBytes 8 a) := by
    simp [GenCPPaket, field, leBytes]
  rw [h, leVal_leBytes]
  norm_num

theorem data_writeMemCmd (a : Nat) (d : List Nat) (r : Nat) :
    (writeMemCmd a d r).drop 24 = d := by
  unfold writeMemCmd
  rw [calcCRC_drop _ (by rw [GenCPPaket_length]; omega) _ (by omega)]
  simp [GenCPPaket, leBytes]

theorem command_id_writeMemCmd (a : Nat) (d : List Nat) (r : Nat) :
    GenCPPaket.command_id (writeMemCmd a d r) = 0x0802 := by
  unfold writeMemCmd GenCPPaket.command_id
  rw [field_calcCRC _ (by rw [GenCPPaket_length]; omega) _ _ (by omega)]
  simp [GenCPPaket, field, leBytes, leVal]

theorem command_id_readMemCmd (a len : Nat) :
    GenCPPaket.command_id (readMemCmd a len) = 0x0800 := by
  unfold readMemCmd GenCPPaket.command_id
  rw [field_calcCRC _ (by rw [GenCPPaket_length]; omega) _ _ (by omega)]
  simp [GenCPPaket, field, leBytes, leVal]

theorem readMemCmd_length (a len : Nat) : (readMemCmd a len).length = 28 := by
  unfold readMemCmd
  rw [calcCRC_length _ (by rw [GenCPPaket_length]; omega), GenCPPaket_length]
  simp [leBytes_length]

theorem register_address_readMemCmd (a len : Nat) :
    GenCPPaket.register_address (readMemCmd a len) = a % 2 ^ 64 := by
  unfold readMemCmd GenCPPaket.register_address
  rw [field_calcCRC _ (by rw [GenCPPaket_length]; omega) _ _ (by omega)]
  have h : field (GenCPPaket 0 (1 <<< 14) 0x0800 12 0
      (leBytes 8 a ++ leBytes 2 0 ++ leBytes 2 len)) 16 8 = leVal (leBytes 8 a) := by
    simp [GenCPPaket, field, leBytes]
  rw [h, leVal_leBytes]
  norm_num

theorem read_length_readMemCmd (a len : Nat) :
    field (readMemCmd a len) 26 2 = len % 65536 := by
  unfold readMemCmd
  rw [field_calcCRC _ (by rw [GenCPPaket_length]; omega) _ _ (by omega)]
  simp [GenCPPaket, field, leBytes, leVal]
  omega

/-! ## Register link: request ids and acceptance -/

theorem sentPakets_append (l1 l2 : List PaketEvent) :
    sentPakets (l1 ++ l2) = sentPakets l1 ++ sentPakets l2 := by
  induction l1 with
  | nil => rfl
  | cons e l ih => cases e <;> simp [sentPakets, ih]

theorem nextRequestId_pos (r : Nat) : 0 < AlviumGenCP.nextRequestId r := by
  unfold AlviumGenCP.nextRequestId
  split <;> omega

theorem nextRequestId_lt (r : Nat) : AlviumGenCP.nextRequestId r < 65536 := by
  unfold AlviumGenCP.nextRequestId
  split <;> omega

theorem recvAck_logged_sent {σ : Type} (pk : PaketLink σ) :
    ∀ (fuel : Nat) (s : σ) (log : List PaketEvent) (res : Int) (ack : List Nat) (s1 : σ)
      (log1 : List PaketEvent),
      AlviumGenCP.writeRegister.recvAck pk.logged fuel (s, log) = some (res, ack, (s1, log1)) →
      sentPakets log1 = sentPakets log := by
  intro fuel
  induction fuel with
  | zero => intro s log res ack s1 log1 h; simp [AlviumGenCP.writeRegister.recvAck] at h
  | succ fuel ih =>
    intro s log res ack s1 log1 h
    unfold AlviumGenCP.writeRegister.recvAck at h
    simp only [PaketLink.logged] at h
    cases hr : pk.readPaket s (List.replicate sizeof_WriteMemAckPaket 0) sizeof_WriteMemAckPaket with
    | none => simp [hr] at h
    | some v =>
      obtain ⟨res0, ack0, s0⟩ := v
      simp only [hr] at h
      split at h
      · simp only [Option.some.injEq, Prod.mk.injEq] at h
        obtain ⟨_, _, _, rfl⟩ := h
        simp [sentPakets_append, sentPakets]
      · split at h
        · have := ih _ _ _ _ _ _ h
          rw [this]
          simp [sentPakets_append, sentPakets]
        · simp only [Option.some.injEq, Prod.mk.injEq] at h
          obtain ⟨_, _, _, rfl⟩ := h
          simp [sentPakets_append, sentPakets]

theorem writeRegister_loop_requestId {σ : Type} (pk : PaketLink σ) (L addr : Nat)
    (buffer : List Nat) :
    ∀ (fuel rem k r : Nat) (s : σ) (log : List PaketEvent) (res : Int) (k1 r1 : Nat) (s1 : σ)
      (log1 : List PaketEvent), 0 < r → r < 65536 →
      AlviumGenCP.writeRegister.loop pk.logged L addr buffer fuel rem k r (s, log)
        = some (res, k1, r1, (s1, log1)) →
      k ≤ k1 ∧ r1 = AlviumGenCP.nextRequestId^[k1 - k] r ∧ 0 < r1 ∧ r1 < 65536 ∧
      ∃ pkts, sentPakets log1 = sentPakets log ++ pkts ∧
        pkts.map GenCPPaket.request_id
          = (List.range pkts.length).map (fun i => AlviumGenCP.nextRequestId^[i] r) ∧
        (if res = 0 then pkts.length = k1 - k else pkts.length = k1 - k + 1) := by
  intro fuel
  induction fuel with
  | zero =>
    intro rem k r s log res k1 r1 s1 log1 hr0 hr1 h
    unfold AlviumGenCP.writeRegister.loop at h
    split at h
    · simp at h
    · simp only [Option.some.injEq, Prod.mk.injEq] at h
      obtain ⟨rfl, rfl, rfl, rfl, rfl⟩ := h
      exact ⟨le_refl _, by simp, hr0, hr1, [], by simp⟩
  | succ fuel ih =>
    intro rem k r s log res k1 r1 s1 log1 hr0 hr1 h
    unfold AlviumGenCP.writeRegister.loop at h
    split at h
    · simp only [PaketLink.logged] at h
      generalize hcmd : writeMemCmd _ _ r = cmd at h
      have hid : GenCPPaket.request_id cmd = r := by
        rw [← hcmd, request_id_writeMemCmd]; omega
      cases hw : pk.writePaket s cmd with
      | none => simp [hw] at h
      | some v =>
        obtain ⟨res0, s0⟩ := v
        simp only [hw] at h
        split at h
        · simp only [Option.some.injEq, Prod.mk.injEq] at h
          obtain ⟨rfl, rfl, rfl, rfl, rfl⟩ := h
          refine ⟨le_refl _, by simp, hr0, hr1, [cmd], by simp [sentPakets_append, sentPakets], ?_, ?_⟩
          · simp [hid]
          · have : res0 ≠ 0 := by omega
            simp [this]
        · cases ha : AlviumGenCP.writeRegister.recvAck pk.logged (fuel + 1)
              (s0, log ++ [PaketEvent.sent cmd res0]) with
          | none =>
            simp only [PaketLink.logged] at ha
            simp [ha] at h
          | some v =>
            obtain ⟨res2, ack, s2, log2⟩ := v
            have hsent := recvAck_logged_sent pk _ _ _ _ _ _ _ ha
            simp only [PaketLink.logged] at ha
            simp only [ha] at h
            have hfail : ∀ (e : Int), e ≠ 0 →
                some (e, k, r, (s2, log2)) = some (res, k1, r1, (s1, log1)) →
                k ≤ k1 ∧ r1 = AlviumGenCP.nextRequestId^[k1 - k] r ∧ 0 < r1 ∧ r1 < 65536 ∧
                ∃ pkts, sentPakets log1 = sentPakets log ++ pkts ∧
                  pkts.map GenCPPaket.request_id
                    = (List.range pkts.length).map (fun i => AlviumGenCP.nextRequestId^[i] r) ∧
                  (if res = 0 then pkts.length = k1 - k else pkts.length = k1 - k + 1) := by
              intro e he h
              simp only [Option.some.injEq, Prod.mk.injEq] at h
              obtain ⟨rfl, rfl, rfl, rfl, rfl⟩ := h
              refine ⟨le_refl _, by simp, hr0, hr1, [cmd], ?_, ?_, ?_⟩
              · rw [hsent]; simp [sentPakets_append, sentPakets]
              · simp [hid]
              · simp [he]
            split at h
            · exact hfail res2 (by omega) h
            · split at h
              · exact hfail (-1) (by decide) h
              · split at h
                · exact hfail (-1) (by decide) h
                · split at h
                  · exact hfail (-1) (by decide) h
                  · obtain ⟨hk, hr, hp0, hp1, pkts, hs, hm, hl⟩ :=
                      ih _ _ _ _ _ _ _ _ _ _ (nextRequestId_pos r) (nextRequestId_lt r) h
                    refine ⟨by omega, ?_, hp0, hp1, cmd :: pkts, ?_, ?_, ?_⟩
                    · rw [hr, ← Function.iterate_succ_apply]
                      congr 1
                      omega
                    · rw [hs, hsent]; simp [sentPakets_append, sentPakets]
                    · simp only [List.map_cons, List.length_cons, hid, hm, List.range_succ_eq_map,
                        List.map_map, Function.iterate_zero, id_eq]
                      congr 1
                    · by_cases h0 : res = 0
                      · rw [if_pos h0] at hl ⊢
                        simp only [List.length_cons]; omega
                      · rw [if_neg h0] at hl ⊢
                        simp only [List.length_cons]; omega
    · simp only [Option.some.injEq, Prod.mk.injEq] at h
      obtain ⟨rfl, rfl, rfl, rfl, rfl⟩ := h
      exact ⟨le_refl _, by simp, hr0, hr1, [], by simp⟩

theorem recvAck_not_pending {σ : Type} (pk : PaketLink σ) :
    ∀ (fuel : Nat) (s : σ) (res : Int) (ack : List Nat) (s1 : σ),
      AlviumGenCP.writeRegister.recvAck pk fuel s = some (res, ack, s1) → ¬ res < 0 →
      GenCPPaket.command_id ack ≠ 0x0805 := by
  intro fuel
  induction fuel with
  | zero => intro s res ack s1 h; simp [AlviumGenCP.writeRegister.recvAck] at h
  | succ fuel ih =>
    intro s res ack s1 h hres
    unfold AlviumGenCP.writeRegister.recvAck at h
    cases hr : pk.readPaket s (List.replicate sizeof_WriteMemAckPaket 0) sizeof_WriteMemAckPaket with
    | none => simp [hr] at h
    | some v =>
      obtain ⟨res0, ack0, s0⟩ := v
      simp only [hr] at h
      split at h
      · simp only [Option.some.injEq, Prod.mk.injEq] at h
        obtain ⟨rfl, _, _⟩ := h
        contradiction
      · split at h
        · exact ih _ _ _ _ h hres
        · simp only [Option.some.injEq, Prod.mk.injEq] at h
          obtain ⟨_, rfl, _⟩ := h
          assumption

/-- C6: the request id of the link starts at 1 and is never 0.  After a call of
`writeRegister` that leaves the loop with `k` chunks acknowledged (`k` is the final
`currentChunk`, whether the call ended in success or in a failure of the chunk
after them), the member holds `next^k(r)` for the value `r` before the call, where
`next(x) = x + 1` below 65535 and `next(65535) = 1`; the command of the `i`-th
chunk handed to the send handshake carries request id `next^i(r)`; `readRegister`
returns the member unchanged. -/
theorem C6_request_id_sequence {σ : Type} (pk : PaketLink σ) (fuel addr : Nat)
    (buffer : List Nat) (r : Nat) (s : σ) (res : Int) (k r1 : Nat) (s1 : σ)
    (log1 : List PaketEvent) (hr0 : 0 < r) (hr1 : r < 65536)
    (hcall : AlviumGenCP.writeRegister.loop pk.logged
        (AlviumGenCP.maxWritePacketPayloadSize pk.logged (s, [])) addr buffer fuel
        buffer.length 0 r (s, []) = some (res, k, r1, (s1, log1))) :
    AlviumGenCP.initialRequestId = 1 ∧
    (∀ x, x < 65535 → AlviumGenCP.nextRequestId x = x + 1) ∧
    AlviumGenCP.nextRequestId 65535 = 1 ∧
    AlviumGenCP.writeRegister pk.logged fuel (r, (s, [])) addr buffer
      = some (res, r1, (s1, log1)) ∧
    r1 = AlviumGenCP.nextRequestId^[k] r ∧ r1 ≠ 0 ∧ r1 < 65536 ∧
    (sentPakets log1).map GenCPPaket.request_id
      = (List.range (sentPakets log1).length).map (fun i => AlviumGenCP.nextRequestId^[i] r) ∧
    (if res = 0 then (sentPakets log1).length = k else (sentPakets log1).length = k + 1) ∧
    (∀ (fuel2 addr2 : Nat) (mem : List Nat) (ptr len : Nat) (res2 : Int) (mem2 : List Nat)
      (r2 : Nat) (s2 : σ),
      AlviumGenCP.readRegister pk fuel2 (r, s) addr2 mem ptr len = some (res2, mem2, r2, s2) →
      r2 = r) := by
  obtain ⟨_, hr, hp0, hp1, pkts, hs, hm, hl⟩ :=
    writeRegister_loop_requestId pk _ addr buffer fuel _ _ _ _ _ _ _ _ _ _ hr0 hr1 hcall
  simp only [sentPakets, List.nil_append] at hs
  refine ⟨rfl, ?_, by decide, ?_, by simpa using hr, by omega, hp1, ?_, ?_, ?_⟩
  · intro x hx
    unfold AlviumGenCP.nextRequestId
    rw [Nat.mod_eq_of_lt (by omega)]
    simp
  · unfold AlviumGenCP.writeRegister
    simp only [hcall]
  · rw [hs]; exact hm
  · rw [hs]; simpa using hl
  · intro fuel2 addr2 mem ptr len res2 mem2 r2 s2 h
    unfold AlviumGenCP.readRegister at h
    split at h
    · simp at h
    · simp only [Option.some.injEq, Prod.mk.injEq] at h
      exact h.2.2.1.symm

/-- Instance of C6 at the acking link: a one-chunk write with request id 65535
ends with the request id wrapped to 1. -/
theorem C6_request_id_sequence_witness :
    (0 < 65535 ∧ 65535 < 65536) ∧ (1 : Nat) = AlviumGenCP.nextRequestId^[1] 65535 ∧ (1 : Nat) ≠ 0 :=
  ⟨by decide,
    (C6_request_id_sequence (ackingLink 1024) 3 0 [1, 2, 3] 65535 [] 0 1 1 _ _ (by decide)
      (by decide) rfl).2.2.2.2.1,
    (C6_request_id_sequence (ackingLink 1024) 3 0 [1, 2, 3] 65535 [] 0 1 1 _ _ (by decide)
      (by decide) rfl).2.2.2.2.2.1⟩

/-- C7: for a chunk of `writeRegister` whose send handshake succeeded and whose
receive loop ended, without a handshake failure, with the acknowledgment `A`
(which is then not a pending acknowledgment): when `A` has command id 0x0803,
status code 0 and the request id sent, the loop goes on with the next chunk and
the advanced request id; when any of the three fails, `writeRegister` returns -1
in the state reached when `A` was received, so that nothing more is sent, with
the chunk counter and the request id unchanged. -/
theorem C7_chunk_accepted_iff {σ : Type} (pk : PaketLink σ) (L addr : Nat) (buffer : List Nat)
    (fuel remaining currentChunk r : Nat) (s s1 s2 : σ) (res res2 : Int) (A : List Nat)
    (hrem : 0 < remaining)
    (hsend : pk.writePaket s
        (writeMemCmd ((addr + currentChunk * L % 2 ^ 64) % 2 ^ 64)
          ((buffer.drop (currentChunk * L % 2 ^ 64)).take
            (if remaining > L then L else remaining)) r) = some (res, s1))
    (hres : ¬ res < 0)
    (hack : AlviumGenCP.writeRegister.recvAck pk (fuel + 1) s1 = some (res2, A, s2))
    (hres2 : ¬ res2 < 0) :
    GenCPPaket.command_id A ≠ 0x0805 ∧
    (GenCPPaket.command_id A = 0x0803 ∧ GenCPPaket.status_code A = 0 ∧
      GenCPPaket.request_id A = r →
      AlviumGenCP.writeRegister.loop pk L addr buffer (fuel + 1) remaining currentChunk r s
        = AlviumGenCP.writeRegister.loop pk L addr buffer fuel
            (remaining - (if remaining > L then L else remaining)) (currentChunk + 1)
            (AlviumGenCP.nextRequestId r) s2) ∧
    (¬ (GenCPPaket.command_id A = 0x0803 ∧ GenCPPaket.status_code A = 0 ∧
        GenCPPaket.request_id A = r) →
      AlviumGenCP.writeRegister.loop pk L addr buffer (fuel + 1) remaining currentChunk r s
        = some (-1, currentChunk, r, s2)) := by
  refine ⟨recvAck_not_pending pk _ _ _ _ _ hack hres2, ?_, ?_⟩
  · rintro ⟨h1, h2, h3⟩
    conv_lhs => unfold AlviumGenCP.writeRegister.loop
    simp only [hrem, if_true, hsend, hres, if_false, hack, hres2, h1, h2, h3, ne_eq,
      not_true_eq_false]
  · intro h
    conv_lhs => unfold AlviumGenCP.writeRegister.loop
    simp only [hrem, if_true, hsend, hres, if_false, hack, hres2, ne_eq]
    by_cases h1 : GenCPPaket.command_id A = 0x0803
    · by_cases h2 : GenCPPaket.status_code A = 0
      · by_cases h3 : GenCPPaket.request_id A = r
        · exact absurd ⟨h1, h2, h3⟩ h
        · simp [h1, h2, h3]
      · simp [h1, h2]
    · simp [h1]

/-- Instance of C7 at a link whose device echoes request id 9 for the command
with request id 1: the chunk is refused with -1 and the request id stays 1. -/
theorem C7_chunk_accepted_iff_witness :
    AlviumGenCP.writeRegister.loop (fixedAckLink (GenCPPaket 0 0 0x0803 4 9 [0, 0, 0, 0]))
      1000 0 [7] (1 + 1) 1 0 1 () = some (-1, 0, 1, ()) :=
  (C7_chunk_accepted_iff (fixedAckLink (GenCPPaket 0 0 0x0803 4 9 [0, 0, 0, 0])) 1000 0 [7]
    1 1 0 1 () () () 0 0 _ (by decide) rfl (by decide) rfl (by decide)).2.2 (by decide)

/-! ## Register link: chunking -/

theorem chunkCount_zero (L : Nat) (hL : 0 < L) : chunkCount 0 L = 0 := by
  unfold chunkCount
  exact Nat.div_eq_of_lt (by omega)

theorem chunkCount_step (rem L : Nat) (hL : 0 < L) (hrem : 0 < rem) :
    chunkCount rem L = chunkCount (rem - (if rem > L then L else rem)) L + 1 := by
  unfold chunkCount
  by_cases h : rem > L
  · rw [if_pos h]
    have : rem + L - 1 = (rem - L + L - 1) + L := by omega
    rw [this, Nat.add_div_right _ hL]
  · rw [if_neg h]
    have h1 : rem + L - 1 = (rem - 1) + L := by omega
    rw [h1, Nat.add_div_right _ hL, Nat.div_eq_of_lt (by omega : rem - 1 < L)]
    have h2 : rem - rem + L - 1 = L - 1 := by omega
    rw [h2, Nat.div_eq_of_lt (by omega : L - 1 < L)]

theorem chunkCount_eq_zero (rem L : Nat) (hL : 0 < L) (h : chunkCount rem L = 0) : rem = 0 := by
  by_contra hne
  have := chunkCount_step rem L hL (by omega)
  omega

theorem recvAck_logged_of_ack {σ : Type} (pk : PaketLink σ) (fuel : Nat) (s : σ)
    (log : List PaketEvent) (res : Int) (ack : List Nat) (s1 : σ)
    (h : pk.readPaket s (List.replicate sizeof_WriteMemAckPaket 0) sizeof_WriteMemAckPaket
      = some (res, ack, s1))
    (hres : ¬ res < 0) (hc : GenCPPaket.command_id ack = 0x0803) :
    AlviumGenCP.writeRegister.recvAck pk.logged (fuel + 1) (s, log)
      = some (res, ack, (s1, log ++ [PaketEvent.received sizeof_WriteMemAckPaket res ack])) := by
  unfold AlviumGenCP.writeRegister.recvAck
  simp [PaketLink.logged, h, hres, hc]

theorem take_chunk (l : List Nat) (rem L : Nat) (h : l.length = rem) :
    l.take (if rem > L then L else rem) = l.take L := by
  by_cases hc : rem > L
  · rw [if_pos hc]
  · rw [if_neg hc, List.take_of_length_le (by omega), List.take_of_length_le (by omega)]

theorem writeRegister_loop_acked {σ : Type} (pk : PaketLink σ) (L addr : Nat)
    (buffer : List Nat) (hL : 0 < L) (hacks : AcksEveryWrite pk) (hn : buffer.length < 2 ^ 64) :
    ∀ (fuel rem k r : Nat) (s : σ) (log : List PaketEvent),
      chunkCount rem L ≤ fuel → r < 65536 → rem = buffer.length - k * L →
      ∃ (s1 : σ) (log1 : List PaketEvent),
        AlviumGenCP.writeRegister.loop pk.logged L addr buffer fuel rem k r (s, log)
          = some (0, k + chunkCount rem L, AlviumGenCP.nextRequestId^[chunkCount rem L] r,
              (s1, log1)) ∧
        sentPakets log1 = sentPakets log ++
          (List.range (chunkCount rem L)).map (fun i =>
            writeMemCmd ((addr + (k + i) * L) % 2 ^ 64) ((buffer.drop ((k + i) * L)).take L)
              (AlviumGenCP.nextRequestId^[i] r)) := by
  intro fuel
  induction fuel with
  | zero =>
    intro rem k r s log hf hr hrem
    have h0 : rem = 0 := chunkCount_eq_zero rem L hL (by omega)
    subst h0
    refine ⟨s, log, ?_, ?_⟩
    · unfold AlviumGenCP.writeRegister.loop
      simp [chunkCount_zero L hL]
    · simp [chunkCount_zero L hL]
  | succ fuel ih =>
    intro rem k r s log hf hr hrem
    by_cases h0 : rem = 0
    · subst h0
      refine ⟨s, log, ?_, ?_⟩
      · unfold AlviumGenCP.writeRegister.loop
        simp [chunkCount_zero L hL]
      · simp [chunkCount_zero L hL]
    · have hpos : 0 < rem := by omega
      have hstep := chunkCount_step rem L hL hpos
      have hoff : k * L % 2 ^ 64 = k * L := Nat.mod_eq_of_lt (by omega)
      have hdata : (buffer.drop (k * L)).take (if rem > L then L else rem)
          = (buffer.drop (k * L)).take L :=
        take_chunk _ _ _ (by rw [List.length_drop]; omega)
      obtain ⟨res, s1, hw, hres, res2, ack, s2, hrd, hres2, hc, hst, hid⟩ :=
        hacks s (writeMemCmd ((addr + k * L) % 2 ^ 64) ((buffer.drop (k * L)).take L) r)
          (command_id_writeMemCmd _ _ _)
      rw [request_id_writeMemCmd, Nat.mod_eq_of_lt hr] at hid
      have hrecv := recvAck_logged_of_ack pk fuel s1
        (log ++ [PaketEvent.sent
          (writeMemCmd ((addr + k * L) % 2 ^ 64) ((buffer.drop (k * L)).take L) r) res])
        res2 ack s2 hrd hres2 hc
      have hrem' : rem - (if rem > L then L else rem) = buffer.length - (k + 1) * L := by
        rw [Nat.succ_mul]
        split <;> omega
      obtain ⟨s3, log3, hloop, hsent⟩ := ih (rem - (if rem > L then L else rem)) (k + 1)
        (AlviumGenCP.nextRequestId r) s2 _ (by omega) (nextRequestId_lt r) hrem'
      refine ⟨s3, log3, ?_, ?_⟩
      · conv_lhs => unfold AlviumGenCP.writeRegister.loop
        simp only [hpos, if_true, hoff, hdata]
        simp only [PaketLink.logged, hw, hres, if_false]
        simp only [PaketLink.logged] at hrecv hloop
        simp only [hrecv, hres2, if_false, hc, hst, hid, ne_eq, not_true_eq_false]
        rw [hloop, hstep, Function.iterate_succ_apply]
        congr 3
        omega
      · rw [hsent, hstep, List.range_succ_eq_map]
        simp only [sentPakets_append, sentPakets, List.map_cons, List.map_map,
          List.append_assoc, List.nil_append, List.singleton_append, Nat.add_zero,
          Function.iterate_zero, id_eq, List.append_nil]
        congr 2
        apply List.map_congr_left
        intro i _
        simp only [Function.comp, Function.iterate_succ_apply]
        have : k + 1 + i = k + (i + 1) := by omega
        rw [this]

theorem receivedPakets_append (l1 l2 : List PaketEvent) :
    receivedPakets (l1 ++ l2) = receivedPakets l1 ++ receivedPakets l2 := by
  induction l1 with
  | nil => rfl
  | cons e l ih => cases e <;> simp [receivedPakets, ih]

theorem readRegister_loop_acked {σ : Type} (pk : PaketLink σ) (L addr ptr n : Nat)
    (hL : 0 < L) (hacks : AcksEveryRead pk) (hn : n < 2 ^ 64) :
    ∀ (fuel rem k : Nat) (mem : List Nat) (s : σ) (log : List PaketEvent),
      chunkCount rem L ≤ fuel → rem = n - k * L →
      ∃ (s1 : σ) (log1 : List PaketEvent) (acks : List (List Nat)),
        AlviumGenCP.readRegister.loop pk.logged L addr ptr fuel rem k mem (s, log)
          = some (0, k + chunkCount rem L,
              (List.enumFrom k acks).foldl (fun m p =>
                writeAt m (ptr + p.1 * L)
                  ((p.2.drop sizeof_ReadMemAckPaket).take (min L (n - p.1 * L)))) mem,
              (s1, log1)) ∧
        acks.length = chunkCount rem L ∧
        receivedPakets log1 = receivedPakets log ++ acks ∧
        sentPakets log1 = sentPakets log ++
          (List.range (chunkCount rem L)).map (fun i =>
            readMemCmd ((addr + (k + i) * L) % 2 ^ 64) (min L (n - (k + i) * L))) := by
  intro fuel
  induction fuel with
  | zero =>
    intro rem k mem s log hf hrem
    have h0 : rem = 0 := chunkCount_eq_zero rem L hL (by omega)
    subst h0
    refine ⟨s, log, [], ?_, ?_, ?_, ?_⟩
    · unfold AlviumGenCP.readRegister.loop
      simp [chunkCount_zero L hL]
    · simp [chunkCount_zero L hL]
    · simp
    · simp [chunkCount_zero L hL]
  | succ fuel ih =>
    intro rem k mem s log hf hrem
    by_cases h0 : rem = 0
    · subst h0
      refine ⟨s, log, [], ?_, ?_, ?_, ?_⟩
      · unfold AlviumGenCP.readRegister.loop
        simp [chunkCount_zero L hL]
      · simp [chunkCount_zero L hL]
      · simp
      · simp [chunkCount_zero L hL]
    · have hpos : 0 < rem := by omega
      have hstep := chunkCount_step rem L hL hpos
      have hoff : k * L % 2 ^ 64 = k * L := Nat.mod_eq_of_lt (by omega)
      have hb : (if rem > L then L else rem) = min L (n - k * L) := by
        split <;> omega
      obtain ⟨res, s1, hw, hres, hrd⟩ :=
        hacks s (readMemCmd ((addr + k * L) % 2 ^ 64) (min L (n - k * L)))
          (command_id_readMemCmd _ _)
      obtain ⟨res2, ack, s2, hrd, hres2, hc, hst⟩ :=
        hrd (AlviumGenCP.readMemAckBuffer pk.logged (min L (n - k * L)))
          (sizeof_ReadMemAckPaket + min L (n - k * L)) (Nat.le_add_right _ _)
      have hrem' : rem - min L (n - k * L) = n - (k + 1) * L := by
        rw [Nat.succ_mul]
        omega
      obtain ⟨s3, log3, acks, hloop, hlen, hrecv, hsent⟩ := ih (rem - min L (n - k * L)) (k + 1)
        (writeAt mem (ptr + k * L) ((ack.drop sizeof_ReadMemAckPaket).take (min L (n - k * L))))
        s2
        (log ++ [PaketEvent.sent (readMemCmd ((addr + k * L) % 2 ^ 64) (min L (n - k * L))) res]
          ++ [PaketEvent.received (sizeof_ReadMemAckPaket + min L (n - k * L)) res2 ack])
        (by rw [hb] at hstep; omega) hrem'
      rw [hb] at hstep
      refine ⟨s3, log3, ack :: acks, ?_, by simp [hlen, hstep], ?_, ?_⟩
      · conv_lhs => unfold AlviumGenCP.readRegister.loop
        simp only [hpos, if_true, hoff, hb]
        simp only [PaketLink.logged, hw, hres, if_false]
        simp only [PaketLink.logged] at hrd hloop
        simp only [hrd, hres2, if_false, hc, hst, ne_eq, not_true_eq_false]
        rw [hloop, hstep]
        simp only [List.enumFrom_cons, List.foldl_cons]
        congr 3
        omega
      · rw [hrecv]
        simp [receivedPakets_append, receivedPakets]
      · rw [hsent, hstep, List.range_succ_eq_map]
        simp only [sentPakets_append, sentPakets, List.map_cons, List.map_map,
          List.append_assoc, List.nil_append, List.singleton_append, Nat.add_zero,
          List.append_nil]
        have hmap : ∀ (l : List Nat),
            List.map (fun i => readMemCmd ((addr + (k + 1 + i) * L) % 2 ^ 64)
              (min L (n - (k + 1 + i) * L))) l
            = List.map ((fun i => readMemCmd ((addr + (k + i) * L) % 2 ^ 64)
              (min L (n - (k + i) * L))) ∘ Nat.succ) l := by
          intro l
          apply List.map_congr_left
          intro i _
          simp only [Function.comp]
          have : k + 1 + i = k + (i + 1) := by omega
          rw [this]
        rw [hmap]

theorem chunkCount_mul_ge (n L : Nat) (hL : 0 < L) : n ≤ chunkCount n L * L := by
  unfold chunkCount
  have h1 := Nat.div_add_mod (n + L - 1) L
  have h2 := Nat.mod_lt (n + L - 1) hL
  rw [Nat.mul_comm] at h1
  omega

theorem chunkCount_pred_mul_lt (n L : Nat) (hn : 0 < n) :
    (chunkCount n L - 1) * L < n := by
  unfold chunkCount
  rcases Nat.eq_zero_or_pos L with h0 | hL
  · subst h0; simpa using hn
  · have h1 := Nat.div_add_mod (n + L - 1) L
    rw [Nat.mul_comm] at h1
    have h3 : (n + L - 1) / L ≥ 1 := (Nat.one_le_div_iff hL).mpr (by omega)
    have h4 : ((n + L - 1) / L - 1) * L + L = (n + L - 1) / L * L := by
      rw [Nat.sub_mul]
      have : 1 * L ≤ (n + L - 1) / L * L := Nat.mul_le_mul_right L h3
      omega
    omega

theorem flatten_chunks (L : Nat) :
    ∀ (cnt : Nat) (l : List Nat), l.length ≤ cnt * L →
      ((List.range cnt).map (fun i => (l.drop (i * L)).take L)).flatten = l := by
  intro cnt
  induction cnt with
  | zero =>
    intro l h
    have : l = [] := List.length_eq_zero.mp (by omega)
    simp [this]
  | succ cnt ih =>
    intro l h
    rw [List.range_succ_eq_map, List.map_cons, List.map_map, List.flatten_cons]
    have hmap : List.map ((fun i => (l.drop (i * L)).take L) ∘ Nat.succ) (List.range cnt)
        = List.map (fun i => ((l.drop L).drop (i * L)).take L) (List.range cnt) := by
      apply List.map_congr_left
      intro i _
      simp only [Function.comp, List.drop_drop, Nat.succ_mul]
      congr 2
      omega
    rw [hmap, ih (l.drop L) (by rw [List.length_drop, Nat.succ_mul] at *; omega)]
    simp

theorem chunk_length (buffer : List Nat) (L n i : Nat) (hbuf : buffer.length = n)
    (hL : 0 < L) (hi : i < chunkCount n L) :
    ((buffer.drop (i * L)).take L).length = min ((i + 1) * L) n - i * L ∧
    ((buffer.drop (i * L)).take L).length
      = (if i + 1 < chunkCount n L then L else if n % L = 0 then L else n % L) := by
  have hn : 0 < n := by
    by_contra h
    have : n = 0 := by omega
    subst this
    rw [chunkCount_zero L hL] at hi
    omega
  have hlt := chunkCount_pred_mul_lt n L hn
  have hge := chunkCount_mul_ge n L hL
  have hle : (i + 1) * L ≤ chunkCount n L * L := Nat.mul_le_mul_right L hi
  have hsub : (chunkCount n L - 1) * L + L = chunkCount n L * L := by
    have : chunkCount n L = (chunkCount n L - 1) + 1 := by omega
    conv_rhs => rw [this, Nat.succ_mul]
  rw [List.length_take, List.length_drop, hbuf, Nat.succ_mul]
  constructor
  · omega
  · by_cases h1 : i + 1 < chunkCount n L
    · rw [if_pos h1]
      have : (i + 1) * L ≤ (chunkCount n L - 1) * L := Nat.mul_le_mul_right L (by omega)
      rw [Nat.succ_mul] at this
      omega
    · rw [if_neg h1]
      have hi' : i = chunkCount n L - 1 := by omega
      rw [← hi'] at hlt hsub
      rw [Nat.succ_mul] at hle
      by_cases h2 : n - i * L = L
      · have hn' : n = (i + 1) * L := by rw [Nat.succ_mul]; omega
        have : n % L = 0 := by rw [hn']; exact Nat.mul_mod_left _ _
        rw [if_pos this]
        omega
      · have hlt' : n - i * L < L := by omega
        have hn' : n = (n - i * L) + i * L := by omega
        have hmod : n % L = n - i * L := by
          conv_lhs => rw [hn']
          rw [Nat.add_mul_mod_self_right, Nat.mod_eq_of_lt hlt']
        rw [hmod]
        have : ¬ (n - i * L = 0) := by omega
        rw [if_neg this]
        omega

theorem leVal_lt (l : List Nat) : leVal l < 256 ^ l.length := by
  induction l with
  | nil => simp [leVal]
  | cons b bs ih =>
    simp only [leVal, List.length_cons, pow_succ]
    have := Nat.mod_lt b (by decide : 0 < 256)
    omega

theorem field_lt (mem : List Nat) (off k : Nat) : field mem off k < 256 ^ k := by
  unfold field
  refine lt_of_lt_of_le (leVal_lt _) (Nat.pow_le_pow_right (by decide) ?_)
  rw [List.length_take]
  omega

theorem field_writeAt_zero (mem bytes : List Nat) (off k : Nat) (h : off + k ≤ bytes.length) :
    field (writeAt mem 0 bytes) off k = field bytes off k := by
  unfold field writeAt
  simp only [List.take_zero, List.nil_append, Nat.zero_add]
  rw [List.drop_append_of_le_length (by omega), List.take_append_of_le_length]
  rw [List.length_drop]
  omega

theorem field_take (l : List Nat) (n off k : Nat) (h : off + k ≤ n) :
    field (l.take n) off k = field l off k := by
  unfold field
  rw [List.drop_take, List.take_take]
  have : min k (n - off) = k := by omega
  rw [this]

theorem ackingLink_acksEveryWrite (m : Nat) : AcksEveryWrite (ackingLink m) := by
  intro s cmd hc
  refine ⟨0, cmd, rfl, by decide, 0,
    writeAt (List.replicate sizeof_WriteMemAckPaket 0) 0
      ((GenCPPaket 0 0 0x0803 4 (GenCPPaket.request_id cmd) [0, 0, 0, 0]).take
        sizeof_WriteMemAckPaket), cmd, ?_, by decide, ?_, ?_, ?_⟩
  · simp only [ackingLink, hc, if_true]
  · simp [GenCPPaket.command_id, GenCPPaket, leBytes, writeAt, field, leVal,
      sizeof_WriteMemAckPaket]
  · simp [GenCPPaket.status_code, GenCPPaket, leBytes, writeAt, field, leVal,
      sizeof_WriteMemAckPaket]
  · have hlt : GenCPPaket.request_id cmd < 65536 := by
      have := field_lt cmd 14 2
      simpa [GenCPPaket.request_id] using this
    generalize GenCPPaket.request_id cmd = x at hlt ⊢
    simp [GenCPPaket.request_id, GenCPPaket, leBytes, writeAt, field, leVal,
      sizeof_WriteMemAckPaket]
    omega

theorem ackingLink_acksEveryRead (m : Nat) : AcksEveryRead (ackingLink m) := by
  intro s cmd hc
  refine ⟨0, cmd, rfl, by decide, ?_⟩
  intro paket length hlen
  have hcmd : ¬ GenCPPaket.command_id cmd = 0x0802 := by rw [hc]; decide
  refine ⟨0, writeAt paket 0
      ((GenCPPaket 0 0 0x0801 (field cmd 26 2) 0 (List.replicate (field cmd 26 2) 0)).take
        length), cmd, ?_, by decide, ?_, ?_⟩
  · simp only [ackingLink, hcmd, if_false]
  · unfold GenCPPaket.command_id
    rw [field_writeAt_zero _ _ _ _
      (by rw [List.length_take, GenCPPaket_length]; simp [sizeof_ReadMemAckPaket] at hlen; omega),
      field_take _ _ _ _ (by simp [sizeof_ReadMemAckPaket] at hlen; omega)]
    simp [GenCPPaket, leBytes, field, leVal]
  · unfold GenCPPaket.status_code
    rw [field_writeAt_zero _ _ _ _
      (by rw [List.length_take, GenCPPaket_length]; simp [sizeof_ReadMemAckPaket] at hlen; omega),
      field_take _ _ _ _ (by simp [sizeof_ReadMemAckPaket] at hlen; omega)]
    simp [GenCPPaket, leBytes, field, leVal]

/-- C9: for every address, every length `n`, every chunk limit `L > 0` and a device
that acknowledges every chunk, the chunk loops of `writeRegister` and
`readRegister` run with limit `L` return 0 after exactly `ceil(n / L)` command
exchanges (`chunkCount n L`, for any iteration bound at least that large).  The
command of chunk `i` targets register address `addr + i * L` (in 64-bit
arithmetic); for a write it carries the buffer bytes from `i * L` up to
`min ((i + 1) * L) n`, for a read it asks for that many bytes and the payload of
the `i`-th acknowledgment is copied to offset `i * L` of the buffer.  Every chunk
but the last has `L` bytes, the last has `n mod L` bytes, or `L` when `L` divides
`n`, and the chunks in order make up the `n` bytes.  `writeRegister` and
`readRegister` are these loops with `L` the maximum write and read payload. -/
theorem C9_chunking {σ : Type} (pk : PaketLink σ) (L addr n : Nat) (buffer mem : List Nat)
    (ptr fuel r : Nat) (s : σ) (hL : 0 < L) (hw : AcksEveryWrite pk) (hr : AcksEveryRead pk)
    (hrid : r < 65536) (hbuf : buffer.length = n) (hn : n < 2 ^ 64)
    (hfuel : chunkCount n L ≤ fuel) :
    chunkCount n L = (n + L - 1) / L ∧
    (∃ (s1 : σ) (log1 : List PaketEvent),
      AlviumGenCP.writeRegister.loop pk.logged L addr buffer fuel n 0 r (s, [])
        = some (0, chunkCount n L, AlviumGenCP.nextRequestId^[chunkCount n L] r, (s1, log1)) ∧
      (L = AlviumGenCP.maxWritePacketPayloadSize pk s →
        AlviumGenCP.writeRegister pk.logged fuel (r, (s, [])) addr buffer
          = some (0, AlviumGenCP.nextRequestId^[chunkCount n L] r, (s1, log1))) ∧
      (sentPakets log1).length = chunkCount n L ∧
      sentPakets log1 = (List.range (chunkCount n L)).map (fun i =>
        writeMemCmd ((addr + i * L) % 2 ^ 64) ((buffer.drop (i * L)).take L)
          (AlviumGenCP.nextRequestId^[i] r))) ∧
    (∃ (s1 : σ) (log1 : List PaketEvent) (acks : List (List Nat)),
      AlviumGenCP.readRegister.loop pk.logged L addr ptr fuel n 0 mem (s, [])
        = some (0, chunkCount n L,
            (List.enumFrom 0 acks).foldl (fun m p =>
              writeAt m (ptr + p.1 * L)
                ((p.2.drop sizeof_ReadMemAckPaket).take (min L (n - p.1 * L)))) mem,
            (s1, log1)) ∧
      (L = AlviumGenCP.maxReadPacketPayloadSize pk s →
        AlviumGenCP.readRegister pk.logged fuel (r, (s, [])) addr mem ptr n
          = some (0,
            (List.enumFrom 0 acks).foldl (fun m p =>
              writeAt m (ptr + p.1 * L)
                ((p.2.drop sizeof_ReadMemAckPaket).take (min L (n - p.1 * L)))) mem,
            r, (s1, log1))) ∧
      receivedPakets log1 = acks ∧ acks.length = chunkCount n L ∧
      (sentPakets log1).length = chunkCount n L ∧
      sentPakets log1 = (List.range (chunkCount n L)).map (fun i =>
        readMemCmd ((addr + i * L) % 2 ^ 64) (min L (n - i * L)))) ∧
    (∀ i, i < chunkCount n L →
      ((buffer.drop (i * L)).take L).length = min ((i + 1) * L) n - i * L ∧
      min L (n - i * L) = min ((i + 1) * L) n - i * L ∧
      ((buffer.drop (i * L)).take L).length
        = (if i + 1 < chunkCount n L then L else if n % L = 0 then L else n % L)) ∧
    ((List.range (chunkCount n L)).map (fun i => (buffer.drop (i * L)).take L)).flatten
      = buffer := by
  refine ⟨rfl, ?_, ?_, ?_, ?_⟩
  · obtain ⟨s1, log1, hloop, hsent⟩ :=
      writeRegister_loop_acked pk L addr buffer hL hw (by omega) fuel n 0 r s [] hfuel hrid
        (by simp [hbuf])
    simp only [Nat.zero_add, sentPakets, List.nil_append] at hloop hsent
    refine ⟨s1, log1, hloop, ?_, by simp [hsent], hsent⟩
    intro hLeq
    unfold AlviumGenCP.writeRegister
    have : AlviumGenCP.maxWritePacketPayloadSize pk.logged (s, ([] : List PaketEvent)) = L := by
      rw [hLeq]; rfl
    simp only [this, hbuf, hloop]
  · obtain ⟨s1, log1, acks, hloop, hlen, hrecv, hsent⟩ :=
      readRegister_loop_acked pk L addr ptr n hL hr hn fuel n 0 mem s [] hfuel (by simp)
    simp only [Nat.zero_add, sentPakets, receivedPakets, List.nil_append] at hloop hsent hrecv
    refine ⟨s1, log1, acks, hloop, ?_, hrecv, hlen, by simp [hsent], hsent⟩
    intro hLeq
    unfold AlviumGenCP.readRegister
    have : AlviumGenCP.maxReadPacketPayloadSize pk.logged (s, ([] : List PaketEvent)) = L := by
      rw [hLeq]; rfl
    simp only [this, hloop]
  · intro i hi
    obtain ⟨h1, h2⟩ := chunk_length buffer L n i hbuf hL hi
    refine ⟨h1, ?_, h2⟩
    rw [← h1, List.length_take, List.length_drop, hbuf]
  · exact flatten_chunks L _ buffer (by rw [hbuf]; exact chunkCount_mul_ge n L hL)

/-- Instance of C9 on the acking link with `L = 1024` and `n = 5000`: five
command exchanges, the last chunk has 904 bytes. -/
theorem C9_chunking_witness :
    chunkCount 5000 1024 = 5 ∧
    (((List.replicate 5000 0).drop (4 * 1024)).take 1024).length = 904 :=
  ⟨by decide,
    ((C9_chunking (ackingLink 1024) 1024 0 5000 (List.replicate 5000 0) [] 0 5 1 []
      (by decide) (ackingLink_acksEveryWrite 1024) (ackingLink_acksEveryRead 1024) (by decide)
      (List.length_replicate 5000 0) (by decide) (by decide)).2.2.2.1 4 (by decide)).2.2.trans
      (by decide)⟩

/-! ## Register link: failures of the transfer channel and packet sizes -/

/-- C8 (evaluation of the code at the failing input): on a transfer channel whose
`pwrite` staging the command packet fails with errno 5 while every other system
call succeeds, `writeRaw` returns the positive value 5, which the test `res < 0`
of `writePaket` does not catch: `writeRegister` goes on with all 15 remaining
system calls of the two handshakes and returns 0 with the request id advanced. -/
theorem C8_channel_failure_reported_as_success :
    (AlviumGenCP.writeRaw (scriptedChannel 1032) { script := [Reply.fail 5], calls := [] }
      0x300 [1, 2, 3]).1 = 5 ∧
    (AlviumGenCP.writeRegister
        (AlviumGenCP.paketLink sampleGenCP (scriptedChannel 1032) 4 (fun n => List.replicate n 0))
        4 (1, { script := stagingFailureScript, calls := [] }) 0xD0005100 [4, 0, 0, 0]).map
      (fun out => (out.1, out.2.1, out.2.2.script, out.2.2.calls.length, out.2.2.calls.get? 2))
      = some (0, 2, [], 18,
          some (Syscall.pwrite
            (avt3_fw_transfer 0x300 28 0 ++ writeMemCmd 0xD0005100 [4, 0, 0, 0] 1))) := by
  constructor
  · rfl
  · rfl

/-- C10 (evaluation of the code at the failing input): for a transfer file of 18
bytes the capacity is 10, `maxPacketSize` is 10, and the `size_t` subtractions
give the payload limits `2^64 - 14` and `2^64 - 6`; `writeRegister` of 1100 bytes
on an acknowledging device with that packet size then hands a single WriteMem
packet of 1124 bytes to the send handshake. -/
theorem C10_small_capacity_oversized_packet :
    AlviumGenCP.maxPacketSize (scriptedChannel 18) { script := [], calls := [] } = 10 ∧
    AlviumGenCP.maxWritePacketPayloadSize (ackingLink 10) [] = 2 ^ 64 - 14 ∧
    AlviumGenCP.maxReadPacketPayloadSize (ackingLink 10) [] = 2 ^ 64 - 6 ∧
    ∃ (s1 : List Nat) (log1 : List PaketEvent),
      AlviumGenCP.writeRegister (ackingLink 10).logged 1 (1, ([], [])) 0 (List.replicate 1100 0)
        = some (0, 2, (s1, log1)) ∧
      (sentPakets log1).map List.length = [1124] := by
  refine ⟨by decide, by decide, by decide, ?_⟩
  obtain ⟨s1, log1, hloop, hsent⟩ :=
    writeRegister_loop_acked (ackingLink 10) (2 ^ 64 - 14) 0 (List.replicate 1100 0)
      (by decide) (ackingLink_acksEveryWrite 10)
      (by rw [List.length_replicate]; decide) 1 1100 0 1 [] []
      (by decide) (by decide) (by rw [List.length_replicate]; decide)
  have hc : chunkCount 1100 (2 ^ 64 - 14) = 1 := by decide
  rw [hc] at hloop hsent
  refine ⟨s1, log1, ?_, ?_⟩
  · unfold AlviumGenCP.writeRegister
    have hL : AlviumGenCP.maxWritePacketPayloadSize (ackingLink 10).logged
        (([] : List Nat), ([] : List PaketEvent)) = 2 ^ 64 - 14 := by decide
    simp only [hL, List.length_replicate, hloop]
    rfl
  · rw [hsent]
    have hr : List.range 1 = [0] := rfl
    simp only [sentPakets, List.nil_append, hr, List.map_cons, List.map_nil,
      writeMemCmd_length, List.length_take, List.length_drop, List.length_replicate]
    decide

/-! ## File store: rejected writes -/

/-- C2: when the handle was opened in Read mode, or `length()` of its selector is
not 0, or the requested length exceeds the value read from the maximum-file-size
register, `File::write` returns -1 and every register access it made is a read:
no access-length write, no access-buffer write and no Write execute.  Hence any
property of the device state that register reads preserve still holds after the
call; in particular the stored content is unchanged. -/
theorem C2_rejected_write_issues_no_register_write {σ : Type} (gencp : RegisterLink σ)
    (fuel : Nat) (f : File) (s : σ) (data : List Nat)
    (h : f.m_openMode = FileOpenMode.Read ∨
      (∃ (len : Int) (s1 : σ), File.length gencp f s = some (len, s1) ∧ len ≠ 0) ∨
      (∃ (s1 : σ) (res : Int) (maxFileLength : List Nat) (s2 : σ),
        File.length gencp f s = some (0, s1) ∧
        gencp.readRegister s1 RegFileSizeMaxAddr (List.replicate 4 0) 0 RegFileSizeMaxLength
          = some (res, maxFileLength, s2) ∧
        ¬ res < 0 ∧ data.length > field maxFileLength 0 4)) :
    ∃ (s' : σ) (log : List RegisterEvent),
      File.write gencp.logged fuel f (s, []) data = some (-1, (s', log)) ∧
      (∀ e ∈ log, e.isWrite = false) ∧
      (∀ (P : σ → Prop),
        (∀ (a : σ) (addr : Nat) (mem : List Nat) (ptr len : Nat) (res : Int) (mem1 : List Nat)
          (b : σ), gencp.readRegister a addr mem ptr len = some (res, mem1, b) → P a → P b) →
        P s → P s') := by
  by_cases hmode : f.m_openMode = FileOpenMode.Read
  · exact ⟨s, [], by simp [File.write, hmode], by simp, fun P _ hP => hP⟩
  · have hlenlog : ∀ (len : Int) (s1 : σ), File.length gencp f s = some (len, s1) →
        ∃ (e : RegisterEvent), e.isWrite = false ∧
          File.length gencp.logged f (s, []) = some (len, (s1, [e])) ∧
          (∀ (P : σ → Prop),
            (∀ (a : σ) (addr : Nat) (mem : List Nat) (ptr len : Nat) (res : Int)
              (mem1 : List Nat) (b : σ),
              gencp.readRegister a addr mem ptr len = some (res, mem1, b) → P a → P b) →
            P s → P s1) := by
      intro len s1 hl
      simp only [File.length, RegisterLink.logged] at hl ⊢
      generalize hr : gencp.readRegister s _ _ _ _ = r at hl ⊢
      cases r with
      | none => simp at hl
      | some v =>
        obtain ⟨res0, mem0, s0⟩ := v
        simp only at hl ⊢
        refine ⟨RegisterEvent.read
          (RegFileSizeBaseAddr + RegFileSizeLength * (f.m_selector % 2 ^ 32)) 0
          RegFileSizeLength res0 mem0, rfl, ?_, ?_⟩
        · split at hl
          · simp only [Option.some.injEq, Prod.mk.injEq] at hl
            obtain ⟨rfl, rfl⟩ := hl
            simp [*]
          · simp only [Option.some.injEq, Prod.mk.injEq] at hl
            obtain ⟨rfl, rfl⟩ := hl
            simp [*]
        · intro P hP hs
          have hs0 := hP _ _ _ _ _ _ _ _ hr hs
          split at hl
          · simp only [Option.some.injEq, Prod.mk.injEq] at hl
            obtain ⟨_, rfl⟩ := hl
            exact hs0
          · simp only [Option.some.injEq, Prod.mk.injEq] at hl
            obtain ⟨_, rfl⟩ := hl
            exact hs0
    rcases h with h | ⟨len, s1, hl, hne⟩ | ⟨s1, res, mx, s2, hl, hr, hres, hgt⟩
    · exact absurd h hmode
    · obtain ⟨e, he, hlog, hP⟩ := hlenlog len s1 hl
      refine ⟨s1, [e], ?_, by simpa using he, hP⟩
      unfold File.write
      simp only [hmode, if_false, hlog, hne, ne_eq, not_false_eq_true, if_true]
    · obtain ⟨e, he, hlog, hP⟩ := hlenlog 0 s1 hl
      refine ⟨s2, [e, RegisterEvent.read RegFileSizeMaxAddr 0 RegFileSizeMaxLength res mx],
        ?_, ?_, ?_⟩
      · unfold File.write
        simp only [hmode, if_false, hlog, ne_eq, not_true_eq_false]
        simp only [RegisterLink.logged, hr, hres, if_false, hgt, if_true]
        rfl
      · intro x hx
        simp only [List.mem_cons, List.mem_singleton, List.not_mem_nil, or_false] at hx
        rcases hx with rfl | rfl
        · exact he
        · rfl
      · intro P hPr hs
        exact hPr _ _ _ _ _ _ _ _ hr (hP P hPr hs)

/-- Instance of C2 on the device model: a second write on a selector that already
holds one byte is refused with -1. -/
theorem C2_rejected_write_issues_no_register_write_witness :
    (File.write ModelDevice.link.logged 1
        { m_selector := FileSelector.UserData, m_openMode := FileOpenMode.Write }
        (ModelDevice.holding [9], []) [1, 2, 3]).map (fun out => out.1) = some (-1) := by
  obtain ⟨s', log, h, _⟩ := C2_rejected_write_issues_no_register_write ModelDevice.link 1
    { m_selector := FileSelector.UserData, m_openMode := FileOpenMode.Write }
    (ModelDevice.holding [9]) [1, 2, 3]
    (Or.inr (Or.inl ⟨1, ModelDevice.holding [9], rfl, by decide⟩))
  rw [h]
  rfl

/-! ## File store: open -/

/-- C4: `File::open` reads the status, then executes Close, for the selector the
status reports open, exactly when the open bit of that status is set, then
executes Open with the requested selector and mode, then reads the status again;
it stops at the first access that fails, so the accesses it makes are always an
initial part of that sequence, and the whole of it when the first three succeed.
It returns a handle, for the requested selector and mode, exactly when all these
accesses succeed and the second status has the open bit set. -/
theorem C4_open_sequence {σ : Type} (gencp : RegisterLink σ) (s : σ) (selector : FileSelector)
    (openMode : FileOpenMode) (res0 : Int) (status0 : List Nat) (s1 : σ) (res1 : Int) (s2 : σ)
    (res2 : Int) (s3 : σ) (res3 : Int) (status1 : List Nat) (s4 : σ)
    (h0 : gencp.readRegister s StructFileStatusAddr (List.replicate 8 0) 0 StructFileStatusLength
      = some (res0, status0, s1))
    (h1 : (if FileStatus.open status0 then
        gencp.writeRegister s1 RegFileOperationExecuteAddr
          (leBytes 8 (fileOperationValue FileOperation.Close
            (FileStatus.selector_open status0) none))
      else some (0, s1)) = some (res1, s2))
    (h2 : gencp.writeRegister s2 RegFileOperationExecuteAddr
        (leBytes 8 (fileOperationValue FileOperation.Open selector (some openMode)))
      = some (res2, s3))
    (h3 : gencp.readRegister s3 StructFileStatusAddr status0 0 StructFileStatusLength
      = some (res3, status1, s4)) :
    ∃ (handle : Option File) (sF : σ) (log : List RegisterEvent),
      File.open gencp.logged (s, []) selector openMode = some (handle, (sF, log)) ∧
      log <+: openSequence selector openMode res0 status0 res1 res2 res3 status1 ∧
      (¬ res0 < 0 ∧ ¬ res1 < 0 ∧ ¬ res2 < 0 →
        log = openSequence selector openMode res0 status0 res1 res2 res3 status1 ∧ sF = s4) ∧
      (handle.isSome ↔
        ¬ res0 < 0 ∧ ¬ res1 < 0 ∧ ¬ res2 < 0 ∧ ¬ res3 < 0 ∧ FileStatus.open status1 = true) ∧
      (handle.isSome →
        handle = some { m_selector := selector % 2 ^ 32, m_openMode := openMode }) := by
  unfold File.open readFileStatus executeFileOperation openSequence
  simp only [RegisterLink.logged, h0, RegFileOperationExecuteLength]
  generalize he0 : RegisterEvent.read StructFileStatusAddr 0 StructFileStatusLength res0 status0
    = e0
  generalize he3 : RegisterEvent.read StructFileStatusAddr 0 StructFileStatusLength res3 status1
    = e3
  generalize he2 : RegisterEvent.wrote RegFileOperationExecuteAddr
    (leBytes 8 (fileOperationValue FileOperation.Open selector (some openMode))) res2 = e2
  by_cases hopen : FileStatus.open status0 = true
  · simp only [hopen, if_true] at h1 ⊢
    generalize he1 : RegisterEvent.wrote RegFileOperationExecuteAddr
      (leBytes 8 (fileOperationValue FileOperation.Close (FileStatus.selector_open status0) none))
      res1 = e1
    by_cases hr0 : res0 < 0
    · exact ⟨none, s1, [e0], by simp [hopen, hr0, he0], ⟨[e1, e2, e3], rfl⟩, by simp [hr0],
        by simp [hr0], by simp⟩
    · by_cases hr1 : res1 < 0
      · exact ⟨none, s2, [e0, e1], by simp [hopen, hr0, h1, hr1, he0, he1], ⟨[e2, e3], rfl⟩,
          by simp [hr1], by simp [hr1], by simp⟩
      · by_cases hr2 : res2 < 0
        · exact ⟨none, s3, [e0, e1, e2], by simp [hopen, hr0, h1, hr1, h2, hr2, he0, he1, he2],
            ⟨[e3], rfl⟩, by simp [hr2], by simp [hr2], by simp⟩
        · by_cases hr3 : res3 < 0
          · exact ⟨none, s4, [e0, e1, e2, e3],
              by simp [hopen, hr0, h1, hr1, h2, hr2, h3, hr3, he0, he1, he2, he3], ⟨[], rfl⟩,
              by simp, by simp [hr3], by simp⟩
          · by_cases hop1 : FileStatus.open status1 = true
            · exact ⟨some { m_selector := selector % 2 ^ 32, m_openMode := openMode }, s4,
                [e0, e1, e2, e3],
                by simp [hopen, hr0, h1, hr1, h2, hr2, h3, hr3, hop1, he0, he1, he2, he3], ⟨[], rfl⟩,
                by simp, by simp [hr0, hr1, hr2, hr3, hop1], by simp⟩
            · exact ⟨none, s4, [e0, e1, e2, e3],
                by simp [hopen, hr0, h1, hr1, h2, hr2, h3, hr3, hop1, he0, he1, he2, he3], ⟨[], rfl⟩,
                by simp, by simp [hop1], by simp⟩
  · simp only [hopen, if_false, Option.some.injEq, Prod.mk.injEq] at h1
    obtain ⟨rfl, rfl⟩ := h1
    simp only [hopen, if_false]
    by_cases hr0 : res0 < 0
    · exact ⟨none, s1, [e0], by simp [hopen, hr0, he0], ⟨[e2, e3], rfl⟩, by simp [hr0],
        by simp [hr0], by simp⟩
    · by_cases hr2 : res2 < 0
      · exact ⟨none, s3, [e0, e2], by simp [hopen, hr0, h2, hr2, he0, he2],
          ⟨[e3], rfl⟩, by simp [hr2], by simp [hr2], by simp⟩
      · by_cases hr3 : res3 < 0
        · exact ⟨none, s4, [e0, e2, e3],
            by simp [hopen, hr0, h2, hr2, h3, hr3, he0, he2, he3], ⟨[], rfl⟩,
            by simp, by simp [hr3], by simp⟩
        · by_cases hop1 : FileStatus.open status1 = true
          · exact ⟨some { m_selector := selector % 2 ^ 32, m_openMode := openMode }, s4,
              [e0, e2, e3],
              by simp [hopen, hr0, h2, hr2, h3, hr3, hop1, he0, he2, he3], ⟨[], rfl⟩,
              by simp, by simp [hr0, hr2, hr3, hop1], by simp⟩
          · exact ⟨none, s4, [e0, e2, e3],
              by simp [hopen, hr0, h2, hr2, h3, hr3, hop1, he0, he2, he3], ⟨[], rfl⟩,
              by simp, by simp [hop1], by simp⟩

/-- Instance of C4 on the fresh device model: no file is open, so `File::open`
reads the status, executes Open, reads the status and returns the handle. -/
theorem C4_open_sequence_witness :
    (File.open ModelDevice.link.logged (ModelDevice.fresh, []) FileSelector.UserData
        FileOpenMode.Write).map (fun out => (out.1, out.2.2.length))
      = some (some { m_selector := FileSelector.UserData, m_openMode := FileOpenMode.Write },
          3) := by
  obtain ⟨handle, sF, log, h, _, hfull, hiff, hsome⟩ :=
    C4_open_sequence ModelDevice.link ModelDevice.fresh FileSelector.UserData FileOpenMode.Write
      0 (List.replicate 8 0) ModelDevice.fresh 0 ModelDevice.fresh 0
      (ModelDevice.fresh.store RegFileOperationExecuteAddr
        (leBytes 8 (fileOperationValue FileOperation.Open FileSelector.UserData
          (some FileOpenMode.Write))))
      0 (1 :: List.replicate 3 0 ++ leBytes 4 FileSelector.UserData)
      (ModelDevice.fresh.store RegFileOperationExecuteAddr
        (leBytes 8 (fileOperationValue FileOperation.Open FileSelector.UserData
          (some FileOpenMode.Write))))
      (by rfl) (by rfl) (by rfl) (by rfl)
  have hs := hsome (hiff.mpr ⟨by decide, by decide, by decide, by decide, by decide⟩)
  have hl := (hfull ⟨by decide, by decide, by decide⟩).1
  rw [h, hs, hl]
  rfl

/-! ## File store: shared handles -/

theorem possible_zero (actions : List HandleAction) (h : possible actions 0 = true) :
    actions = [] := by
  cases actions with
  | nil => rfl
  | cons a rest => cases a <;> simp [possible] at h

theorem runHandles_count {σ : Type} (gencp : RegisterLink σ) (f : File)
    (htotal : ∀ (a : σ) (addr : Nat) (bytes : List Nat), (gencp.writeRegister a addr bytes).isSome) :
    ∀ (actions : List HandleAction) (live : Nat) (s : σ) (log : List RegisterEvent),
      possible actions live = true → live + actions.length < 2 ^ 64 →
      ∃ (s' : σ) (log' : List RegisterEvent),
        runHandles gencp.logged f actions live (s, log)
          = some (liveAfter actions live, (s', log')) ∧
        (liveAfter actions live ≠ 0 → log' = log ∧ s' = s) ∧
        (liveAfter actions live = 0 → live ≠ 0 →
          ∃ (res : Int),
            gencp.writeRegister s RegFileOperationExecuteAddr
              (leBytes 8 (fileOperationValue FileOperation.Close f.m_selector none))
              = some (res, s') ∧
            log' = log ++ [RegisterEvent.wrote RegFileOperationExecuteAddr
              (leBytes 8 (fileOperationValue FileOperation.Close f.m_selector none)) res]) := by
  intro actions
  induction actions with
  | nil =>
    intro live s log _ _
    exact ⟨s, log, rfl, fun _ => ⟨rfl, rfl⟩, fun h0 h1 => absurd h0 h1⟩
  | cons a rest ih =>
    intro live s log hp hlen
    cases a with
    | copy =>
      simp only [possible, Bool.and_eq_true, decide_eq_true_eq] at hp
      simp only [List.length_cons] at hlen
      have hc : File.copy live = live + 1 := by
        unfold File.copy
        exact Nat.mod_eq_of_lt (by omega)
      obtain ⟨s', log', hrun, hne, hz⟩ := ih (live + 1) s log hp.2 (by omega)
      refine ⟨s', log', ?_, hne, fun h0 _ => hz h0 (by omega)⟩
      simp only [runHandles, liveAfter, hc, hrun]
    | destroy =>
      simp only [possible, Bool.and_eq_true, decide_eq_true_eq] at hp
      simp only [List.length_cons] at hlen
      have hd : (if live = 0 then 2 ^ 64 - 1 else live - 1) = live - 1 := by
        rw [if_neg (by omega)]
      by_cases h1 : live - 1 = 0
      · have hrest : rest = [] := possible_zero rest (by rw [← h1]; exact hp.2)
        subst hrest
        have hl1 : live = 1 := by omega
        subst hl1
        have hw := htotal s RegFileOperationExecuteAddr
          (leBytes 8 (fileOperationValue FileOperation.Close f.m_selector none))
        obtain ⟨⟨res, s1⟩, hw⟩ := Option.isSome_iff_exists.mp hw
        refine ⟨s1, log ++ [RegisterEvent.wrote RegFileOperationExecuteAddr
            (leBytes 8 (fileOperationValue FileOperation.Close f.m_selector none)) res], ?_, ?_,
          fun _ _ => ⟨res, hw, rfl⟩⟩
        · simp [runHandles, File.destroy, executeFileOperation, RegisterLink.logged, liveAfter,
            RegFileOperationExecuteLength, hw]
        · intro hne
          simp [liveAfter] at hne
      · obtain ⟨s', log', hrun, hne, hz⟩ := ih (live - 1) s log hp.2 (by omega)
        refine ⟨s', log', ?_, hne, fun h0 _ => hz h0 h1⟩
        simp only [runHandles, File.destroy, hd, h1, if_false, liveAfter, hrun]

theorem last_action_destroy :
    ∀ (actions : List HandleAction) (live : Nat), possible actions live = true → 0 < live →
      liveAfter actions live = 0 → actions.getLast? = some HandleAction.destroy := by
  intro actions
  induction actions with
  | nil =>
    intro live _ hpos h0
    simp only [liveAfter] at h0
    omega
  | cons a rest ih =>
    intro live hp hpos h0
    cases a with
    | copy =>
      simp only [possible, Bool.and_eq_true, decide_eq_true_eq] at hp
      simp only [liveAfter] at h0
      have hr := ih (live + 1) hp.2 (by omega) h0
      cases rest with
      | nil => simp at hr
      | cons b rest' => rw [List.getLast?_cons_cons]; exact hr
    | destroy =>
      simp only [possible, Bool.and_eq_true, decide_eq_true_eq] at hp
      simp only [liveAfter] at h0
      by_cases h1 : live - 1 = 0
      · have hrest : rest = [] := possible_zero rest (by rw [← h1]; exact hp.2)
        subst hrest
        rfl
      · have hr := ih (live - 1) hp.2 (by omega) h0
        cases rest with
        | nil => simp at hr
        | cons b rest' => rw [List.getLast?_cons_cons]; exact hr

/-- C5: for every possible sequence of copies and destructions of the handles
derived from one successful `File::open` (whose counter starts at 1), on a link
whose register writes return, the shared counter `*m_refCount` equals the number
of live handles after the sequence, and so after each initial part of it.  While
a handle is live no register access has been made; when the last handle is
destroyed exactly one Close for the selector of the handle has been executed, by
that destruction.  The destructor yields no result: whatever code the Close
returned, the outcome is the same. -/
theorem C5_shared_count_and_single_close {σ : Type} (gencp : RegisterLink σ) (f : File)
    (actions : List HandleAction) (s : σ)
    (htotal : ∀ (a : σ) (addr : Nat) (bytes : List Nat), (gencp.writeRegister a addr bytes).isSome)
    (hpossible : possible actions 1 = true) (hlen : actions.length + 1 < 2 ^ 64) :
    File.newRefCount = 1 ∧
    ∃ (s' : σ) (log : List RegisterEvent),
      runHandles gencp.logged f actions File.newRefCount (s, [])
        = some (liveAfter actions 1, (s', log)) ∧
      (liveAfter actions 1 ≠ 0 → log = [] ∧ s' = s) ∧
      (liveAfter actions 1 = 0 →
        actions.getLast? = some HandleAction.destroy ∧
        ∃ (res : Int),
          gencp.writeRegister s RegFileOperationExecuteAddr
            (leBytes 8 (fileOperationValue FileOperation.Close f.m_selector none))
            = some (res, s') ∧
          log = [RegisterEvent.wrote RegFileOperationExecuteAddr
            (leBytes 8 (fileOperationValue FileOperation.Close f.m_selector none)) res]) := by
  refine ⟨rfl, ?_⟩
  obtain ⟨s', log, hrun, hne, hz⟩ :=
    runHandles_count gencp f htotal actions 1 s [] hpossible (by omega)
  refine ⟨s', log, hrun, hne, fun h0 => ⟨?_, ?_⟩⟩
  · exact last_action_destroy actions 1 hpossible (by decide) h0
  · obtain ⟨res, hw, hl⟩ := hz h0 (by decide)
    exact ⟨res, hw, by simpa using hl⟩


/-- Instance of C5 on the device model: the handle is copied, the copy and then
the original are destroyed; the counter ends at 0 after one register write. -/
theorem C5_shared_count_and_single_close_witness :
    (runHandles ModelDevice.link.logged
        { m_selector := FileSelector.UserData, m_openMode := FileOpenMode.Read }
        [HandleAction.copy, HandleAction.destroy, HandleAction.destroy] File.newRefCount
        (ModelDevice.fresh, [])).map (fun out => (out.1, out.2.2.length)) = some (0, 1) := by
  obtain ⟨_, s', log, hrun, _, hz⟩ := C5_shared_count_and_single_close ModelDevice.link
    { m_selector := FileSelector.UserData, m_openMode := FileOpenMode.Read }
    [HandleAction.copy, HandleAction.destroy, HandleAction.destroy] ModelDevice.fresh
    (fun _ _ _ => rfl) (by decide) (by decide)
  obtain ⟨_, res, _, hlog⟩ := hz (by decide)
  rw [hrun, hlog]
  rfl

/-! ## File store: rejected reads -/

/-- C3 (evaluation of the code at the failing input): on a link where every
register access fails with -1, `length()` returns -1; converted to `size_t` for
the comparison with `maxLength` it is `2^64 - 1`, which is not greater than
`maxLength = 2^64 - 1`, so `File::read` goes on to the chunk loop and writes the
access-length register before it fails.  With `maxLength = 2^64 - 2` the same
call fails after the register read alone. -/
theorem C3_failed_length_passes_size_check :
    toU64 (-1) = 2 ^ 64 - 1 ∧
    (File.length failingLink
        { m_selector := FileSelector.UserData, m_openMode := FileOpenMode.Read } ()).map
      (fun out => out.1) = some (-1) ∧
    (File.read failingLink.logged 1
        { m_selector := FileSelector.UserData, m_openMode := FileOpenMode.Read } ((), [])
        [0, 0, 0, 0] (2 ^ 64 - 1)).map (fun out => (out.1, out.2.2.2))
      = some (-1,
          [RegisterEvent.read (RegFileSizeBaseAddr + 4 * 0x11) 0 4 (-1) [0, 0, 0, 0],
           RegisterEvent.wrote RegFileAccessLengthAddr (leBytes 4 1008) (-1)]) ∧
    (File.read failingLink.logged 1
        { m_selector := FileSelector.UserData, m_openMode := FileOpenMode.Read } ((), [])
        [0, 0, 0, 0] (2 ^ 64 - 2)).map (fun out => (out.1, out.2.2.2))
      = some (-1, [RegisterEvent.read (RegFileSizeBaseAddr + 4 * 0x11) 0 4 (-1) [0, 0, 0, 0]]) := by
  refine ⟨by decide, by rfl, by rfl, by rfl⟩

/-! ## File store: write then read on the device model -/

theorem writeAt_length (mem : List Nat) (ptr : Nat) (bytes : List Nat)
    (h : ptr + bytes.length ≤ mem.length) : (writeAt mem ptr bytes).length = mem.length := by
  simp only [writeAt, List.length_append, List.length_take, List.length_drop]
  omega

theorem take_writeAt (mem : List Nat) (ptr : Nat) (bytes : List Nat) (h : ptr ≤ mem.length) :
    (writeAt mem ptr bytes).take (ptr + bytes.length) = mem.take ptr ++ bytes := by
  unfold writeAt
  rw [List.take_append_of_le_length (by simp [List.length_take]; omega)]
  exact List.take_of_length_le (by simp [List.length_take])

theorem drop_writeAt (mem : List Nat) (ptr : Nat) (bytes : List Nat) (k : Nat)
    (h : ptr ≤ mem.length) (hk : ptr + bytes.length ≤ k) :
    (writeAt mem ptr bytes).drop k = mem.drop k := by
  unfold writeAt
  have hl : (mem.take ptr ++ bytes).length = ptr + bytes.length := by
    simp [List.length_take]; omega
  obtain ⟨m, rfl⟩ : ∃ m, k = (ptr + bytes.length) + m := ⟨k - (ptr + bytes.length), by omega⟩
  rw [← List.drop_drop, List.drop_left' hl, List.drop_drop]

theorem writeAt_zero_take (mem bytes : List Nat) :
    (writeAt mem 0 bytes).take bytes.length = bytes := by
  have := take_writeAt mem 0 bytes (Nat.zero_le _)
  simpa using this

theorem fileOperationValue_eq (operation : FileOperation) (selector : Nat)
    (open_mode : Option FileOpenMode) :
    fileOperationValue operation selector open_mode
      = operation.toNat
        + (match operation, open_mode with
           | FileOperation.Open, some mode => mode.toNat * 2 ^ 16
           | _, _ => 0)
        + (selector % 2 ^ 32) * 2 ^ 32 := by
  have hor : ∀ (a b : Nat), b < 2 ^ 32 → b ||| (a <<< 32) = b + a * 2 ^ 32 := by
    intro a b hb
    rw [Nat.shiftLeft_eq, Nat.lor_comm, Nat.mul_comm a, ← Nat.mul_add_lt_is_or hb]
    omega
  have hor2 : ∀ (a m : Nat), m < 2 ^ 16 → (a * 2 ^ 32) ||| (m <<< 16) = m * 2 ^ 16 + a * 2 ^ 32 := by
    intro a m hm
    rw [Nat.shiftLeft_eq, Nat.mul_comm a, ← Nat.mul_add_lt_is_or (by omega)]
    omega
  unfold fileOperationValue
  cases operation <;> cases open_mode <;>
    simp only [FileOperation.toNat, hor _ _ (by decide : (0 : Nat) < 2 ^ 32),
      hor _ _ (by decide : (1 : Nat) < 2 ^ 32), hor _ _ (by decide : (2 : Nat) < 2 ^ 32),
      hor _ _ (by decide : (3 : Nat) < 2 ^ 32), hor _ _ (by decide : (4 : Nat) < 2 ^ 32)]
  rename_i mode
  rw [Nat.zero_add, Nat.zero_add]
  cases mode
  · exact hor2 _ 1 (by decide)
  · exact hor2 _ 2 (by decide)

theorem leVal_take_leBytes (k v : Nat) : leVal ((leBytes k v).take k) = v % 256 ^ k := by
  rw [List.take_of_length_le (by rw [leBytes_length]), leVal_leBytes]

theorem store_accessLength (d : ModelDevice) (b : Nat) (hb : b < 2 ^ 32) :
    d.store RegFileAccessLengthAddr (leBytes 4 b) = { d with accessLength := b } := by
  unfold ModelDevice.store
  rw [if_pos rfl, leVal_take_leBytes, Nat.mod_eq_of_lt (by norm_num; omega)]

theorem store_accessBuffer (d : ModelDevice) (bytes : List Nat) :
    d.store FileAccessBufferAddr bytes
      = { d with accessBuffer := writeAt d.accessBuffer 0 bytes } := by
  unfold ModelDevice.store
  rw [if_neg (by decide), if_pos rfl]

theorem store_execute (d : ModelDevice) (operation : FileOperation) (selector : Nat)
    (open_mode : Option FileOpenMode) (hsel : selector < 2 ^ 32) :
    d.store RegFileOperationExecuteAddr
        (leBytes RegFileOperationExecuteLength (fileOperationValue operation selector open_mode))
      = d.execute (fileOperationValue operation selector open_mode) := by
  unfold ModelDevice.store
  rw [if_neg (by decide), if_neg (by decide), if_pos rfl]
  have hlt : fileOperationValue operation selector open_mode < 2 ^ 64 := by
    rw [fileOperationValue_eq, Nat.mod_eq_of_lt hsel]
    cases operation <;> cases open_mode <;> simp only [FileOperation.toNat] <;>
      first
      | omega
      | (rename_i mode; cases mode <;> simp only [FileOpenMode.toNat] <;> omega)
  show d.execute (leVal ((leBytes 8 _).take 8)) = _
  rw [leVal_take_leBytes, Nat.mod_eq_of_lt (by norm_num; omega)]

theorem execute_write (d : ModelDevice) (selector : Nat) (hsel : selector < 2 ^ 32) :
    d.execute (fileOperationValue FileOperation.Write selector none)
      = { d with
          files := Function.update d.files selector
            (d.files selector ++ d.accessBuffer.take d.accessLength) } := by
  rw [fileOperationValue_eq, Nat.mod_eq_of_lt hsel]
  simp only [FileOperation.toNat]
  unfold ModelDevice.execute
  have h1 : (3 + 0 + selector * 2 ^ 32) % 2 ^ 16 = 3 := by omega
  have h2 : (3 + 0 + selector * 2 ^ 32) / 2 ^ 32 = selector := by omega
  simp only [h1, h2]
  rfl

theorem execute_read (d : ModelDevice) (selector : Nat) (hsel : selector < 2 ^ 32) :
    d.execute (fileOperationValue FileOperation.Read selector none)
      = { d with
          accessBuffer :=
            writeAt d.accessBuffer 0 (((d.files selector).drop d.readPos).take d.accessLength)
          readPos := d.readPos + d.accessLength } := by
  rw [fileOperationValue_eq, Nat.mod_eq_of_lt hsel]
  simp only [FileOperation.toNat]
  unfold ModelDevice.execute
  have h1 : (2 + 0 + selector * 2 ^ 32) % 2 ^ 16 = 2 := by omega
  have h2 : (2 + 0 + selector * 2 ^ 32) / 2 ^ 32 = selector := by omega
  simp only [h1, h2]
  rfl

theorem execute_open (d : ModelDevice) (selector : Nat) (mode : FileOpenMode)
    (hsel : selector < 2 ^ 32) :
    d.execute (fileOperationValue FileOperation.Open selector (some mode))
      = { d with status_open := true, selector_open := selector, readPos := 0 } := by
  rw [fileOperationValue_eq, Nat.mod_eq_of_lt hsel]
  simp only [FileOperation.toNat]
  unfold ModelDevice.execute
  have h1 : (0 + mode.toNat * 2 ^ 16 + selector * 2 ^ 32) % 2 ^ 16 = 0 := by
    cases mode <;> simp only [FileOpenMode.toNat] <;> omega
  have h2 : (0 + mode.toNat * 2 ^ 16 + selector * 2 ^ 32) / 2 ^ 32 = selector := by
    cases mode <;> simp only [FileOpenMode.toNat] <;> omega
  simp only [h1, h2]
  rfl

theorem execute_close (d : ModelDevice) (selector : Nat) (hsel : selector < 2 ^ 32) :
    d.execute (fileOperationValue FileOperation.Close selector none)
      = { d with status_open := false } := by
  rw [fileOperationValue_eq, Nat.mod_eq_of_lt hsel]
  simp only [FileOperation.toNat]
  unfold ModelDevice.execute
  have h1 : (1 + 0 + selector * 2 ^ 32) % 2 ^ 16 = 1 := by omega
  simp only [h1]
  rfl

theorem writeAt_full (mem bytes : List Nat) (h : mem.length ≤ bytes.length) :
    writeAt mem 0 bytes = bytes := by
  unfold writeAt
  rw [List.drop_of_length_le (by omega)]
  simp

theorem field_leBytes (k v : Nat) : field (leBytes k v) 0 k = v % 256 ^ k := by
  unfold field
  rw [List.drop_zero, leVal_take_leBytes]

theorem load_size (d : ModelDevice) (selector : Nat) :
    d.load (RegFileSizeBaseAddr + RegFileSizeLength * selector)
      = leBytes 4 (d.files selector).length := by
  unfold ModelDevice.load
  have h1 : ¬ RegFileSizeBaseAddr + RegFileSizeLength * selector = StructFileStatusAddr := by
    simp only [RegFileSizeBaseAddr, RegFileSizeLength, StructFileStatusAddr]; omega
  have h2 : ¬ RegFileSizeBaseAddr + RegFileSizeLength * selector = FileAccessBufferAddr := by
    simp only [RegFileSizeBaseAddr, RegFileSizeLength, FileAccessBufferAddr]; omega
  have h3 : ¬ RegFileSizeBaseAddr + RegFileSizeLength * selector = RegFileSizeMaxAddr := by
    simp only [RegFileSizeBaseAddr, RegFileSizeLength, RegFileSizeMaxAddr]; omega
  have h4 : RegFileSizeBaseAddr ≤ RegFileSizeBaseAddr + RegFileSizeLength * selector :=
    Nat.le_add_right _ _
  have h5 : (RegFileSizeBaseAddr + RegFileSizeLength * selector - RegFileSizeBaseAddr) / 4
      = selector := by
    simp only [RegFileSizeLength]; omega
  rw [if_neg h1, if_neg h2, if_neg h3, if_pos h4, h5]

theorem length_model (d : ModelDevice) (selector : Nat) (mode : FileOpenMode)
    (hsel : selector < 2 ^ 32) :
    File.length ModelDevice.link { m_selector := selector, m_openMode := mode } d
      = some ((((d.files selector).length % 2 ^ 32 : Nat) : Int), d) := by
  unfold File.length
  simp only [ModelDevice.link, Nat.mod_eq_of_lt hsel, load_size]
  rw [List.take_of_length_le (by rw [leBytes_length]; decide),
    writeAt_full _ _ (by rw [leBytes_length]; simp), field_leBytes]
  simp

theorem write_loop_model (selector : Nat) (hsel : selector < 2 ^ 32) (mode : FileOpenMode)
    (data : List Nat) (c : Nat) (hc : 0 < c) (hn : data.length < 2 ^ 32) :
    ∀ (fuel rem idx : Nat) (d : ModelDevice), rem ≤ data.length →
      (0 < rem → idx * c = data.length - rem) →
      d.files selector = data.take (data.length - rem) → chunkCount rem c ≤ fuel →
      ∃ (d' : ModelDevice),
        File.write.loop ModelDevice.link { m_selector := selector, m_openMode := mode } data c
          fuel rem idx d = some (toInt32 data.length, d') ∧
        d'.files selector = data ∧ d'.maxFileLength = d.maxFileLength ∧
        d'.maxReadPayload = d.maxReadPayload ∧ d'.maxWritePayload = d.maxWritePayload ∧
        d'.status_open = d.status_open ∧ d'.selector_open = d.selector_open ∧
        d'.readPos = d.readPos := by
  intro fuel
  induction fuel with
  | zero =>
    intro rem idx d hrem _ hfiles hf
    have h0 : rem = 0 := chunkCount_eq_zero rem c hc (by omega)
    subst h0
    refine ⟨d, ?_, ?_, rfl, rfl, rfl, rfl, rfl, rfl⟩
    · simp [File.write.loop]
    · rw [hfiles]; simp
  | succ fuel ih =>
    intro rem idx d hrem hidx hfiles hf
    by_cases h0 : rem = 0
    · subst h0
      refine ⟨d, ?_, ?_, rfl, rfl, rfl, rfl, rfl, rfl⟩
      · simp [File.write.loop]
      · rw [hfiles]; simp
    · have hpos : 0 < rem := by omega
      have hi := hidx hpos
      have hstep := chunkCount_step rem c hc hpos
      have hoff : idx * c % 2 ^ 32 = data.length - rem := by
        rw [hi]; exact Nat.mod_eq_of_lt (by omega)
      have hidx1 : (idx + 1) % 2 ^ 32 = idx + 1 := by
        have : idx ≤ idx * c := Nat.le_mul_of_pos_right idx hc
        exact Nat.mod_eq_of_lt (by omega)
      generalize hb : (if rem > c then c else rem) = b at hstep
      have hbv : (rem > c ∧ b = c) ∨ (¬ rem > c ∧ b = rem) := by
        rw [← hb]; split <;> simp [*]
      have hble : b ≤ rem := by omega
      have hbpos : 0 < b := by omega
      have hchunk : ((data.drop (data.length - rem)).take b).length = b := by
        rw [List.length_take, List.length_drop]; omega
      obtain ⟨d', hloop, hrest⟩ := ih (rem - b) (idx + 1)
        { d with
          accessLength := b
          accessBuffer := writeAt d.accessBuffer 0 ((data.drop (data.length - rem)).take b)
          files := Function.update d.files selector
            (d.files selector ++
              (writeAt d.accessBuffer 0 ((data.drop (data.length - rem)).take b)).take b) }
        (by omega)
        (by
          intro hr
          have hbc : b = c := by omega
          rw [Nat.succ_mul, hi, hbc]
          omega)
        (by
          simp only [Function.update_same, hfiles]
          have := writeAt_zero_take d.accessBuffer ((data.drop (data.length - rem)).take b)
          rw [hchunk] at this
          rw [this, ← List.take_add]
          congr 1
          omega)
        (by omega)
      refine ⟨d', ?_, hrest⟩
      rw [← hloop]
      conv_lhs => unfold File.write.loop
      simp only [hpos, if_true, hb, hoff, hidx1]
      simp only [ModelDevice.link, executeFileOperation, store_accessLength d b (by omega),
        store_accessBuffer, store_execute _ _ _ _ hsel, execute_write _ _ hsel]
      simp

theorem load_buffer (d : ModelDevice) : d.load FileAccessBufferAddr = d.accessBuffer := by
  unfold ModelDevice.load
  rw [if_neg (by decide), if_pos rfl]

theorem load_max (d : ModelDevice) : d.load RegFileSizeMaxAddr = leBytes 4 d.maxFileLength := by
  unfold ModelDevice.load
  rw [if_neg (by decide), if_neg (by decide), if_pos rfl]

theorem load_status (d : ModelDevice) :
    d.load StructFileStatusAddr
      = [if d.status_open then 1 else 0, 0, 0, 0] ++ leBytes 4 d.selector_open := by
  unfold ModelDevice.load
  rw [if_pos rfl]

theorem read_loop_model (selector : Nat) (hsel : selector < 2 ^ 32) (mode : FileOpenMode)
    (file : List Nat) (c : Nat) (hc : 0 < c) (hn : file.length < 2 ^ 32) (len : Int) :
    ∀ (fuel rem idx : Nat) (d : ModelDevice) (out : List Nat), rem ≤ file.length →
      (0 < rem → idx * c = file.length - rem ∧ d.readPos = file.length - rem) →
      d.files selector = file → out.take (file.length - rem) = file.take (file.length - rem) →
      file.length ≤ out.length → chunkCount rem c ≤ fuel →
      ∃ (d' : ModelDevice) (out' : List Nat),
        File.read.loop ModelDevice.link { m_selector := selector, m_openMode := mode } len c
          fuel rem idx out d = some (len, out', d') ∧
        out'.take file.length = file ∧ out'.drop file.length = out.drop file.length ∧
        d'.files = d.files := by
  intro fuel
  induction fuel with
  | zero =>
    intro rem idx d out hrem _ _ hout hlen hf
    have h0 : rem = 0 := chunkCount_eq_zero rem c hc (by omega)
    subst h0
    refine ⟨d, out, ?_, ?_, rfl, rfl⟩
    · simp [File.read.loop]
    · simpa using hout
  | succ fuel ih =>
    intro rem idx d out hrem hidx hfiles hout hlen hf
    by_cases h0 : rem = 0
    · subst h0
      refine ⟨d, out, ?_, ?_, rfl, rfl⟩
      · simp [File.read.loop]
      · simpa using hout
    · have hpos : 0 < rem := by omega
      obtain ⟨hi, hpos'⟩ := hidx hpos
      have hstep := chunkCount_step rem c hc hpos
      have hoff : idx * c % 2 ^ 32 = file.length - rem := by
        rw [hi]; exact Nat.mod_eq_of_lt (by omega)
      have hidx1 : (idx + 1) % 2 ^ 32 = idx + 1 := by
        have : idx ≤ idx * c := Nat.le_mul_of_pos_right idx hc
        exact Nat.mod_eq_of_lt (by omega)
      generalize hb : (if rem > c then c else rem) = b at hstep
      have hbv : (rem > c ∧ b = c) ∨ (¬ rem > c ∧ b = rem) := by
        rw [← hb]; split <;> simp [*]
      have hble : b ≤ rem := by omega
      have hbpos : 0 < b := by omega
      have hchunk : ((file.drop (file.length - rem)).take b).length = b := by
        rw [List.length_take, List.length_drop]; omega
      have hbuf : (writeAt d.accessBuffer 0 ((file.drop (file.length - rem)).take b)).take b
          = (file.drop (file.length - rem)).take b := by
        have := writeAt_zero_take d.accessBuffer ((file.drop (file.length - rem)).take b)
        rw [hchunk] at this
        exact this
      obtain ⟨d', out', hloop, htake, hdrop, hfs⟩ := ih (rem - b) (idx + 1)
        { d with
          accessLength := b
          accessBuffer := writeAt d.accessBuffer 0 ((file.drop (file.length - rem)).take b)
          readPos := d.readPos + b }
        (writeAt out (file.length - rem) ((file.drop (file.length - rem)).take b))
        (by omega)
        (by
          intro hr
          have hbc : b = c := by omega
          refine ⟨?_, ?_⟩
          · rw [Nat.succ_mul, hi, hbc]; omega
          · show d.readPos + b = _
            omega)
        hfiles
        (by
          have h1 : file.length - (rem - b) = (file.length - rem) + b := by omega
          have h2 := take_writeAt out (file.length - rem)
            ((file.drop (file.length - rem)).take b) (by omega)
          rw [hchunk] at h2
          rw [h1, h2, hout, ← List.take_add])
        (by rw [writeAt_length _ _ _ (by rw [hchunk]; omega)]; exact hlen)
        (by omega)
      refine ⟨d', out', ?_, htake, ?_, hfs⟩
      · rw [← hloop]
        conv_lhs => unfold File.read.loop
        simp only [hpos, if_true, hb, hoff, hidx1]
        simp only [ModelDevice.link, executeFileOperation, store_accessLength d b (by omega),
          store_execute _ _ _ _ hsel, execute_read _ _ hsel, load_buffer]
        simp [hfiles, hpos', hbuf]
      · rw [hdrop, drop_writeAt _ _ _ _ (by omega) (by rw [hchunk]; omega)]

theorem status_open_load (d : ModelDevice) :
    FileStatus.open ([if d.status_open then 1 else 0, 0, 0, 0] ++ leBytes 4 d.selector_open)
      = d.status_open := by
  cases h : d.status_open <;> simp [FileStatus.open, field, leVal]

theorem status_selector_load (d : ModelDevice) :
    FileStatus.selector_open
        ([if d.status_open then 1 else 0, 0, 0, 0] ++ leBytes 4 d.selector_open)
      = d.selector_open % 2 ^ 32 := by
  have h : field ([if d.status_open then 1 else 0, 0, 0, 0] ++ leBytes 4 d.selector_open) 4 4
      = leVal ((leBytes 4 d.selector_open).take 4) := by
    simp [field]
  rw [FileStatus.selector_open, h, leVal_take_leBytes]
  norm_num

theorem read_status_model (d : ModelDevice) (status : List Nat) (h : status.length ≤ 8) :
    readFileStatus ModelDevice.link d status
      = some (0, [if d.status_open then 1 else 0, 0, 0, 0] ++ leBytes 4 d.selector_open, d) := by
  unfold readFileStatus
  simp only [ModelDevice.link, load_status]
  rw [List.take_of_length_le (by simp [leBytes_length, StructFileStatusLength]),
    writeAt_full _ _ (by simp [leBytes_length]; omega)]
  simp

theorem open_model (d : ModelDevice) (selector : Nat) (mode : FileOpenMode)
    (hsel : selector < 2 ^ 32) :
    File.open ModelDevice.link d selector mode
      = some (some { m_selector := selector, m_openMode := mode },
          { d with status_open := true, selector_open := selector, readPos := 0 }) := by
  unfold File.open
  rw [read_status_model d _ (by simp)]
  simp only [status_open_load, status_selector_load]
  have hclose : executeFileOperation ModelDevice.link d FileOperation.Close
      (d.selector_open % 2 ^ 32) none = some (0, { d with status_open := false }) := by
    simp only [executeFileOperation, ModelDevice.link,
      store_execute _ _ _ _ (Nat.mod_lt _ (by decide)),
      execute_close _ _ (Nat.mod_lt _ (by decide))]
    simp
  have hopen : ∀ (a : ModelDevice), executeFileOperation ModelDevice.link a FileOperation.Open
      selector (some mode)
        = some (0, { a with status_open := true, selector_open := selector, readPos := 0 }) := by
    intro a
    simp only [executeFileOperation, ModelDevice.link, store_execute _ _ _ _ hsel,
      execute_open _ _ _ hsel]
    simp
  have hop1 : ∀ (rest : List Nat), FileStatus.open (1 :: 0 :: 0 :: 0 :: rest) = true := by
    intro rest
    simp [FileStatus.open, field, leVal]
  have hsel' : selector % 4294967296 = selector := Nat.mod_eq_of_lt hsel
  cases hso : d.status_open
  · simp only [hopen, Bool.false_eq_true, if_false]
    rw [read_status_model _ _ (by simp [leBytes_length])]
    simp [hop1, hsel']
  · simp only [hclose, hopen, if_true]
    rw [read_status_model _ _ (by simp [leBytes_length])]
    simp [hop1, hsel']

theorem toU64_natCast (n : Nat) (h : n < 2 ^ 64) : toU64 (n : Int) = n := by
  unfold toU64
  omega

theorem chunkCount_le (n c : Nat) (hc : 0 < c) : chunkCount n c ≤ n := by
  unfold chunkCount
  apply Nat.lt_succ_iff.mp
  rw [Nat.div_lt_iff_lt_mul hc]
  have : n ≤ n * c := Nat.le_mul_of_pos_right n hc
  rw [Nat.succ_mul]
  omega

/-- C1: on the device model (Write execute appends the first access-length bytes
of the access buffer to the selected file, Read execute loads the next
access-length bytes of the file into the access buffer, the size register reports
the stored length; payload limits of the link positive), for every byte string of
length `n` with `0 < n ≤ maxFileLength`, the value the device reports in its 32-bit
maximum-file-size register: opening the empty file in Write mode,
`File::write` of the `n` bytes, dropping the handle, opening in Read mode and
`File::read` with `maxLength ≥ n` into a buffer of at least `maxLength` bytes all
return (for any iteration bound of at least `n`); `length()` then reports `n`,
`File::read` returns `n`, and the first `n` bytes of the output buffer are exactly
the bytes written, in order, the rest of the buffer being untouched. -/
theorem C1_write_then_read_roundtrip (d : ModelDevice) (selector : Nat) (data buf : List Nat)
    (maxLength fuel : Nat) (hsel : selector < 2 ^ 32) (hempty : d.files selector = [])
    (hn : 0 < data.length) (hmax : data.length ≤ d.maxFileLength % 2 ^ 32)
    (hW : 0 < d.maxWritePayload) (hR : 0 < d.maxReadPayload)
    (hlen : data.length ≤ maxLength) (hbuf : maxLength ≤ buf.length)
    (hfuel : data.length ≤ fuel) :
    ∃ (d1 d2 d3 d4 d5 : ModelDevice) (out : List Nat),
      File.open ModelDevice.link d selector FileOpenMode.Write
        = some (some { m_selector := selector, m_openMode := FileOpenMode.Write }, d1) ∧
      File.write ModelDevice.link fuel
          { m_selector := selector, m_openMode := FileOpenMode.Write } d1 data
        = some (toInt32 data.length, d2) ∧
      File.destroy ModelDevice.link { m_selector := selector, m_openMode := FileOpenMode.Write }
          File.newRefCount d2 = some (0, d3) ∧
      File.open ModelDevice.link d3 selector FileOpenMode.Read
        = some (some { m_selector := selector, m_openMode := FileOpenMode.Read }, d4) ∧
      File.length ModelDevice.link { m_selector := selector, m_openMode := FileOpenMode.Read } d4
        = some ((data.length : Int), d4) ∧
      File.read ModelDevice.link fuel
          { m_selector := selector, m_openMode := FileOpenMode.Read } d4 buf maxLength
        = some ((data.length : Int), out, d5) ∧
      out.take data.length = data ∧ out.drop data.length = buf.drop data.length := by
  have hn32 : data.length < 2 ^ 32 := by
    have := Nat.mod_lt d.maxFileLength (by decide : 0 < 2 ^ 32)
    omega
  -- open for writing
  have ho1 := open_model d selector FileOpenMode.Write hsel
  generalize hd1 : ({ d with status_open := true, selector_open := selector, readPos := 0 }
    : ModelDevice) = d1 at ho1
  have hd1f : d1.files selector = [] := by rw [← hd1]; exact hempty
  have hd1m : d1.maxFileLength = d.maxFileLength := by rw [← hd1]
  have hd1w : d1.maxWritePayload = d.maxWritePayload := by rw [← hd1]
  have hd1r : d1.maxReadPayload = d.maxReadPayload := by rw [← hd1]
  -- write
  have hcw : 0 < min FileAccessBufferLength d1.maxWritePayload % 2 ^ 32 := by
    rw [hd1w, Nat.mod_eq_of_lt (by simp only [FileAccessBufferLength]; omega)]
    simp only [FileAccessBufferLength]; omega
  obtain ⟨d2, hloopw, hd2f, hd2m, hd2r, _, _, _, _⟩ :=
    write_loop_model selector hsel FileOpenMode.Write data _ hcw hn32 fuel data.length 0 d1
      (le_refl _) (by intro _; simp) (by simpa using hd1f)
      (le_trans (chunkCount_le _ _ hcw) hfuel)
  have hwrite : File.write ModelDevice.link fuel
      { m_selector := selector, m_openMode := FileOpenMode.Write } d1 data
      = some (toInt32 data.length, d2) := by
    unfold File.write
    rw [length_model d1 selector _ hsel, hd1f]
    simp only [ModelDevice.link, load_max]
    rw [List.take_of_length_le (by rw [leBytes_length]; decide),
      writeAt_full _ _ (by rw [leBytes_length]; simp), field_leBytes, hd1m]
    have h1 : ¬ d.maxFileLength % 4294967296 < data.length := by omega
    have h2 : data.length % 4294967296 = data.length := Nat.mod_eq_of_lt hn32
    simp only [ModelDevice.link, Nat.reducePow] at hloopw
    simp [h1, h2, hloopw]
  -- drop the handle
  have hdestroy : File.destroy ModelDevice.link
      { m_selector := selector, m_openMode := FileOpenMode.Write } File.newRefCount d2
      = some (0, { d2 with status_open := false }) := by
    simp only [File.destroy, File.newRefCount, executeFileOperation, ModelDevice.link,
      store_execute _ _ _ _ hsel, execute_close _ _ hsel]
    simp
  generalize hd3 : ({ d2 with status_open := false } : ModelDevice) = d3 at hdestroy
  -- open for reading
  have ho2 := open_model d3 selector FileOpenMode.Read hsel
  generalize hd4 : ({ d3 with status_open := true, selector_open := selector, readPos := 0 }
    : ModelDevice) = d4 at ho2
  have hd4f : d4.files selector = data := by rw [← hd4, ← hd3]; exact hd2f
  have hd4p : d4.readPos = 0 := by rw [← hd4]
  have hd4r : d4.maxReadPayload = d.maxReadPayload := by rw [← hd4, ← hd3]; exact hd2r.trans hd1r
  have hlength : File.length ModelDevice.link
      { m_selector := selector, m_openMode := FileOpenMode.Read } d4
      = some ((data.length : Int), d4) := by
    rw [length_model d4 selector _ hsel, hd4f, Nat.mod_eq_of_lt hn32]
  -- read
  have hcr : 0 < min FileAccessBufferLength d4.maxReadPayload % 2 ^ 32 := by
    rw [hd4r, Nat.mod_eq_of_lt (by simp only [FileAccessBufferLength]; omega)]
    simp only [FileAccessBufferLength]; omega
  obtain ⟨d5, out, hloopr, htake, hdrop, _⟩ :=
    read_loop_model selector hsel FileOpenMode.Read data _ hcr hn32 (data.length : Int) fuel
      data.length 0 d4 buf (le_refl _) (by intro _; simp [hd4p]) hd4f (by simp) (by omega)
      (le_trans (chunkCount_le _ _ hcr) hfuel)
  have hread : File.read ModelDevice.link fuel
      { m_selector := selector, m_openMode := FileOpenMode.Read } d4 buf maxLength
      = some ((data.length : Int), out, d5) := by
    unfold File.read
    rw [hlength]
    have hu : toU64 (data.length : Int) = data.length := toU64_natCast _ (by omega)
    have h2 : data.length % 4294967296 = data.length := Nat.mod_eq_of_lt hn32
    simp only [ModelDevice.link, Nat.reducePow] at hloopr
    have h3 : ¬ data = [] := by
      intro h; rw [h] at hn; simp at hn
    simp [hu, h2, ModelDevice.link, hloopr, h3, hlen]
  exact ⟨d1, d2, d3, d4, d5, out, ho1, hwrite, hdestroy, ho2, hlength, hread, htake, hdrop⟩

/-- Instance of C1 on the fresh device model: three bytes written to the empty
`UserData` file are read back into a four-byte buffer. -/
theorem C1_write_then_read_roundtrip_witness :
    ∃ (d4 d5 : ModelDevice) (out : List Nat),
      File.read ModelDevice.link 3
          { m_selector := FileSelector.UserData, m_openMode := FileOpenMode.Read } d4
          [0, 0, 0, 0] 4 = some (3, out, d5) ∧
      out.take 3 = [1, 2, 3] ∧ out.drop 3 = [0] := by
  obtain ⟨_, _, _, d4, d5, out, _, _, _, _, _, hr, ht, hd⟩ :=
    C1_write_then_read_roundtrip ModelDevice.fresh FileSelector.UserData [1, 2, 3] [0, 0, 0, 0]
      4 3 (by decide) rfl (by decide) (by decide) (by decide) (by decide) (by decide)
      (by decide) (by decide)
  exact ⟨d4, d5, out, hr, ht, hd⟩

/-! ## File store: the operation-execute register -/

theorem fileOperationValue_fields (operation : FileOperation) (selector : Nat)
    (open_mode : Option FileOpenMode) :
    fileOperationValue operation selector open_mode % 2 ^ 16 = operation.toNat ∧
    fileOperationValue operation selector open_mode / 2 ^ 16 % 2 ^ 16
      = (if operation = FileOperation.Open then (open_mode.map FileOpenMode.toNat).getD 0
         else 0) ∧
    fileOperationValue operation selector open_mode / 2 ^ 32 = selector % 2 ^ 32 ∧
    fileOperationValue operation selector open_mode < 2 ^ 64 := by
  have hsel := Nat.mod_lt selector (by decide : 0 < 2 ^ 32)
  rw [fileOperationValue_eq]
  generalize selector % 2 ^ 32 = x at hsel
  cases operation <;> cases open_mode
  case Open.some mode =>
    cases mode <;> (simp [FileOperation.toNat, FileOpenMode.toNat]; omega)
  all_goals (simp [FileOperation.toNat]; omega)

/-- C13: for every operation (Open = 0, Close = 1, Read = 2, Write = 3,
Delete = 4), selector and optional mode, `executeFileOperation` writes to the
8-byte register `0xD0003000` the image of the 64-bit value
`operation | (selector << 32)`, OR-ed with `mode << 16` exactly when the operation
is Open (a mode given with another operation is ignored).  The three fields lie in
disjoint bit ranges: bits 0 to 15 hold the operation, bits 16 to 31 the mode of an
Open and 0 otherwise, bits 32 to 63 the selector; Open of `UserData` in Write mode
gives `0x0000001100020000`.  An Open given no mode returns -1 and makes no
register access. -/
theorem C13_execute_operation_value {σ : Type} (gencp : RegisterLink σ) (s : σ)
    (operation : FileOperation) (selector : FileSelector) (open_mode : Option FileOpenMode)
    (res : Int) (s1 : σ)
    (hw : gencp.writeRegister s 0xD0003000
        (leBytes 8 (fileOperationValue operation selector open_mode)) = some (res, s1)) :
    (FileOperation.Open.toNat = 0 ∧ FileOperation.Close.toNat = 1 ∧
      FileOperation.Read.toNat = 2 ∧ FileOperation.Write.toNat = 3 ∧
      FileOperation.Delete.toNat = 4) ∧
    fileOperationValue operation selector open_mode
      = (if operation = FileOperation.Open then
          (operation.toNat ||| ((selector % 2 ^ 32) <<< 32))
            ||| ((open_mode.map FileOpenMode.toNat).getD 0 <<< 16)
         else operation.toNat ||| ((selector % 2 ^ 32) <<< 32)) ∧
    fileOperationValue operation selector open_mode % 2 ^ 16 = operation.toNat ∧
    fileOperationValue operation selector open_mode / 2 ^ 16 % 2 ^ 16
      = (if operation = FileOperation.Open then (open_mode.map FileOpenMode.toNat).getD 0
         else 0) ∧
    fileOperationValue operation selector open_mode / 2 ^ 32 = selector % 2 ^ 32 ∧
    (leBytes 8 (fileOperationValue operation selector open_mode)).length = 8 ∧
    leVal (leBytes 8 (fileOperationValue operation selector open_mode))
      = fileOperationValue operation selector open_mode ∧
    executeFileOperation gencp.logged (s, []) operation selector open_mode
      = (if operation = FileOperation.Open ∧ open_mode = none then some (-1, (s, []))
         else some (res, (s1, [RegisterEvent.wrote 0xD0003000
           (leBytes 8 (fileOperationValue operation selector open_mode)) res]))) ∧
    fileOperationValue FileOperation.Open FileSelector.UserData (some FileOpenMode.Write)
      = 0x0000001100020000 := by
  have hfields := fileOperationValue_fields operation selector open_mode
  refine ⟨⟨rfl, rfl, rfl, rfl, rfl⟩, ?_, hfields.1, hfields.2.1, hfields.2.2.1,
    leBytes_length _ _, ?_, ?_, by rfl⟩
  · unfold fileOperationValue
    cases operation <;> cases open_mode <;> simp
  · rw [leVal_leBytes, Nat.mod_eq_of_lt (by norm_num; exact hfields.2.2.2)]
  · unfold executeFileOperation
    by_cases h : operation = FileOperation.Open ∧ open_mode = none
    · simp [h]
    · have hw' : gencp.writeRegister s RegFileOperationExecuteAddr
          (leBytes RegFileOperationExecuteLength
            (fileOperationValue operation selector open_mode)) = some (res, s1) := hw
      simp only [h, if_false, RegisterLink.logged, hw']
      rfl

/-- Instance of C13 on the device model: Open of `UserData` in Write mode writes
the image of `0x0000001100020000`. -/
theorem C13_execute_operation_value_witness :
    (executeFileOperation ModelDevice.link.logged (ModelDevice.fresh, []) FileOperation.Open
        FileSelector.UserData (some FileOpenMode.Write)).map (fun out => (out.1, out.2.2))
      = some (0, [RegisterEvent.wrote 0xD0003000 [0, 0, 2, 0, 0x11, 0, 0, 0] 0]) := by
  have h := (C13_execute_operation_value ModelDevice.link ModelDevice.fresh FileOperation.Open
    FileSelector.UserData (some FileOpenMode.Write) 0 _ (by rfl)).2.2.2.2.2.2.2.1
  rw [h]
  rfl

/-! ## Register link: layout of the command packets -/

theorem writeRegister_loop_sent_shape {σ : Type} (pk : PaketLink σ) (L addr : Nat)
    (buffer : List Nat) :
    ∀ (fuel rem k r : Nat) (s : σ) (log : List PaketEvent) (res : Int) (k1 r1 : Nat) (s1 : σ)
      (log1 : List PaketEvent),
      AlviumGenCP.writeRegister.loop pk.logged L addr buffer fuel rem k r (s, log)
        = some (res, k1, r1, (s1, log1)) →
      ∃ pkts, sentPakets log1 = sentPakets log ++ pkts ∧
        ∀ p ∈ pkts, ∃ (a : Nat) (d : List Nat) (r' : Nat),
          a < 2 ^ 64 ∧ d.length ≤ L ∧ p = writeMemCmd a d r' := by
  intro fuel
  induction fuel with
  | zero =>
    intro rem k r s log res k1 r1 s1 log1 h
    unfold AlviumGenCP.writeRegister.loop at h
    split at h
    · simp at h
    · simp only [Option.some.injEq, Prod.mk.injEq] at h
      obtain ⟨_, _, _, _, rfl⟩ := h
      exact ⟨[], by simp, by simp⟩
  | succ fuel ih =>
    intro rem k r s log res k1 r1 s1 log1 h
    unfold AlviumGenCP.writeRegister.loop at h
    split at h
    · simp only [PaketLink.logged] at h
      have hshape : ∃ (a : Nat) (d : List Nat) (r' : Nat), a < 2 ^ 64 ∧ d.length ≤ L ∧
          writeMemCmd ((addr + k * L % 2 ^ 64) % 2 ^ 64)
            ((buffer.drop (k * L % 2 ^ 64)).take (if rem > L then L else rem)) r
            = writeMemCmd a d r' := by
        refine ⟨_, _, _, Nat.mod_lt _ (by decide), ?_, rfl⟩
        rw [List.length_take]
        split <;> omega
      generalize writeMemCmd ((addr + k * L % 2 ^ 64) % 2 ^ 64)
        ((buffer.drop (k * L % 2 ^ 64)).take (if rem > L then L else rem)) r = cmd at h hshape
      cases hw : pk.writePaket s cmd with
      | none => simp [hw] at h
      | some v =>
        obtain ⟨res0, s0⟩ := v
        simp only [hw] at h
        have hone : ∀ (e : Int) (c m : Nat) (t : σ) (lg : List PaketEvent),
            sentPakets lg = sentPakets (log ++ [PaketEvent.sent cmd res0]) →
            some (e, c, m, (t, lg)) = some (res, k1, r1, (s1, log1)) →
            ∃ pkts, sentPakets log1 = sentPakets log ++ pkts ∧
              ∀ p ∈ pkts, ∃ (a : Nat) (d : List Nat) (r' : Nat),
                a < 2 ^ 64 ∧ d.length ≤ L ∧ p = writeMemCmd a d r' := by
          intro e c m t lg hlg h
          simp only [Option.some.injEq, Prod.mk.injEq] at h
          obtain ⟨_, _, _, _, rfl⟩ := h
          refine ⟨[cmd], by rw [hlg]; simp [sentPakets_append, sentPakets], ?_⟩
          intro p hp
          simp only [List.mem_singleton] at hp
          subst hp
          exact hshape
        split at h
        · exact hone _ _ _ _ _ rfl h
        · cases ha : AlviumGenCP.writeRegister.recvAck pk.logged (fuel + 1)
              (s0, log ++ [PaketEvent.sent cmd res0]) with
          | none =>
            simp only [PaketLink.logged] at ha
            simp [ha] at h
          | some v =>
            obtain ⟨res2, ack, s2, log2⟩ := v
            have hsent := recvAck_logged_sent pk _ _ _ _ _ _ _ ha
            simp only [PaketLink.logged] at ha
            simp only [ha] at h
            split at h
            · exact hone _ _ _ _ _ hsent h
            · split at h
              · exact hone _ _ _ _ _ hsent h
              · split at h
                · exact hone _ _ _ _ _ hsent h
                · split at h
                  · exact hone _ _ _ _ _ hsent h
                  · obtain ⟨pkts, hs, hall⟩ := ih _ _ _ _ _ _ _ _ _ _ h
                    refine ⟨cmd :: pkts, ?_, ?_⟩
                    · rw [hs, hsent]; simp [sentPakets_append, sentPakets]
                    · intro p hp
                      rcases List.mem_cons.mp hp with rfl | hp
                      · exact hshape
                      · exact hall p hp
    · simp only [Option.some.injEq, Prod.mk.injEq] at h
      obtain ⟨_, _, _, _, rfl⟩ := h
      exact ⟨[], by simp, by simp⟩

theorem readRegister_loop_sent_shape {σ : Type} (pk : PaketLink σ) (L addr ptr : Nat) :
    ∀ (fuel rem k : Nat) (mem : List Nat) (s : σ) (log : List PaketEvent) (res : Int) (k1 : Nat)
      (mem1 : List Nat) (s1 : σ) (log1 : List PaketEvent),
      AlviumGenCP.readRegister.loop pk.logged L addr ptr fuel rem k mem (s, log)
        = some (res, k1, mem1, (s1, log1)) →
      ∃ pkts, sentPakets log1 = sentPakets log ++ pkts ∧
        ∀ p ∈ pkts, ∃ (a : Nat) (len : Nat), a < 2 ^ 64 ∧ len ≤ L ∧ p = readMemCmd a len := by
  intro fuel
  induction fuel with
  | zero =>
    intro rem k mem s log res k1 mem1 s1 log1 h
    unfold AlviumGenCP.readRegister.loop at h
    split at h
    · simp at h
    · simp only [Option.some.injEq, Prod.mk.injEq] at h
      obtain ⟨_, _, _, _, rfl⟩ := h
      exact ⟨[], by simp, by simp⟩
  | succ fuel ih =>
    intro rem k mem s log res k1 mem1 s1 log1 h
    unfold AlviumGenCP.readRegister.loop at h
    split at h
    · simp only [PaketLink.logged] at h
      have hshape : ∃ (a : Nat) (len : Nat), a < 2 ^ 64 ∧ len ≤ L ∧
          readMemCmd ((addr + k * L % 2 ^ 64) % 2 ^ 64) (if rem > L then L else rem)
            = readMemCmd a len := by
        refine ⟨_, _, Nat.mod_lt _ (by decide), ?_, rfl⟩
        split <;> omega
      generalize readMemCmd ((addr + k * L % 2 ^ 64) % 2 ^ 64) (if rem > L then L else rem)
        = cmd at h hshape
      cases hw : pk.writePaket s cmd with
      | none => simp [hw] at h
      | some v =>
        obtain ⟨res0, s0⟩ := v
        simp only [hw] at h
        have hone : ∀ (e : Int) (c : Nat) (m : List Nat) (t : σ) (lg : List PaketEvent),
            sentPakets lg = sentPakets (log ++ [PaketEvent.sent cmd res0]) →
            some (e, c, m, (t, lg)) = some (res, k1, mem1, (s1, log1)) →
            ∃ pkts, sentPakets log1 = sentPakets log ++ pkts ∧
              ∀ p ∈ pkts, ∃ (a : Nat) (len : Nat),
                a < 2 ^ 64 ∧ len ≤ L ∧ p = readMemCmd a len := by
          intro e c m t lg hlg h
          simp only [Option.some.injEq, Prod.mk.injEq] at h
          obtain ⟨_, _, _, _, rfl⟩ := h
          refine ⟨[cmd], by rw [hlg]; simp [sentPakets_append, sentPakets], ?_⟩
          intro p hp
          simp only [List.mem_singleton] at hp
          subst hp
          exact hshape
        split at h
        · exact hone _ _ _ _ _ rfl h
        · generalize hr : pk.readPaket s0 _ _ = rd at h
          cases rd with
          | none => simp at h
          | some v =>
            obtain ⟨res2, ack, s2⟩ := v
            simp only at h
            have hlg : ∀ (x : PaketEvent), (∀ q r, x ≠ PaketEvent.sent q r) →
                sentPakets (log ++ [PaketEvent.sent cmd res0] ++ [x])
                  = sentPakets (log ++ [PaketEvent.sent cmd res0]) := by
              intro x hx
              rw [sentPakets_append (log ++ [PaketEvent.sent cmd res0])]
              cases x with
              | sent q r => exact absurd rfl (hx q r)
              | received _ _ _ => simp [sentPakets]
              | slept _ => simp [sentPakets]
            split at h
            · exact hone _ _ _ _ _ (hlg _ (by intro q r hq; cases hq)) h
            · split at h
              · exact hone _ _ _ _ _ (hlg _ (by intro q r hq; cases hq)) h
              · split at h
                · exact hone _ _ _ _ _ (hlg _ (by intro q r hq; cases hq)) h
                · obtain ⟨pkts, hs, hall⟩ := ih _ _ _ _ _ _ _ _ _ _ h
                  refine ⟨cmd :: pkts, ?_, ?_⟩
                  · rw [hs, hlg _ (by intro q r hq; cases hq)]
                    simp [sentPakets_append, sentPakets]
                  · intro p hp
                    rcases List.mem_cons.mp hp with rfl | hp
                    · exact hshape
                    · exact hall p hp
    · simp only [Option.some.injEq, Prod.mk.injEq] at h
      obtain ⟨_, _, _, _, rfl⟩ := h
      exact ⟨[], by simp, by simp⟩

theorem leBytes_eq_map (n v : Nat) :
    leBytes n v = (List.range n).map (fun i => v / 256 ^ i % 256) := by
  induction n generalizing v with
  | zero => rfl
  | succ n ih =>
    rw [leBytes, List.range_succ_eq_map, List.map_cons, List.map_map, ih]
    congr 1
    · simp
    · apply List.map_congr_left
      intro i _
      simp only [Function.comp, Nat.succ_eq_add_one, pow_succ]
      rw [Nat.div_div_eq_div_mul, Nat.mul_comm]

theorem calcCRC_split (p : List Nat) :
    GenCPPaket.calcCRC p
      = p.take 2 ++ leBytes 4 (JAMCRC ((p.drop 6).take (2 + 8 + GenCPPaket.length p)))
        ++ p.drop 6 := by
  unfold GenCPPaket.calcCRC writeAt
  rw [leBytes_length]

theorem calcCRC_take_two (p : List Nat) (h : 2 ≤ p.length) :
    (GenCPPaket.calcCRC p).take 2 = p.take 2 := by
  rw [calcCRC_split, List.append_assoc,
    List.take_append_of_le_length (by rw [List.length_take]; omega), List.take_take]
  simp

theorem writeMemCmd_layout (a : Nat) (d : List Nat) (r : Nat) :
    (writeMemCmd a d r).take 2 = [0x00, 0x01] ∧
    ((writeMemCmd a d r).drop 6).take 2 = [0x00, 0x00] ∧
    (writeMemCmd a d r).drop 8
      = [0x00, 0x40] ++ [0x02, 0x08] ++ leBytes 2 (8 + d.length) ++ leBytes 2 r ++ leBytes 8 a
        ++ d := by
  unfold writeMemCmd
  rw [calcCRC_take_two _ (by rw [GenCPPaket_length]; omega),
    calcCRC_drop _ (by rw [GenCPPaket_length]; omega) 6 (le_refl _),
    calcCRC_drop _ (by rw [GenCPPaket_length]; omega) 8 (by omega)]
  refine ⟨?_, ?_, ?_⟩ <;> simp [GenCPPaket, leBytes]

theorem readMemCmd_layout (a len : Nat) :
    (readMemCmd a len).take 2 = [0x00, 0x01] ∧
    ((readMemCmd a len).drop 6).take 2 = [0x00, 0x00] ∧
    (readMemCmd a len).drop 8
      = [0x00, 0x40] ++ [0x00, 0x08] ++ [0x0C, 0x00] ++ [0x00, 0x00] ++ leBytes 8 a
        ++ [0x00, 0x00] ++ leBytes 2 len := by
  unfold readMemCmd
  rw [calcCRC_take_two _ (by rw [GenCPPaket_length]; omega),
    calcCRC_drop _ (by rw [GenCPPaket_length]; omega) 6 (le_refl _),
    calcCRC_drop _ (by rw [GenCPPaket_length]; omega) 8 (by omega)]
  refine ⟨?_, ?_, ?_⟩ <;> simp [GenCPPaket, leBytes]

/-- C11 (counterexample): the WriteMem command that `writeRegister` hands to the
send handshake for address `0x1122334455667788` has the bytes `0x00, 0x40` at
offsets 8 to 9 and `0x02, 0x08` at offsets 10 to 11, not `0x40, 0x00` and
`0x08, 0x02`, and the register address least significant byte first at offsets 16
to 23. -/
theorem C11_fields_not_big_endian :
    (AlviumGenCP.writeRegister (ackingLink 1024).logged 1 (1, ([], [])) 0x1122334455667788
        [0xAA]).map
      (fun out => (sentPakets out.2.2.2).map (fun p => ((p.drop 8).take 4, (p.drop 16).take 8)))
      = some [([0x00, 0x40, 0x02, 0x08], [0x88, 0x77, 0x66, 0x55, 0x44, 0x33, 0x22, 0x11])] ∧
    ([0x00, 0x40, 0x02, 0x08] : List Nat) ≠ [0x40, 0x00, 0x08, 0x02] ∧
    ([0x88, 0x77, 0x66, 0x55, 0x44, 0x33, 0x22, 0x11] : List Nat)
      ≠ [0x11, 0x22, 0x33, 0x44, 0x55, 0x66, 0x77, 0x88] := by
  refine ⟨by rfl, by decide, by decide⟩

/-! ## Register link: length field and checksum of the command packets -/

theorem crcBit_lt (c : Nat) (h : c < 2 ^ 32) : crcBit c < 2 ^ 32 := by
  unfold crcBit
  split
  · exact Nat.xor_lt_two_pow (by omega) (by decide)
  · omega

theorem crcByte_lt (c b : Nat) (h : c < 2 ^ 32) : crcByte c b < 2 ^ 32 := by
  unfold crcByte
  have h0 : c ^^^ (b % 256) < 2 ^ 32 :=
    Nat.xor_lt_two_pow h (lt_trans (Nat.mod_lt _ (by decide)) (by decide))
  generalize c ^^^ (b % 256) = x at h0
  have hit : ∀ (n : Nat) (y : Nat), y < 2 ^ 32 → crcBit^[n] y < 2 ^ 32 := by
    intro n
    induction n with
    | zero => intro y hy; exact hy
    | succ n ih => intro y hy; rw [Function.iterate_succ_apply]; exact ih _ (crcBit_lt y hy)
  exact hit 8 x h0

theorem JAMCRC_lt (bytes : List Nat) : JAMCRC bytes < 2 ^ 32 := by
  unfold JAMCRC
  have hfold : ∀ (l : List Nat) (c : Nat), c < 2 ^ 32 → l.foldl crcByte c < 2 ^ 32 := by
    intro l
    induction l with
    | nil => intro c hc; exact hc
    | cons b bs ih => intro c hc; exact ih _ (crcByte_lt c b hc)
  exact hfold bytes _ (by decide)

theorem crc_calcCRC (p : List Nat) (h : 6 ≤ p.length) :
    GenCPPaket.crc (GenCPPaket.calcCRC p)
      = JAMCRC ((p.drop 6).take (2 + 8 + GenCPPaket.length p)) := by
  rw [calcCRC_split]
  unfold GenCPPaket.crc field
  rw [List.append_assoc, List.drop_left' (by rw [List.length_take]; omega),
    List.take_left' (leBytes_length _ _), leVal_leBytes]
  exact Nat.mod_eq_of_lt (by have := JAMCRC_lt ((p.drop 6).take (2 + 8 + GenCPPaket.length p));
                             norm_num at this ⊢; exact this)

theorem length_field_writeMemCmd (a : Nat) (d : List Nat) (r : Nat) :
    GenCPPaket.length (writeMemCmd a d r) = (8 + d.length) % 65536 := by
  unfold writeMemCmd GenCPPaket.length
  rw [field_calcCRC _ (by rw [GenCPPaket_length]; omega) _ _ (by omega)]
  simp [GenCPPaket, field, leBytes, leVal]
  omega

theorem length_field_readMemCmd (a len : Nat) :
    GenCPPaket.length (readMemCmd a len) = 12 := by
  unfold readMemCmd GenCPPaket.length
  rw [field_calcCRC _ (by rw [GenCPPaket_length]; omega) _ _ (by omega)]
  simp [GenCPPaket, field, leBytes, leVal]

theorem crc_writeMemCmd (a : Nat) (d : List Nat) (r : Nat) :
    GenCPPaket.crc (writeMemCmd a d r)
      = JAMCRC (((writeMemCmd a d r).drop 6).take (2 + 8 + (8 + d.length) % 65536)) := by
  have hl := length_field_writeMemCmd a d r
  unfold writeMemCmd at hl ⊢
  have h6 : 6 ≤ (GenCPPaket 0 (1 <<< 14) 0x0802 (8 + d.length) r (leBytes 8 a ++ d)).length := by
    rw [GenCPPaket_length]; omega
  rw [crc_calcCRC _ h6, calcCRC_drop _ h6 6 (le_refl _)]
  unfold GenCPPaket.length at hl ⊢
  rw [field_calcCRC _ h6 _ _ (by omega)] at hl
  rw [hl]

theorem crc_readMemCmd (a len : Nat) :
    GenCPPaket.crc (readMemCmd a len) = JAMCRC ((readMemCmd a len).drop 6) := by
  have hl := length_field_readMemCmd a len
  have hlen := readMemCmd_length a len
  unfold readMemCmd at hl hlen ⊢
  have h6 : 6 ≤ (GenCPPaket 0 (1 <<< 14) 0x0800 12 0
      (leBytes 8 a ++ leBytes 2 0 ++ leBytes 2 len)).length := by
    rw [GenCPPaket_length]; omega
  rw [crc_calcCRC _ h6, calcCRC_drop _ h6 6 (le_refl _)]
  unfold GenCPPaket.length at hl ⊢
  rw [field_calcCRC _ h6 _ _ (by omega)] at hl
  rw [hl, List.take_of_length_le]
  rw [calcCRC_length _ h6] at hlen
  rw [List.length_drop, hlen]

/-- Length field, packet size and checksum span of the command packets while the
payload fits the 16-bit length field: for a WriteMem command of `k` payload bytes
with `8 + k < 65536` the length field is `8 + k`, the packet has `16 + length`
bytes and the checksum is `JAMCRC` of every byte from `channel_id` to the last
payload byte; a ReadMem command has length 12, 28 bytes, and the same span. -/
theorem command_length_and_crc (a : Nat) (d : List Nat) (r len : Nat)
    (h : 8 + d.length < 65536) :
    GenCPPaket.length (writeMemCmd a d r) = 8 + d.length ∧
    (writeMemCmd a d r).length = 16 + GenCPPaket.length (writeMemCmd a d r) ∧
    GenCPPaket.crc (writeMemCmd a d r) = JAMCRC ((writeMemCmd a d r).drop 6) ∧
    GenCPPaket.length (readMemCmd a len) = 12 ∧
    (readMemCmd a len).length = 16 + GenCPPaket.length (readMemCmd a len) ∧
    GenCPPaket.crc (readMemCmd a len) = JAMCRC ((readMemCmd a len).drop 6) := by
  have hl : GenCPPaket.length (writeMemCmd a d r) = 8 + d.length := by
    rw [length_field_writeMemCmd, Nat.mod_eq_of_lt h]
  refine ⟨hl, ?_, ?_, length_field_readMemCmd a len, ?_, crc_readMemCmd a len⟩
  · rw [hl, writeMemCmd_length]; omega
  · rw [crc_writeMemCmd, Nat.mod_eq_of_lt h, List.take_of_length_le]
    rw [List.length_drop, writeMemCmd_length]; omega
  · rw [length_field_readMemCmd, readMemCmd_length]

theorem writeRegister_truncated_length (buffer : List Nat) (hlen : buffer.length = 70000) :
    AlviumGenCP.maxWritePacketPayloadSize (ackingLink 10) [] = 2 ^ 64 - 14 ∧
    ∃ (s1 : List Nat) (log1 : List PaketEvent),
      AlviumGenCP.writeRegister (ackingLink 10).logged 1 (1, ([], [])) 0 buffer
        = some (0, 2, (s1, log1)) ∧
      sentPakets log1 = [writeMemCmd 0 buffer 1] ∧
      (writeMemCmd 0 buffer 1).length = 70024 ∧
      GenCPPaket.length (writeMemCmd 0 buffer 1) = 4472 ∧
      (writeMemCmd 0 buffer 1).length
        ≠ 16 + GenCPPaket.length (writeMemCmd 0 buffer 1) ∧
      ((writeMemCmd 0 buffer 1).drop 6).length = 70018 ∧
      GenCPPaket.crc (writeMemCmd 0 buffer 1)
        = JAMCRC (((writeMemCmd 0 buffer 1).drop 6).take 4482) := by
  refine ⟨by decide, ?_⟩
  obtain ⟨s1, log1, hloop, hsent⟩ :=
    writeRegister_loop_acked (ackingLink 10) (2 ^ 64 - 14) 0 buffer
      (by decide) (ackingLink_acksEveryWrite 10)
      (by rw [hlen]; decide) 1 70000 0 1 [] []
      (by decide) (by decide) (by rw [hlen]; decide)
  have hc : chunkCount 70000 (2 ^ 64 - 14) = 1 := by decide
  rw [hc] at hloop hsent
  have hfield : GenCPPaket.length (writeMemCmd 0 buffer 1) = 4472 := by
    rw [length_field_writeMemCmd, hlen]
  have hsize : (writeMemCmd 0 buffer 1).length = 70024 := by
    rw [writeMemCmd_length, hlen]
  refine ⟨s1, log1, ?_, ?_, hsize, hfield, ?_, ?_, ?_⟩
  · unfold AlviumGenCP.writeRegister
    have hL : AlviumGenCP.maxWritePacketPayloadSize (ackingLink 10).logged
        (([] : List Nat), ([] : List PaketEvent)) = 2 ^ 64 - 14 := by decide
    simp only [hL, hlen, hloop]
    rfl
  · rw [hsent]
    have hr : List.range 1 = [0] := rfl
    have ht : buffer.take (2 ^ 64 - 14) = buffer :=
      List.take_of_length_le (by rw [hlen]; decide)
    simp only [sentPakets, List.nil_append, hr, List.map_cons, List.map_nil, Nat.zero_add,
      Nat.zero_mul, List.drop_zero, Function.iterate_zero, id_eq, Nat.zero_mod, ht]
  · rw [hsize, hfield]; decide
  · rw [List.length_drop, hsize]
  · rw [crc_writeMemCmd, hlen]

/-- C12 (evaluation of the code at the failing input): with the payload limit
`2^64 - 14` that a transfer file of 18 bytes gives, `writeRegister` of 70000 bytes
on an acknowledging device hands a single WriteMem packet of 70024 bytes to the
send handshake; its 16-bit length field holds `70008 mod 65536 = 4472`, so the
packet is not `16 + length` bytes long, and the checksum covers only the first
4482 of the 70018 bytes that follow the checksum field. -/
theorem C12_length_field_truncated :
    AlviumGenCP.maxWritePacketPayloadSize (ackingLink 10) [] = 2 ^ 64 - 14 ∧
    ∃ (s1 : List Nat) (log1 : List PaketEvent),
      AlviumGenCP.writeRegister (ackingLink 10).logged 1 (1, ([], [])) 0 (List.replicate 70000 0)
        = some (0, 2, (s1, log1)) ∧
      sentPakets log1 = [writeMemCmd 0 (List.replicate 70000 0) 1] ∧
      (writeMemCmd 0 (List.replicate 70000 0) 1).length = 70024 ∧
      GenCPPaket.length (writeMemCmd 0 (List.replicate 70000 0) 1) = 4472 ∧
      (writeMemCmd 0 (List.replicate 70000 0) 1).length
        ≠ 16 + GenCPPaket.length (writeMemCmd 0 (List.replicate 70000 0) 1) ∧
      ((writeMemCmd 0 (List.replicate 70000 0) 1).drop 6).length = 70018 ∧
      GenCPPaket.crc (writeMemCmd 0 (List.replicate 70000 0) 1)
        = JAMCRC (((writeMemCmd 0 (List.replicate 70000 0) 1).drop 6).take 4482) :=
  writeRegister_truncated_length (List.replicate 70000 0) (List.length_replicate _ _)
/-! ## Register link: pending acknowledgments -/

theorem sleptMs_append (l1 l2 : List PaketEvent) :
    sleptMs (l1 ++ l2) = sleptMs l1 ++ sleptMs l2 := by
  induction l1 with
  | nil => rfl
  | cons e l ih => cases e <;> simp [sleptMs, ih]

theorem sentPakets_pendingEvents (pend : List (Int × List Nat)) :
    sentPakets (pendingEvents pend) = [] := by
  induction pend with
  | nil => rfl
  | cons p rest ih => obtain ⟨res, p⟩ := p; simpa [pendingEvents, sentPakets] using ih

theorem receivedPakets_pendingEvents (pend : List (Int × List Nat)) :
    receivedPakets (pendingEvents pend) = pend.map Prod.snd := by
  induction pend with
  | nil => rfl
  | cons p rest ih => obtain ⟨res, p⟩ := p; simpa [pendingEvents, receivedPakets] using ih

theorem sleptMs_pendingEvents (pend : List (Int × List Nat)) :
    sleptMs (pendingEvents pend) = pend.map (fun p => GenCPPendingAck.timeout p.2) := by
  induction pend with
  | nil => rfl
  | cons p rest ih => obtain ⟨res, p⟩ := p; simpa [pendingEvents, sleptMs] using ih

theorem recvAck_logged_pending {σ : Type} (pk : PaketLink σ) (resA : Int) (ack : List Nat)
    (sp s1 : σ)
    (hack : pk.readPaket sp (List.replicate sizeof_WriteMemAckPaket 0) sizeof_WriteMemAckPaket
      = some (resA, ack, s1))
    (hresA : ¬ resA < 0) (hcmd : GenCPPaket.command_id ack ≠ 0x0805) :
    ∀ (pend : List (Int × List Nat)) (fuel : Nat) (s0 : σ) (log : List PaketEvent),
      AnswersPending pk pend s0 sp → pend.length < fuel →
      AlviumGenCP.writeRegister.recvAck pk.logged fuel (s0, log)
        = some (resA, ack, (s1, log ++ pendingEvents pend ++
            [PaketEvent.received sizeof_WriteMemAckPaket resA ack])) := by
  intro pend
  induction pend with
  | nil =>
    intro fuel s0 log hp hf
    obtain ⟨fuel, rfl⟩ : ∃ n, fuel = n + 1 := ⟨fuel - 1, by simp at hf; omega⟩
    simp only [AnswersPending] at hp
    subst hp
    unfold AlviumGenCP.writeRegister.recvAck
    simp [PaketLink.logged, hack, hresA, hcmd, pendingEvents]
  | cons p rest ih =>
    intro fuel s0 log hp hf
    obtain ⟨res, p⟩ := p
    obtain ⟨fuel, rfl⟩ : ∃ n, fuel = n + 1 := ⟨fuel - 1, by simp at hf; omega⟩
    obtain ⟨s0', hrd, hres, hc, hrest⟩ := hp
    have hgo := ih fuel (pk.sleep s0' (GenCPPendingAck.timeout p))
      (log ++ [PaketEvent.received sizeof_WriteMemAckPaket res p] ++
        [PaketEvent.slept (GenCPPendingAck.timeout p)]) hrest
      (by simp at hf; omega)
    unfold AlviumGenCP.writeRegister.recvAck
    simp only [PaketLink.logged, hrd, hres, if_false, hc, if_true]
    simp only [PaketLink.logged] at hgo
    rw [hgo]
    simp [pendingEvents]

/-- C14: for every list of `k` pending acknowledgments and every chunk of
`writeRegister`: when the send handshake of the chunk's command succeeds, the
device answers the receive handshakes with the `k` pending acknowledgments
(command id `0x0805`, timeouts `t_1..t_k`) and then with a WriteMem
acknowledgment of status 0 that echoes the request id, the iteration of the loop
makes exactly these calls, in this order: one send of the command packet, then
for each pending acknowledgment a receive handshake followed by a sleep of its
timeout, then one more receive handshake (`k + 1` in all); the loop goes on with
the next chunk and the request id advanced once, and returns 0 with that request
id when the chunk was the last one. -/
theorem C14_pending_then_ack {σ : Type} (pk : PaketLink σ) (L addr : Nat) (buffer : List Nat)
    (fuel rem k r : Nat) (s s0 sp s1 : σ) (log : List PaketEvent) (res0 resA : Int)
    (pend : List (Int × List Nat)) (ack : List Nat)
    (hrem : 0 < rem) (hfuel : pend.length ≤ fuel)
    (hsend : pk.writePaket s
      (writeMemCmd ((addr + k * L % 2 ^ 64) % 2 ^ 64)
        ((buffer.drop (k * L % 2 ^ 64)).take (if rem > L then L else rem)) r) = some (res0, s0))
    (hres0 : ¬ res0 < 0)
    (hpend : AnswersPending pk pend s0 sp)
    (hack : pk.readPaket sp (List.replicate sizeof_WriteMemAckPaket 0) sizeof_WriteMemAckPaket
      = some (resA, ack, s1))
    (hresA : ¬ resA < 0)
    (hcmd : GenCPPaket.command_id ack = 0x0803)
    (hst : GenCPPaket.status_code ack = 0)
    (hid : GenCPPaket.request_id ack = r) :
    ∃ (calls : List PaketEvent),
      calls = [PaketEvent.sent
          (writeMemCmd ((addr + k * L % 2 ^ 64) % 2 ^ 64)
            ((buffer.drop (k * L % 2 ^ 64)).take (if rem > L then L else rem)) r) res0]
        ++ pendingEvents pend ++ [PaketEvent.received sizeof_WriteMemAckPaket resA ack] ∧
      AlviumGenCP.writeRegister.loop pk.logged L addr buffer (fuel + 1) rem k r (s, log)
        = AlviumGenCP.writeRegister.loop pk.logged L addr buffer fuel
            (rem - (if rem > L then L else rem)) (k + 1) (AlviumGenCP.nextRequestId r)
            (s1, log ++ calls) ∧
      (rem ≤ L →
        AlviumGenCP.writeRegister.loop pk.logged L addr buffer (fuel + 1) rem k r (s, log)
          = some (0, k + 1, AlviumGenCP.nextRequestId r, (s1, log ++ calls))) ∧
      sentPakets calls = [writeMemCmd ((addr + k * L % 2 ^ 64) % 2 ^ 64)
        ((buffer.drop (k * L % 2 ^ 64)).take (if rem > L then L else rem)) r] ∧
      receivedPakets calls = pend.map Prod.snd ++ [ack] ∧
      (receivedPakets calls).length = pend.length + 1 ∧
      sleptMs calls = pend.map (fun p => GenCPPendingAck.timeout p.2) := by
  have hne : GenCPPaket.command_id ack ≠ 0x0805 := by rw [hcmd]; decide
  have hrecv := recvAck_logged_pending pk resA ack sp s1 hack hresA hne pend (fuel + 1) s0
    (log ++ [PaketEvent.sent
      (writeMemCmd ((addr + k * L % 2 ^ 64) % 2 ^ 64)
        ((buffer.drop (k * L % 2 ^ 64)).take (if rem > L then L else rem)) r) res0])
    hpend (by omega)
  have hstep : AlviumGenCP.writeRegister.loop pk.logged L addr buffer (fuel + 1) rem k r (s, log)
      = AlviumGenCP.writeRegister.loop pk.logged L addr buffer fuel
          (rem - (if rem > L then L else rem)) (k + 1) (AlviumGenCP.nextRequestId r)
          (s1, log ++ ([PaketEvent.sent
            (writeMemCmd ((addr + k * L % 2 ^ 64) % 2 ^ 64)
              ((buffer.drop (k * L % 2 ^ 64)).take (if rem > L then L else rem)) r) res0]
            ++ pendingEvents pend ++ [PaketEvent.received sizeof_WriteMemAckPaket resA ack])) := by
    conv_lhs => unfold AlviumGenCP.writeRegister.loop
    simp only [hrem, if_true]
    simp only [PaketLink.logged, hsend, hres0, if_false]
    simp only [PaketLink.logged] at hrecv
    simp only [hrecv, hresA, if_false, hcmd, hst, hid, ne_eq, not_true_eq_false,
      List.append_assoc]
  refine ⟨_, rfl, hstep, ?_, ?_, ?_, ?_, ?_⟩
  · intro hle
    rw [hstep]
    have h0 : rem - (if rem > L then L else rem) = 0 := by
      rw [if_neg (by omega)]; omega
    rw [h0]
    cases fuel <;> simp [AlviumGenCP.writeRegister.loop]
  · simp [sentPakets_append, sentPakets, sentPakets_pendingEvents]
  · simp [receivedPakets_append, receivedPakets, receivedPakets_pendingEvents]
  · simp [receivedPakets_append, receivedPakets, receivedPakets_pendingEvents]
  · simp [sleptMs_append, sleptMs, sleptMs_pendingEvents]

theorem C14_pending_then_ack_witness :
    AlviumGenCP.writeRegister.loop (queuedLink 1024).logged 1000 0 [0xAA] 3 1 0 1
        ([pendingAck 1 30, pendingAck 1 70, GenCPPaket 0 0 0x0803 4 1 [0, 0, 0, 0]], [])
      = some (0, 1, 2, ([],
          [PaketEvent.sent (writeMemCmd 0 [0xAA] 1) 0,
            PaketEvent.received 20 0 (pendingAck 1 30), PaketEvent.slept 30,
            PaketEvent.received 20 0 (pendingAck 1 70), PaketEvent.slept 70,
            PaketEvent.received 20 0 (GenCPPaket 0 0 0x0803 4 1 [0, 0, 0, 0])])) := by
  obtain ⟨calls, hcalls, _, hlast, _⟩ :=
    C14_pending_then_ack (queuedLink 1024) 1000 0 [0xAA] 2 1 0 1
      [pendingAck 1 30, pendingAck 1 70, GenCPPaket 0 0 0x0803 4 1 [0, 0, 0, 0]]
      [pendingAck 1 30, pendingAck 1 70, GenCPPaket 0 0 0x0803 4 1 [0, 0, 0, 0]]
      [GenCPPaket 0 0 0x0803 4 1 [0, 0, 0, 0]] [] [] 0 0
      [(0, pendingAck 1 30), (0, pendingAck 1 70)] (GenCPPaket 0 0 0x0803 4 1 [0, 0, 0, 0])
      (by decide) (by decide) (by rfl) (by decide)
      ⟨_, by rfl, by decide, by rfl, _, by rfl, by decide, by rfl, rfl⟩
      (by rfl) (by decide) (by rfl) (by rfl) (by rfl)
  rw [hlast (by decide), hcalls]
  rfl
/-! ## Receive handshake: the poll after the response was taken -/

theorem waitConsumed_of_flagSequence {σ : Type} (g : AlviumGenCP) (ch : Channel σ) (sp s5 : σ)
    (hlast : ReadsFlag g ch sp 2 s5) :
    ∀ (vs : List Nat) (fuel tmp8 : Nat) (s4 : σ),
      FlagSequence g ch vs s4 sp → (∀ v ∈ vs, v ≠ 2) →
      (vs.length < fuel → AlviumGenCP.readPaket.waitConsumed g ch fuel tmp8 s4 = some (0, 2, s5)) ∧
      (fuel ≤ vs.length → AlviumGenCP.readPaket.waitConsumed g ch fuel tmp8 s4 = none) := by
  intro vs
  induction vs with
  | nil =>
    intro fuel tmp8 s4 hseq _
    simp only [FlagSequence] at hseq
    subst hseq
    constructor
    · intro hf
      obtain ⟨fuel, rfl⟩ : ∃ n, fuel = n + 1 := ⟨fuel - 1, by simp at hf; omega⟩
      unfold AlviumGenCP.readPaket.waitConsumed
      simp [hlast.2 tmp8, field, leVal]
    · intro hf
      have : fuel = 0 := by simpa using hf
      subst this
      rfl
  | cons v rest ih =>
    intro fuel tmp8 s4 hseq hne
    obtain ⟨s0, ⟨hv, hrd⟩, hrest⟩ := hseq
    have hv2 : v ≠ 2 := hne v (List.mem_cons_self _ _)
    have hfield : field [v] 0 1 = v := by simp [field, leVal, Nat.mod_eq_of_lt hv]
    cases fuel with
    | zero =>
      exact ⟨fun hf => absurd hf (by simp), fun _ => rfl⟩
    | succ fuel =>
      obtain ⟨h1, h2⟩ := ih fuel v (ch.sleep s0 50) hrest
        (fun w hw => hne w (List.mem_cons_of_mem _ hw))
      constructor
      · intro hf
        unfold AlviumGenCP.readPaket.waitConsumed
        simp only [hrd tmp8, hfield, ne_eq, hv2, not_false_eq_true, if_true]
        exact h1 (by simp at hf; omega)
      · intro hf
        unfold AlviumGenCP.readPaket.waitConsumed
        simp only [hrd tmp8, hfield, ne_eq, hv2, not_false_eq_true, if_true]
        exact h2 (by simp at hf; omega)

/-- C15 (the claim fails as stated): on a transfer channel whose response flag
reads 2, the value the link has just written, at the only poll that follows that
write, and which never reads 0, `readPaket` writes the final 0 and returns 0 with
the response: the system calls after the response was read are the write of 2,
one poll, and the write of 0. -/
theorem C15_completes_when_flag_reads_consumed :
    AlviumGenCP.readPaket sampleGenCP (scriptedChannel 1032) 1
        { script := receiveScript [2], calls := [] } [0, 0, 0, 0] 4
      = some (0, [9, 9, 9, 9],
          { script := [],
            calls := [Syscall.pwrite [28, 1, 1, 0, 1, 0, 0, 0], Syscall.pread 1,
              Syscall.pwrite [36, 1, 2, 0, 1, 0, 0, 0], Syscall.pread 2,
              Syscall.pwrite [0, 2, 4, 0, 1, 0, 0, 0], Syscall.pread 4,
              Syscall.pwrite [28, 1, 1, 0, 0, 0, 0, 0, 2],
              Syscall.pwrite [28, 1, 1, 0, 1, 0, 0, 0], Syscall.pread 1,
              Syscall.pwrite [28, 1, 1, 0, 0, 0, 0, 0, 0]] }) := by
  rfl

/-- C15 (amended): in `readPaket`, once the response was read and the write of 2
to the response flag succeeded, the link polls the flag, sleeping 50 ms after
each successful poll that reads a value other than 2 (0 included), until a poll
reads 2, the value the link wrote; it then writes 0 to the flag and, when that
write reports no error, returns 0 with the response.  With fewer polls than the
flag takes to read 2 the loop has not returned. -/
theorem C15_polls_until_flag_reads_consumed {σ : Type} (g : AlviumGenCP) (ch : Channel σ)
    (fuel : Nat) (s s1 s2 s3 s4 sp s5 s6 : σ) (paket paket1 buf16 : List Nat) (length t1 : Nat)
    (res1 res2 res3 res4 res6 : Int) (vs : List Nat)
    (hready : AlviumGenCP.readPaket.waitReady g ch fuel 255 s = some (res1, t1, s1))
    (hres1 : ¬ res1 < 0)
    (hlen : AlviumGenCP.readRaw ch s1 ((g.m_addr0 + 0x24) % 65536) [0, 0] 2 = (res2, buf16, s2))
    (hres2 : ¬ res2 < 0) (hfits : ¬ be16toh buf16 > length)
    (hdata : AlviumGenCP.readRaw ch s2 (g.m_addr1 % 65536) paket (be16toh buf16)
      = (res3, paket1, s3))
    (hres3 : ¬ res3 < 0)
    (hconsumed : AlviumGenCP.writeRaw ch s3 ((g.m_addr0 + 0x1C) % 65536) [2] = (res4, s4))
    (hres4 : ¬ res4 < 0)
    (hpolls : FlagSequence g ch vs s4 sp) (hne : ∀ v ∈ vs, v ≠ 2)
    (hlast : ReadsFlag g ch sp 2 s5)
    (hclear : AlviumGenCP.writeRaw ch s5 ((g.m_addr0 + 0x1C) % 65536) [0] = (res6, s6))
    (hres6 : ¬ res6 < 0)
    (hfuel : vs.length < fuel) :
    AlviumGenCP.readPaket g ch fuel s paket length = some (0, paket1, s6) ∧
    AlviumGenCP.readPaket.waitConsumed g ch fuel 2 s4 = some (0, 2, s5) ∧
    ∀ (n : Nat), n ≤ vs.length → AlviumGenCP.readPaket.waitConsumed g ch n 2 s4 = none := by
  have hw := waitConsumed_of_flagSequence g ch sp s5 hlast vs
  refine ⟨?_, (hw fuel 2 s4 hpolls hne).1 hfuel, fun n hn => (hw n 2 s4 hpolls hne).2 hn⟩
  unfold AlviumGenCP.readPaket
  simp only [hready, hres1, if_false, hlen, hres2, hfits, hdata, hres3, hconsumed, hres4,
    (hw fuel 2 s4 hpolls hne).1 hfuel, hclear, hres6]

theorem C15_polls_until_flag_reads_consumed_witness :
    AlviumGenCP.readPaket sampleGenCP (scriptedChannel 1032) 3
        { script := receiveScript [0, 1, 2], calls := [] } [0, 0, 0, 0] 4
      = some (0, [9, 9, 9, 9],
          { script := [],
            calls := [Syscall.pwrite [28, 1, 1, 0, 1, 0, 0, 0], Syscall.pread 1,
              Syscall.pwrite [36, 1, 2, 0, 1, 0, 0, 0], Syscall.pread 2,
              Syscall.pwrite [0, 2, 4, 0, 1, 0, 0, 0], Syscall.pread 4,
              Syscall.pwrite [28, 1, 1, 0, 0, 0, 0, 0, 2],
              Syscall.pwrite [28, 1, 1, 0, 1, 0, 0, 0], Syscall.pread 1, Syscall.sleep 50,
              Syscall.pwrite [28, 1, 1, 0, 1, 0, 0, 0], Syscall.pread 1, Syscall.sleep 50,
              Syscall.pwrite [28, 1, 1, 0, 1, 0, 0, 0], Syscall.pread 1,
              Syscall.pwrite [28, 1, 1, 0, 0, 0, 0, 0, 0]] }) :=
  (C15_polls_until_flag_reads_consumed sampleGenCP (scriptedChannel 1032) 3
    { script := receiveScript [0, 1, 2], calls := [] } _ _ _ _ _ _ _ [0, 0, 0, 0] [9, 9, 9, 9]
    [0, 4] 4 1 0 0 0 0 0 [0, 1]
    (by rfl) (by decide) (by rfl) (by decide) (by decide) (by rfl) (by decide) (by rfl)
    (by decide)
    ⟨_, ⟨by decide, by intro _; rfl⟩, _, ⟨by decide, by intro _; rfl⟩, by rfl⟩
    (by decide)
    ⟨by decide, by intro _; rfl⟩
    (by rfl) (by decide) (by decide)).1
/-! ## Register link: the commands sent, field by field -/

theorem chunk_size_zero (rem L : Nat) : (if rem > L then L else rem) = min L (rem - 0 * L) := by
  split <;> omega

theorem chunk_size_succ (rem L i : Nat) :
    min L (rem - (if rem > L then L else rem) - i * L) = min L (rem - (i + 1) * L) := by
  rw [Nat.add_mul, Nat.one_mul]
  split <;> omega

theorem writeRegister_loop_sent_exact {σ : Type} (pk : PaketLink σ) (L addr : Nat)
    (buffer : List Nat) :
    ∀ (fuel rem k r : Nat) (s : σ) (log : List PaketEvent) (res : Int) (k1 r1 : Nat) (s1 : σ)
      (log1 : List PaketEvent),
      AlviumGenCP.writeRegister.loop pk.logged L addr buffer fuel rem k r (s, log)
        = some (res, k1, r1, (s1, log1)) →
      ∃ (m : Nat), sentPakets log1 = sentPakets log ++
        (List.range m).map (fun i =>
          writeMemCmd ((addr + (k + i) * L % 2 ^ 64) % 2 ^ 64)
            ((buffer.drop ((k + i) * L % 2 ^ 64)).take (min L (rem - i * L)))
            (AlviumGenCP.nextRequestId^[i] r)) := by
  intro fuel
  induction fuel with
  | zero =>
    intro rem k r s log res k1 r1 s1 log1 h
    unfold AlviumGenCP.writeRegister.loop at h
    split at h
    · simp at h
    · simp only [Option.some.injEq, Prod.mk.injEq] at h
      obtain ⟨_, _, _, _, rfl⟩ := h
      exact ⟨0, by simp⟩
  | succ fuel ih =>
    intro rem k r s log res k1 r1 s1 log1 h
    unfold AlviumGenCP.writeRegister.loop at h
    split at h
    · simp only [PaketLink.logged] at h
      have hcmd : writeMemCmd ((addr + k * L % 2 ^ 64) % 2 ^ 64)
            ((buffer.drop (k * L % 2 ^ 64)).take (if rem > L then L else rem)) r
          = writeMemCmd ((addr + (k + 0) * L % 2 ^ 64) % 2 ^ 64)
            ((buffer.drop ((k + 0) * L % 2 ^ 64)).take (min L (rem - 0 * L)))
            (AlviumGenCP.nextRequestId^[0] r) := by
        rw [chunk_size_zero, Nat.add_zero, Function.iterate_zero, id_eq]
      generalize writeMemCmd ((addr + k * L % 2 ^ 64) % 2 ^ 64)
        ((buffer.drop (k * L % 2 ^ 64)).take (if rem > L then L else rem)) r = cmd at h hcmd
      cases hw : pk.writePaket s cmd with
      | none => simp [hw] at h
      | some v =>
        obtain ⟨res0, s0⟩ := v
        simp only [hw] at h
        have hone : ∀ (e : Int) (c m : Nat) (t : σ) (lg : List PaketEvent),
            sentPakets lg = sentPakets (log ++ [PaketEvent.sent cmd res0]) →
            some (e, c, m, (t, lg)) = some (res, k1, r1, (s1, log1)) →
            ∃ (m : Nat), sentPakets log1 = sentPakets log ++
              (List.range m).map (fun i =>
                writeMemCmd ((addr + (k + i) * L % 2 ^ 64) % 2 ^ 64)
                  ((buffer.drop ((k + i) * L % 2 ^ 64)).take (min L (rem - i * L)))
                  (AlviumGenCP.nextRequestId^[i] r)) := by
          intro e c m t lg hlg h
          simp only [Option.some.injEq, Prod.mk.injEq] at h
          obtain ⟨_, _, _, _, rfl⟩ := h
          refine ⟨1, ?_⟩
          have hr : List.range 1 = [0] := rfl
          rw [hlg, hr, List.map_cons, List.map_nil, ← hcmd]
          simp [sentPakets_append, sentPakets]
        split at h
        · exact hone _ _ _ _ _ rfl h
        · cases ha : AlviumGenCP.writeRegister.recvAck pk.logged (fuel + 1)
              (s0, log ++ [PaketEvent.sent cmd res0]) with
          | none =>
            simp only [PaketLink.logged] at ha
            simp [ha] at h
          | some v =>
            obtain ⟨res2, ack, s2, log2⟩ := v
            have hsent := recvAck_logged_sent pk _ _ _ _ _ _ _ ha
            simp only [PaketLink.logged] at ha
            simp only [ha] at h
            split at h
            · exact hone _ _ _ _ _ hsent h
            · split at h
              · exact hone _ _ _ _ _ hsent h
              · split at h
                · exact hone _ _ _ _ _ hsent h
                · split at h
                  · exact hone _ _ _ _ _ hsent h
                  · obtain ⟨m, hs⟩ := ih _ _ _ _ _ _ _ _ _ _ h
                    refine ⟨m + 1, ?_⟩
                    rw [hs, hsent, List.range_succ_eq_map, List.map_cons, List.map_map, ← hcmd]
                    simp only [sentPakets_append, sentPakets, List.append_assoc,
                      List.singleton_append, List.nil_append]
                    congr 2
                    apply List.map_congr_left
                    intro i _
                    simp only [Function.comp, Function.iterate_succ_apply, chunk_size_succ]
                    have : k + 1 + i = k + (i + 1) := by omega
                    rw [this]
    · simp only [Option.some.injEq, Prod.mk.injEq] at h
      obtain ⟨_, _, _, _, rfl⟩ := h
      exact ⟨0, by simp⟩

theorem readRegister_loop_sent_exact {σ : Type} (pk : PaketLink σ) (L addr ptr : Nat) :
    ∀ (fuel rem k : Nat) (mem : List Nat) (s : σ) (log : List PaketEvent) (res : Int) (k1 : Nat)
      (mem1 : List Nat) (s1 : σ) (log1 : List PaketEvent),
      AlviumGenCP.readRegister.loop pk.logged L addr ptr fuel rem k mem (s, log)
        = some (res, k1, mem1, (s1, log1)) →
      ∃ (m : Nat), sentPakets log1 = sentPakets log ++
        (List.range m).map (fun i =>
          readMemCmd ((addr + (k + i) * L % 2 ^ 64) % 2 ^ 64) (min L (rem - i * L))) := by
  intro fuel
  induction fuel with
  | zero =>
    intro rem k mem s log res k1 mem1 s1 log1 h
    unfold AlviumGenCP.readRegister.loop at h
    split at h
    · simp at h
    · simp only [Option.some.injEq, Prod.mk.injEq] at h
      obtain ⟨_, _, _, _, rfl⟩ := h
      exact ⟨0, by simp⟩
  | succ fuel ih =>
    intro rem k mem s log res k1 mem1 s1 log1 h
    unfold AlviumGenCP.readRegister.loop at h
    split at h
    · simp only [PaketLink.logged] at h
      have hcmd : readMemCmd ((addr + k * L % 2 ^ 64) % 2 ^ 64) (if rem > L then L else rem)
          = readMemCmd ((addr + (k + 0) * L % 2 ^ 64) % 2 ^ 64) (min L (rem - 0 * L)) := by
        rw [chunk_size_zero, Nat.add_zero]
      generalize readMemCmd ((addr + k * L % 2 ^ 64) % 2 ^ 64) (if rem > L then L else rem)
        = cmd at h hcmd
      cases hw : pk.writePaket s cmd with
      | none => simp [hw] at h
      | some v =>
        obtain ⟨res0, s0⟩ := v
        simp only [hw] at h
        have hone : ∀ (e : Int) (c : Nat) (m : List Nat) (t : σ) (lg : List PaketEvent),
            sentPakets lg = sentPakets (log ++ [PaketEvent.sent cmd res0]) →
            some (e, c, m, (t, lg)) = some (res, k1, mem1, (s1, log1)) →
            ∃ (m : Nat), sentPakets log1 = sentPakets log ++
              (List.range m).map (fun i =>
                readMemCmd ((addr + (k + i) * L % 2 ^ 64) % 2 ^ 64) (min L (rem - i * L))) := by
          intro e c m t lg hlg h
          simp only [Option.some.injEq, Prod.mk.injEq] at h
          obtain ⟨_, _, _, _, rfl⟩ := h
          refine ⟨1, ?_⟩
          have hr : List.range 1 = [0] := rfl
          rw [hlg, hr, List.map_cons, List.map_nil, ← hcmd]
          simp [sentPakets_append, sentPakets]
        split at h
        · exact hone _ _ _ _ _ rfl h
        · generalize hr : pk.readPaket s0 _ _ = rd at h
          cases rd with
          | none => simp at h
          | some v =>
            obtain ⟨res2, ack, s2⟩ := v
            simp only at h
            have hlg : ∀ (x : PaketEvent), (∀ q r, x ≠ PaketEvent.sent q r) →
                sentPakets (log ++ [PaketEvent.sent cmd res0] ++ [x])
                  = sentPakets (log ++ [PaketEvent.sent cmd res0]) := by
              intro x hx
              rw [sentPakets_append (log ++ [PaketEvent.sent cmd res0])]
              cases x with
              | sent q r => exact absurd rfl (hx q r)
              | received _ _ _ => simp [sentPakets]
              | slept _ => simp [sentPakets]
            split at h
            · exact hone _ _ _ _ _ (hlg _ (by intro q r hq; cases hq)) h
            · split at h
              · exact hone _ _ _ _ _ (hlg _ (by intro q r hq; cases hq)) h
              · split at h
                · exact hone _ _ _ _ _ (hlg _ (by intro q r hq; cases hq)) h
                · obtain ⟨m, hs⟩ := ih _ _ _ _ _ _ _ _ _ _ h
                  refine ⟨m + 1, ?_⟩
                  rw [hs, hlg _ (by intro q r hq; cases hq), List.range_succ_eq_map,
                    List.map_cons, List.map_map, ← hcmd]
                  simp only [sentPakets_append, sentPakets, List.append_assoc,
                    List.singleton_append, List.nil_append]
                  refine congrArg (fun t => sentPakets log ++ cmd :: t) ?_
                  apply List.map_congr_left
                  intro i _
                  simp only [Function.comp, chunk_size_succ]
                  have : k + 1 + i = k + (i + 1) := by omega
                  rw [this]
    · simp only [Option.some.injEq, Prod.mk.injEq] at h
      obtain ⟨_, _, _, _, rfl⟩ := h
      exact ⟨0, by simp⟩

theorem getElem?_map_range {α : Type} (f : Nat → α) (m i : Nat) (p : α)
    (h : ((List.range m).map f)[i]? = some p) : p = f i := by
  rw [List.getElem?_map] at h
  by_cases hi : i < m
  · rw [List.getElem?_range hi] at h
    simp only [Option.map_some', Option.some.injEq] at h
    exact h.symm
  · rw [List.getElem?_eq_none (by rw [List.length_range]; omega)] at h
    simp at h

/-- C11 (as amended): the `i`-th WriteMem and the `i`-th ReadMem command packet
the link hands to the send handshake hold their multi-byte fields in host byte
order, least significant byte first on the little-endian hosts of this
embedding: the bytes at offsets 8 to 9 are `0x00, 0x40` (flags, request bit 14),
at offsets 10 to 11 `0x02, 0x08` for WriteMem and `0x00, 0x08` for ReadMem
(command id), followed by the length (8 plus the chunk's data bytes, or 12) and
the request id (the member advanced `i` times, or 0 for ReadMem), each as
`leBytes 2`; the 64-bit register address of the chunk,
`(addr + (k + i) * L) mod 2^64`, stands at offsets 16 to 23 as `leBytes 8`,
followed by the chunk's data for WriteMem and, for ReadMem, by two zero bytes and
the 16-bit read length `min L (rem - i * L)` as `leBytes 2` at offsets 26 to 27.
Byte `j` of `leBytes n v` is `v / 256^j mod 256`. -/
theorem C11_command_fields_host_order {σ : Type} (pk : PaketLink σ) (L addr ptr : Nat)
    (buffer mem : List Nat) (fuel rem k r : Nat) (s : σ) (resW : Int) (k1 r1 : Nat) (s1 : σ)
    (logW : List PaketEvent) (resR : Int) (k2 : Nat) (mem2 : List Nat) (s2 : σ)
    (logR : List PaketEvent)
    (hW : AlviumGenCP.writeRegister.loop pk.logged L addr buffer fuel rem k r (s, [])
      = some (resW, k1, r1, (s1, logW)))
    (hR : AlviumGenCP.readRegister.loop pk.logged L addr ptr fuel rem k mem (s, [])
      = some (resR, k2, mem2, (s2, logR))) :
    (∀ (i : Nat) (p : List Nat), (sentPakets logW)[i]? = some p →
      p.take 2 = [0x00, 0x01] ∧ (p.drop 6).take 2 = [0x00, 0x00] ∧
      p.drop 8 = [0x00, 0x40] ++ [0x02, 0x08]
        ++ leBytes 2 (8 + ((buffer.drop ((k + i) * L % 2 ^ 64)).take (min L (rem - i * L))).length)
        ++ leBytes 2 (AlviumGenCP.nextRequestId^[i] r)
        ++ leBytes 8 ((addr + (k + i) * L % 2 ^ 64) % 2 ^ 64)
        ++ (buffer.drop ((k + i) * L % 2 ^ 64)).take (min L (rem - i * L))) ∧
    (∀ (i : Nat) (p : List Nat), (sentPakets logR)[i]? = some p →
      p.take 2 = [0x00, 0x01] ∧ (p.drop 6).take 2 = [0x00, 0x00] ∧
      p.drop 8 = [0x00, 0x40] ++ [0x00, 0x08] ++ [0x0C, 0x00] ++ [0x00, 0x00]
        ++ leBytes 8 ((addr + (k + i) * L % 2 ^ 64) % 2 ^ 64)
        ++ [0x00, 0x00] ++ leBytes 2 (min L (rem - i * L))) ∧
    (∀ (n v : Nat), leBytes n v = (List.range n).map (fun j => v / 256 ^ j % 256)) := by
  refine ⟨?_, ?_, leBytes_eq_map⟩
  · obtain ⟨m, hs⟩ := writeRegister_loop_sent_exact pk L addr buffer _ _ _ _ _ _ _ _ _ _ _ hW
    simp only [sentPakets, List.nil_append] at hs
    intro i p hp
    rw [hs] at hp
    rw [getElem?_map_range _ m i p hp]
    exact writeMemCmd_layout _ _ _
  · obtain ⟨m, hs⟩ := readRegister_loop_sent_exact pk L addr ptr _ _ _ _ _ _ _ _ _ _ _ hR
    simp only [sentPakets, List.nil_append] at hs
    intro i p hp
    rw [hs] at hp
    rw [getElem?_map_range _ m i p hp]
    exact readMemCmd_layout _ _

/-- Instance of C11 on the acking link: the WriteMem command for the byte `0xAA`
at address `0x1122334455667788` with request id 1 has, from offset 8 on, the
bytes of flags, command id, length 9, request id 1, the address least
significant byte first, and the data byte. -/
theorem C11_command_fields_host_order_witness :
    (writeMemCmd 0x1122334455667788 [0xAA] 1).drop 8
      = [0x00, 0x40, 0x02, 0x08, 0x09, 0x00, 0x01, 0x00,
          0x88, 0x77, 0x66, 0x55, 0x44, 0x33, 0x22, 0x11, 0xAA] := by
  have h :=
    (C11_command_fields_host_order (ackingLink 1024) 1000 0x1122334455667788 0 [0xAA] [] 1 1 0
      1 [] 0 1 2 (writeMemCmd 0x1122334455667788 [0xAA] 1)
      [PaketEvent.sent (writeMemCmd 0x1122334455667788 [0xAA] 1) 0,
        PaketEvent.received 20 0
          (writeAt (List.replicate 20 0) 0 ((GenCPPaket 0 0 0x0803 4 1 [0, 0, 0, 0]).take 20))]
      0 1 _ _ _ (by rfl) (by rfl)).1 0 (writeMemCmd 0x1122334455667788 [0xAA] 1) (by rfl)
  rw [h.2.2]
  rfl
end Alvium
